import Mathlib

/-!
# The PNG strip tools: chunk codec, checksums and strip assembly

A shallow embedding of `lab_png.c` (and of the parts of its callers that the
properties below talk about), followed by the properties themselves.

Conventions of the embedding.

* A byte (`U8`, an `unsigned char`) is a `Fin 256`; a `U32` is a natural number
  kept below `2 ^ 32` by an explicit `% 2 ^ 32` wherever the C arithmetic can
  wrap.
* An input stream (`FILE *` opened for reading) is the list of bytes of the
  file together with the current position; `fread` returns the bytes it
  could read, which are fewer than requested at the end of the file.
* An output stream (`FILE *` opened for writing) is the list of the bytes
  handed to `fwrite` so far: the content of the file when the device takes
  every byte.
* `malloc` and `realloc` return a usable block, and pointer arguments are not
  `NULL` unless the model says so with an `Option`.
* The processes of `paster2.c` form a transition system: a state holds the
  shared buffer, the values of the semaphores `empty` and `full` and the place
  of every process in its code; one step is one semaphore operation or one
  critical section, and the steps of the processes interleave in any order.
  A transfer of libcurl is given by the pieces of the body it delivers and by
  whether it ends with an error.
* The strip store of `paster.c` is the `shared_data_t` without its lock; a
  delivery is one call of `write_cb` after the header callback has set the
  strip number.
* Where a property is about a write that fails, the output stream is a `sink`:
  a stream of the C library, fully buffered when it comes from `fopen`, on a
  device that takes a limited number of bytes.
* A string is the list of its characters without the terminating zero; the
  lines that a program prints are the constructors of a type of messages.
* `catpng.c` and `pnginfo.c` are embedded as their `main` functions, with the
  files named by the arguments given as byte lists.
-/

namespace lab_png

/-! ## lab_png.h -/

/-- An `unsigned char`. -/
abbrev U8 := Fin 256

/-- Number of bytes of the PNG signature. -/
def PNG_SIG_SIZE : Nat := 8

/-- Size in bytes of the chunk length field. -/
def CHUNK_LEN_SIZE : Nat := 4

/-- Size in bytes of the chunk type field. -/
def CHUNK_TYPE_SIZE : Nat := 4

/-- Size in bytes of the chunk CRC field. -/
def CHUNK_CRC_SIZE : Nat := 4

/-- Size in bytes of the data field of an IHDR chunk. -/
def DATA_IHDR_SIZE : Nat := 13

/-- The `struct chunk`: `length` and `crc` are `U32` values in host order,
`type` is the array `U8 type[4]`, `p_data` is the buffer `p_data` points to. -/
structure chunk where
  length : Nat
  type : List U8
  p_data : List U8
  crc : Nat
deriving DecidableEq

/-- The `struct data_IHDR`: `width` and `height` are `U32` values. -/
structure data_IHDR where
  width : Nat
  height : Nat
  bit_depth : U8
  color_type : U8
  compression : U8
  filter : U8
  interlace : U8
deriving DecidableEq

/-- The `struct simple_PNG`: three chunk pointers, each possibly `NULL`. -/
structure simple_PNG where
  p_IHDR : Option chunk
  p_IDAT : Option chunk
  p_IEND : Option chunk
deriving DecidableEq

/-! ## The C library pieces the code relies on -/

/-- An input stream: the bytes of the file and the current position. -/
structure FILE where
  data : List U8
  pos : Nat
deriving DecidableEq

/-- The third argument of `fseek`. -/
inductive Whence where
  | SEEK_SET
  | SEEK_CUR
  | SEEK_END
deriving DecidableEq

/-- Reading up to `n` bytes with `fread`: the bytes obtained (fewer than `n`
when the file ends first) and the stream advanced past them. -/
def fread (n : Nat) (fp : FILE) : List U8 × FILE :=
  let got := (fp.data.drop fp.pos).take n
  (got, { fp with pos := fp.pos + got.length })

/-- Repositioning with `fseek`: result `0` and the new position, or `-1` and
the stream unchanged when the target position would be negative. A position
past the end of the file is accepted, as on a regular file; every read from
there is short. -/
def fseek (fp : FILE) (offset : Int) (whence : Whence) : Int × FILE :=
  let base : Int :=
    match whence with
    | Whence.SEEK_SET => 0
    | Whence.SEEK_CUR => (fp.pos : Int)
    | Whence.SEEK_END => (fp.data.length : Int)
  if base + offset < 0 then (-1, fp) else (0, { fp with pos := (base + offset).toNat })

/-- The value `ntohl` gives for a `U32` whose bytes in memory, in address
order, are `b`: the big-endian value of `b`. -/
def ntohl (b : List U8) : Nat :=
  b.foldl (fun acc x => acc * 256 + x.val) 0

/-- The bytes in memory, in address order, of `htonl n` for a `U32` `n`. -/
def htonl (n : Nat) : List U8 :=
  [Fin.ofNat (n / 2 ^ 24), Fin.ofNat (n / 2 ^ 16), Fin.ofNat (n / 2 ^ 8), Fin.ofNat n]

/-! ## lab_png.c: signature, header and chunk reading -/

/-- The array `expected_signature` of `is_png`. -/
def expected_signature : List U8 := [0x89, 0x50, 0x4E, 0x47, 0x0D, 0x0A, 0x1A, 0x0A]

/-- The string "IHDR". -/
def IHDR_tag : List U8 := [0x49, 0x48, 0x44, 0x52]

/-- The string "IDAT". -/
def IDAT_tag : List U8 := [0x49, 0x44, 0x41, 0x54]

/-- The string "IEND". -/
def IEND_tag : List U8 := [0x49, 0x45, 0x4E, 0x44]

/-- The function `is_png`: `buf` is the memory `buf` points to. -/
def is_png (buf : List U8) (n : Nat) : Int :=
  if n < PNG_SIG_SIZE then 0
  else if buf.take PNG_SIG_SIZE = expected_signature then 1 else 0

/-- The expression `(b0 << 24) | (b1 << 16) | (b2 << 8) | b3` stored in a
`U32`: the bytes are promoted to `int`, the bit pattern of the result is kept
by the conversion to `U32`. -/
def pack_U32 (b0 b1 b2 b3 : U8) : Nat :=
  ((b0.val <<< 24) ||| (b1.val <<< 16) ||| (b2.val <<< 8) ||| b3.val) % 2 ^ 32

/-- The function `get_png_data_IHDR`: `out` is the previous content of `*out`,
the result is the return value, the new content of `*out` and the stream. -/
def get_png_data_IHDR (out : data_IHDR) (fp : FILE) (offset : Int) (whence : Whence) :
    Int × data_IHDR × FILE :=
  let (r, fp) := fseek fp offset whence
  if r ≠ 0 then (0, out, fp) else
  let (len_buf, fp) := fread 4 fp
  if len_buf.length ≠ 4 then (0, out, fp) else
  let length := ntohl len_buf
  let (type, fp) := fread CHUNK_TYPE_SIZE fp
  if type.length ≠ CHUNK_TYPE_SIZE then (0, out, fp) else
  if type ≠ IHDR_tag ∨ length ≠ DATA_IHDR_SIZE then (0, out, fp) else
  let (buf, fp) := fread DATA_IHDR_SIZE fp
  if buf.length ≠ DATA_IHDR_SIZE then (0, out, fp) else
  let out : data_IHDR :=
    { width := pack_U32 (buf.getD 0 0) (buf.getD 1 0) (buf.getD 2 0) (buf.getD 3 0)
      height := pack_U32 (buf.getD 4 0) (buf.getD 5 0) (buf.getD 6 0) (buf.getD 7 0)
      bit_depth := buf.getD 8 0
      color_type := buf.getD 9 0
      compression := buf.getD 10 0
      filter := buf.getD 11 0
      interlace := buf.getD 12 0 }
  let (_, fp) := fseek fp CHUNK_CRC_SIZE Whence.SEEK_CUR
  (1, out, fp)

/-- The function `get_chunk`: the chunk read, or `none` for `NULL`, and the
stream after the reads that were made. -/
def get_chunk (fp : FILE) : Option chunk × FILE :=
  let (net_len, fp) := fread 4 fp
  if net_len.length ≠ 4 then (none, fp) else
  let length := ntohl net_len
  let (type, fp) := fread CHUNK_TYPE_SIZE fp
  if type.length ≠ CHUNK_TYPE_SIZE then (none, fp) else
  let (p_data, fp) := fread length fp
  if p_data.length ≠ length then (none, fp) else
  let (net_crc, fp) := fread 4 fp
  if net_crc.length ≠ 4 then (none, fp) else
  (some { length := length, type := type, p_data := p_data, crc := ntohl net_crc }, fp)

/-- The function `get_png_chunks`: `out` is the previous content of `*out`,
the result is the return value, the new content of `*out` and the stream. -/
def get_png_chunks (out : simple_PNG) (fp : FILE) (offset : Int) (whence : Whence) :
    Int × simple_PNG × FILE :=
  let (r, fp) := fseek fp offset whence
  if r ≠ 0 then (0, out, fp) else
  let (p_IHDR, fp) := get_chunk fp
  let (p_IDAT, fp) := get_chunk fp
  let (p_IEND, fp) := get_chunk fp
  let out : simple_PNG := { p_IHDR := p_IHDR, p_IDAT := p_IDAT, p_IEND := p_IEND }
  if p_IHDR.isNone ∨ p_IDAT.isNone ∨ p_IEND.isNone then (0, out, fp) else (1, out, fp)

/-- The function `mallocPNG`: a structure with three `NULL` pointers. -/
def mallocPNG : simple_PNG :=
  { p_IHDR := none, p_IDAT := none, p_IEND := none }

/-- The function `get_chunk_crc`. -/
def get_chunk_crc (c : Option chunk) : Nat :=
  match c with
  | some c => c.crc
  | none => 0

/-! ## lab_png.c: chunk writing -/

/-- The function `write_chunk` on an output stream `fp`: return value and the
stream after the four writes. -/
def write_chunk (fp : List U8) (c : Option chunk) : Int × List U8 :=
  match c with
  | none => (0, fp)
  | some c =>
    let fp := fp ++ htonl c.length
    let fp := fp ++ c.type.take CHUNK_TYPE_SIZE
    let fp := fp ++ c.p_data.take c.length
    let fp := fp ++ htonl c.crc
    (1, fp)

/-- The function `write_PNG`: return value and the content of the file at
`filepath` (`none` when the file is not opened); the array `sig` holds the
same bytes as `expected_signature`. -/
def write_PNG (png : simple_PNG) : Int × Option (List U8) :=
  if png.p_IHDR.isNone ∨ png.p_IDAT.isNone ∨ png.p_IEND.isNone then (0, none) else
  let fp : List U8 := []
  let fp := fp ++ expected_signature
  let (s1, fp) := write_chunk fp png.p_IHDR
  if s1 = 0 then (0, some fp) else
  let (s2, fp) := write_chunk fp png.p_IDAT
  if s2 = 0 then (0, some fp) else
  let (s3, fp) := write_chunk fp png.p_IEND
  (if s3 ≠ 0 then 1 else 0, some fp)

/-! ## Checksums -/

/-- Modelled from the spec: `crc.c` is not among the sources; this is one step
of the bitwise form of the standard CRC-32 (reflected polynomial
`0xedb88320`), the inner loop of `make_crc_table`. -/
def crc_round (c : Nat) : Nat :=
  if c % 2 = 1 then 0xedb88320 ^^^ (c >>> 1) else c >>> 1

/-- Modelled from the spec: `crc.c` is not among the sources; entry `n` of the
table of the standard CRC-32, eight rounds applied to `n`. -/
def crc_table (n : Nat) : Nat :=
  crc_round^[8] n

/-- Modelled from the spec: `crc.c` is not among the sources; the running
CRC-32 `update_crc` of the standard table-driven algorithm. -/
def update_crc (c : Nat) (buf : List U8) : Nat :=
  buf.foldl (fun c b => crc_table ((c ^^^ b.val) % 256) ^^^ (c >>> 8)) c

/-- Modelled from the spec: `crc.c` is not among the sources; `crc(buf, len)`,
the standard CRC-32 of the `len` bytes of `buf`. -/
def crc (buf : List U8) : Nat :=
  update_crc 0xffffffff buf ^^^ 0xffffffff

/-- Modelled from the spec: the checksum routine of the compression library is
not among the sources; `crc32(crc, buf, len)`, for a buffer pointer that is
not `NULL`, continues the standard CRC-32 `crc` of the bytes seen so far over
the `len` bytes of `buf`. -/
def crc32 (crc0 : Nat) (buf : List U8) : Nat :=
  update_crc (crc0 ^^^ 0xffffffff) buf ^^^ 0xffffffff

/-- The function `calculate_chunk_crc`: the buffer has `length + 4` bytes, a
`U32` sum, and holds the type followed by `length` bytes of data; the result
is stored in a `U32`. -/
def calculate_chunk_crc (c : Option chunk) : Nat :=
  match c with
  | none => 0
  | some c =>
    let n := (c.length + CHUNK_TYPE_SIZE) % 2 ^ 32
    let buf := c.type.take CHUNK_TYPE_SIZE ++ c.p_data.take c.length
    crc (buf.take n) % 2 ^ 32

/-! ## lab_png.c: assembling the strips -/

/-- The exit status `EXIT_SUCCESS`. -/
def EXIT_SUCCESS : Int := 0

/-- The exit status `EXIT_FAILURE`. -/
def EXIT_FAILURE : Int := 1

/-- The locals of `save_png_from_memstrips` that the strip loop updates:
`ref_hdr`, the buffer `concat_data` (whose length is `concat_size`) and the
`U32` `total_height`. -/
structure strip_acc where
  ref_hdr : data_IHDR
  concat_data : List U8
  total_height : Nat
deriving DecidableEq

/-- The `U32` expression `ref_hdr.height * (ref_hdr.width * bpp + 1)` with
`bpp = 4`, the size of the buffer handed to `mem_inf`. -/
def est_raw_size (hdr : data_IHDR) : Nat :=
  (hdr.height * ((hdr.width * 4 % 2 ^ 32 + 1) % 2 ^ 32)) % 2 ^ 32

/-- One iteration of the strip loop of `save_png_from_memstrips` on the stream
opened over `strip`. The decompression routine `mem_inf` is a black box: from
the capacity of the destination and the compressed bytes it gives the
inflated bytes, or `none` when it does not return `Z_OK`. -/
def strip_body (mem_inf : Nat → List U8 → Option (List U8)) (st : strip_acc)
    (strip : List U8) : strip_acc :=
  let fp : FILE := { data := strip, pos := 0 }
  let (sig_buf, fp) := fread PNG_SIG_SIZE fp
  if sig_buf.length ≠ PNG_SIG_SIZE ∨ is_png sig_buf PNG_SIG_SIZE = 0 then st else
  let (r, ref_hdr, fp) := get_png_data_IHDR st.ref_hdr fp PNG_SIG_SIZE Whence.SEEK_SET
  let st := { st with ref_hdr := ref_hdr }
  if r = 0 then st else
  let (r, png, _) := get_png_chunks mallocPNG fp PNG_SIG_SIZE Whence.SEEK_SET
  if r = 0 then st else
  match png.p_IDAT with
  | none => st
  | some idat =>
    match mem_inf (est_raw_size st.ref_hdr) (idat.p_data.take idat.length) with
    | none => st
    | some raw =>
      { st with
        concat_data := st.concat_data ++ raw
        total_height := (st.total_height + st.ref_hdr.height) % 2 ^ 32 }

/-- The strip loop of `save_png_from_memstrips`: strips `0` to `49` in this
order, strip `i` being the first `sizes i` bytes of `data i`; `ref_hdr0` is
the content of the uninitialised local `ref_hdr`. -/
def strip_loop (mem_inf : Nat → List U8 → Option (List U8)) (ref_hdr0 : data_IHDR)
    (data : Nat → List U8) (sizes : Nat → Nat) : strip_acc :=
  (List.range 50).foldl (fun st i => strip_body mem_inf st ((data i).take (sizes i)))
    { ref_hdr := ref_hdr0, concat_data := [], total_height := 0 }

/-- The 13 bytes that `save_png_from_memstrips` puts in the output header. -/
def ihdr_data (ref_hdr : data_IHDR) (total_height : Nat) : List U8 :=
  [Fin.ofNat ((ref_hdr.width >>> 24) &&& 0xFF), Fin.ofNat ((ref_hdr.width >>> 16) &&& 0xFF),
   Fin.ofNat ((ref_hdr.width >>> 8) &&& 0xFF), Fin.ofNat (ref_hdr.width &&& 0xFF),
   Fin.ofNat ((total_height >>> 24) &&& 0xFF), Fin.ofNat ((total_height >>> 16) &&& 0xFF),
   Fin.ofNat ((total_height >>> 8) &&& 0xFF), Fin.ofNat (total_height &&& 0xFF),
   ref_hdr.bit_depth, ref_hdr.color_type, ref_hdr.compression, ref_hdr.filter,
   ref_hdr.interlace]

/-- The function `save_png_from_memstrips`, the output file being opened:
exit status and the bytes handed to the output stream, in order. They are the
content of the output file when the device takes every byte; the function on
a device that does not is `sink.save_png_from_memstrips`. The compression
routine `mem_def` is a black box: from the capacity of the destination and
the raw bytes it gives the deflated bytes, or `none` when it does not return
`Z_OK`. The `U64` `zlen` becomes the `U32` length of the data chunk. -/
def save_png_from_memstrips (mem_inf mem_def : Nat → List U8 → Option (List U8))
    (ref_hdr0 : data_IHDR) (data : Nat → List U8) (sizes : Nat → Nat) : Int × List U8 :=
  let out : List U8 := []
  let out := out ++ expected_signature
  let st := strip_loop mem_inf ref_hdr0 data sizes
  let ihdr : chunk :=
    { length := DATA_IHDR_SIZE, type := IHDR_tag,
      p_data := ihdr_data st.ref_hdr st.total_height, crc := 0 }
  let ihdr := { ihdr with crc := crc (ihdr.type.take 4) % 2 ^ 32 }
  let ihdr := { ihdr with crc := crc32 ihdr.crc (ihdr.p_data.take ihdr.length) % 2 ^ 32 }
  let (_, out) := write_chunk out (some ihdr)
  let zlen := st.concat_data.length * 2 % 2 ^ 64
  match mem_def zlen st.concat_data with
  | none => (EXIT_FAILURE, out)
  | some zout =>
    let idat : chunk :=
      { length := zout.length % 2 ^ 32, type := IDAT_tag, p_data := zout, crc := 0 }
    let idat := { idat with crc := calculate_chunk_crc (some idat) }
    let (_, out) := write_chunk out (some idat)
    let iend : chunk := { length := 0, type := IEND_tag, p_data := [], crc := 0 }
    let iend := { iend with crc := calculate_chunk_crc (some iend) }
    let (_, out) := write_chunk out (some iend)
    (EXIT_SUCCESS, out)

/-! ## Notions used to state the properties -/

/-- The bytes of a chunk in a file. -/
def chunk_bytes (c : chunk) : List U8 :=
  htonl c.length ++ c.type ++ c.p_data ++ htonl c.crc

/-- The bytes of a stream from its current position to the end of the file. -/
def remaining (fp : FILE) : List U8 := fp.data.drop fp.pos

/-- The fields of a chunk have their C types: `length` and `crc` are `U32`
values and `type` holds 4 bytes. -/
def chunk.in_range (c : chunk) : Prop :=
  c.length < 2 ^ 32 ∧ c.crc < 2 ^ 32 ∧ c.type.length = 4

/-- The header fields held by 13 payload bytes. -/
def header_of_bytes (buf : List U8) : data_IHDR :=
  { width := ntohl (buf.take 4)
    height := ntohl ((buf.drop 4).take 4)
    bit_depth := buf.getD 8 0
    color_type := buf.getD 9 0
    compression := buf.getD 10 0
    filter := buf.getD 11 0
    interlace := buf.getD 12 0 }

/-- The condition under which `get_png_data_IHDR` succeeds. -/
def IHDR_at (s : List U8) : Prop :=
  21 ≤ s.length ∧ ntohl (s.take 4) = 13 ∧ (s.drop 4).take 4 = IHDR_tag

/-- The header with all fields zero. -/
def zero_IHDR : data_IHDR :=
  { width := 0, height := 0, bit_depth := 0, color_type := 0, compression := 0, filter := 0,
    interlace := 0 }

/-- The checks of one iteration of the strip loop, taken on their own: the
header of the strip and its inflated rows when the strip passes the signature
check, the header parse, the chunk parse and inflation, `none` otherwise. -/
def strip_decode (mem_inf : Nat → List U8 → Option (List U8)) (strip : List U8) :
    Option (data_IHDR × List U8) :=
  let fp : FILE := { data := strip, pos := 0 }
  let (sig_buf, fp) := fread PNG_SIG_SIZE fp
  if sig_buf.length ≠ PNG_SIG_SIZE ∨ is_png sig_buf PNG_SIG_SIZE = 0 then none else
  let (r, hdr, fp) := get_png_data_IHDR zero_IHDR fp PNG_SIG_SIZE Whence.SEEK_SET
  if r = 0 then none else
  let (r, png, _) := get_png_chunks mallocPNG fp PNG_SIG_SIZE Whence.SEEK_SET
  if r = 0 then none else
  match png.p_IDAT with
  | none => none
  | some idat =>
    match mem_inf (est_raw_size hdr) (idat.p_data.take idat.length) with
    | none => none
    | some raw => some (hdr, raw)

/-- The header height of a strip that passes all checks of the strip loop,
`0` for a strip that does not. -/
def strip_height (mem_inf : Nat → List U8 → Option (List U8)) (strip : List U8) : Nat :=
  match strip_decode mem_inf strip with
  | some (hdr, _) => hdr.height
  | none => 0

/-- The inflated rows of a strip that passes all checks of the strip loop, no
bytes for a strip that does not. -/
def strip_rows (mem_inf : Nat → List U8 → Option (List U8)) (strip : List U8) : List U8 :=
  match strip_decode mem_inf strip with
  | some (_, raw) => raw
  | none => []

/-- The header chunk that `save_png_from_memstrips` writes after the strip
loop has ended in state `st`. -/
def out_IHDR (st : strip_acc) : chunk :=
  { length := 13, type := IHDR_tag, p_data := ihdr_data st.ref_hdr st.total_height,
    crc := crc (IHDR_tag ++ ihdr_data st.ref_hdr st.total_height) }

/-- The data chunk that `save_png_from_memstrips` writes for the deflated
bytes `zout`. -/
def out_IDAT (zout : List U8) : chunk :=
  { length := zout.length % 2 ^ 32, type := IDAT_tag, p_data := zout.take (zout.length % 2 ^ 32),
    crc := calculate_chunk_crc (some { length := zout.length % 2 ^ 32, type := IDAT_tag,
                                       p_data := zout, crc := 0 }) }

/-- The end chunk that `save_png_from_memstrips` writes. -/
def out_IEND : chunk :=
  { length := 0, type := IEND_tag, p_data := [], crc := crc IEND_tag }

/-- Whether the fields of a chunk have their C types can be computed. -/
instance (c : chunk) : Decidable c.in_range := by
  unfold chunk.in_range
  infer_instance

/-- The Adler-32 checksum of the zlib format. -/
def adler32 (buf : List U8) : Nat :=
  let ab := buf.foldl
    (fun (ab : Nat × Nat) x => ((ab.1 + x.val) % 65521, (ab.2 + (ab.1 + x.val) % 65521) % 65521))
    (1, 0)
  ab.2 * 65536 + ab.1

/-- The zlib stream that holds `raw` in one final stored (uncompressed) block:
the two header bytes 78 01, the block header 01, the length and its
complement in little-endian order, the bytes themselves, and their Adler-32
in big-endian order. -/
def zlib_stored (raw : List U8) : List U8 :=
  [0x78, 0x01, 0x01, Fin.ofNat raw.length, Fin.ofNat (raw.length / 256),
    Fin.ofNat (65535 - raw.length), Fin.ofNat ((65535 - raw.length) / 256)] ++ raw ++
    htonl (adler32 raw)

/-- A stand-in for `mem_inf` where a concrete routine is needed: it inflates
the zlib streams made of one final stored block and refuses every other
input. -/
def stored_inf : Nat → List U8 → Option (List U8) :=
  fun _ source =>
    match source with
    | cmf :: flg :: hd :: l0 :: l1 :: n0 :: n1 :: rest =>
      if cmf = 0x78 ∧ flg = 0x01 ∧ hd = 0x01 ∧
          (l0.val + 256 * l1.val) + (n0.val + 256 * n1.val) = 65535 ∧
          rest.length = (l0.val + 256 * l1.val) + 4 ∧
          ntohl (rest.drop (l0.val + 256 * l1.val)) = adler32 (rest.take (l0.val + 256 * l1.val))
      then some (rest.take (l0.val + 256 * l1.val))
      else none
    | _ => none

/-- A stand-in for `mem_def` where a concrete routine is needed: buffers of
fewer than 65536 bytes are put in one stored block, longer ones are
refused. -/
def stored_def : Nat → List U8 → Option (List U8) :=
  fun _ source => if source.length < 65536 then some (zlib_stored source) else none

/-- A chunk with the given type and payload whose length and crc fields are
consistent with them. -/
def example_chunk (type p_data : List U8) : chunk :=
  { length := p_data.length, type := type, p_data := p_data, crc := crc (type ++ p_data) }

/-- The bytes of a strip of the given width and height (8-bit RGBA) whose data
chunk holds the zlib stream of `rows`. -/
def example_strip (width height : Nat) (rows : List U8) : List U8 :=
  expected_signature ++
    chunk_bytes (example_chunk IHDR_tag
      (ihdr_data { width := width, height := 0, bit_depth := 8, color_type := 6,
                   compression := 0, filter := 0, interlace := 0 } height)) ++
    chunk_bytes (example_chunk IDAT_tag (zlib_stored rows)) ++
    chunk_bytes (example_chunk IEND_tag [])

/-- Fifty strips of 400 by 6 pixels, strip `i` holding the single byte `i`. -/
def example_data : Nat → List U8 :=
  fun i => example_strip 400 6 [Fin.ofNat i]

/-- The sizes of the strips of `example_data`. -/
def example_sizes : Nat → Nat :=
  fun i => (example_data i).length

/-- An IHDR chunk for an image of 400 by 6 pixels. -/
def example_IHDR : chunk :=
  example_chunk IHDR_tag
    (ihdr_data { width := 400, height := 0, bit_depth := 8, color_type := 6,
                 compression := 0, filter := 0, interlace := 0 } 6)

/-- An IDAT chunk with three payload bytes. -/
def example_IDAT : chunk :=
  example_chunk IDAT_tag [1, 2, 3]

/-- An IEND chunk. -/
def example_IEND : chunk :=
  example_chunk IEND_tag []

/-! ## Strips used as concrete inputs -/

/-- The bytes of a strip whose header chunk holds the fields of `hdr` and whose
data chunk holds the zlib stream of `rows`. -/
def strip_of_header (hdr : data_IHDR) (rows : List U8) : List U8 :=
  expected_signature ++
    chunk_bytes (example_chunk IHDR_tag (ihdr_data hdr hdr.height)) ++
    chunk_bytes (example_chunk IDAT_tag (zlib_stored rows)) ++
    chunk_bytes (example_chunk IEND_tag [])

/-- The strip `example_strip width height rows` with the stored crc of its data
chunk changed (one added, modulo `2 ^ 32`). -/
def corrupted_strip (width height : Nat) (rows : List U8) : List U8 :=
  expected_signature ++
    chunk_bytes (example_chunk IHDR_tag
      (ihdr_data { width := width, height := 0, bit_depth := 8, color_type := 6,
                   compression := 0, filter := 0, interlace := 0 } height)) ++
    chunk_bytes { example_chunk IDAT_tag (zlib_stored rows) with
                  crc := (crc (IDAT_tag ++ zlib_stored rows) + 1) % 2 ^ 32 } ++
    chunk_bytes (example_chunk IEND_tag [])

/-- The table `example_data` with the data chunk checksum of strip 7
corrupted. -/
def corrupted_data : Nat → List U8 :=
  fun i => if i = 7 then corrupted_strip 400 6 [7] else example_data i

/-- The sizes of the strips of `corrupted_data`. -/
def corrupted_sizes : Nat → Nat :=
  fun i => (corrupted_data i).length

/-- The table `example_data` with strip 49 replaced by a strip of the same
height whose header declares width 200, bit depth 16 and colour type 2. -/
def mixed_data : Nat → List U8 :=
  fun i =>
    if i = 49 then
      strip_of_header { width := 200, height := 6, bit_depth := 16, color_type := 2,
                        compression := 0, filter := 0, interlace := 0 } [49]
    else example_data i

/-- The sizes of the strips of `mixed_data`. -/
def mixed_sizes : Nat → Nat :=
  fun i => (mixed_data i).length

/-- A document with two data chunks: signature, IHDR, IDAT, IDAT, IEND. -/
def two_IDAT_document : List U8 :=
  expected_signature ++ chunk_bytes example_IHDR ++ chunk_bytes example_IDAT ++
    chunk_bytes example_IDAT ++ chunk_bytes example_IEND

/-- The function `isspace` in the C locale: space, and the control characters
from tab to carriage return. -/
def isspace (c : U8) : Bool :=
  decide (c.val = 32 ∨ (9 ≤ c.val ∧ c.val ≤ 13))

/-- The function `isdigit`. -/
def isdigit (c : U8) : Bool :=
  decide (48 ≤ c.val ∧ c.val ≤ 57)

/-- The function `tolower` in the C locale. -/
def tolower (c : U8) : U8 :=
  if 65 ≤ c.val ∧ c.val ≤ 90 then c + 32 else c

/-- The value of the decimal digits at the head of `s`, continuing the value
`acc` of the digits already read. -/
def digits_value (acc : Nat) : List U8 → Nat
  | [] => acc
  | c :: rest => if isdigit c then digits_value (acc * 10 + (c.val - 48)) rest else acc

/-- The conversion of a `long` to an `int`: the low 32 bits, read as a signed
number. -/
def int_of_long (v : Int) : Int :=
  (v + 2 ^ 31) % 2 ^ 32 - 2 ^ 31

/-- The function `atoi` on the characters of a string (the end of the list
stands for the terminating zero, and any character that is not a digit ends
the number): white space is skipped, an optional sign is read, then the
decimal digits. A number outside the range of `int` has no defined result in
C; the model follows the C library the programs are built with, where `atoi`
is `(int) strtol(nptr, NULL, 10)`: the value is clamped to the range of `long`
and then converted to `int`. -/
def atoi (nptr : List U8) : Int :=
  let s := nptr.dropWhile isspace
  let negative : Bool :=
    match s with
    | c :: _ => decide (c.val = 45)
    | [] => false
  let s :=
    match s with
    | c :: rest => if c.val = 45 ∨ c.val = 43 then rest else s
    | [] => s
  let v : Int := (digits_value 0 s : Nat)
  let v := if negative then -v else v
  let v := max (-(2 ^ 63)) (min v (2 ^ 63 - 1))
  int_of_long v

/-- The function `strncasecmp`: at most `n` characters of the two strings are
compared without regard to case; the end of a list stands for the terminating
zero. The result is zero when they agree, and otherwise the difference of the
first two characters that differ, in lower case. -/
def strncasecmp (s1 s2 : List U8) (n : Nat) : Int :=
  match n, s1, s2 with
  | 0, _, _ => 0
  | _ + 1, [], [] => 0
  | _ + 1, [], c2 :: _ => -((tolower c2).val : Int)
  | _ + 1, c1 :: _, [] => ((tolower c1).val : Int)
  | n + 1, c1 :: r1, c2 :: r2 =>
    if tolower c1 ≠ tolower c2 then ((tolower c1).val : Int) - ((tolower c2).val : Int)
    else if c1.val = 0 then 0
    else strncasecmp r1 r2 n

/-! ## lab_png.c on an output stream that can fail -/

/-- The size of the buffer that the C library gives a stream opened by `fopen`
on a regular file: the block size of the file system, 4096 bytes. -/
def BLOCK_SIZE : Nat := 4096

/-- An output stream (`FILE *` opened for writing) on a device that takes only
`room` more bytes: `written` are the bytes that have reached the device. The
stream is unbuffered unless `buffered` is set. A fully buffered stream, as
`fopen` gives it, keeps the bytes `held` in a buffer of `BLOCK_SIZE` bytes,
which the C library allocates at the first write (`allocated`). -/
structure sink where
  written : List U8
  room : Nat
  buffered : Bool := false
  allocated : Bool := false
  held : List U8 := []
deriving DecidableEq

/-- The stream that `fopen(path, "wb")` gives for a new file on a device that
takes `room` bytes: fully buffered, nothing written, no buffer yet. -/
def sink.fopen (room : Nat) : sink :=
  { written := [], room := room, buffered := true }

/-- The loop of `write` calls by which the C library hands bytes to the
device: the device takes the bytes in order until it is full. The result is
the number of bytes taken. -/
def sink.write (bytes : List U8) (fp : sink) : Nat × sink :=
  let n := min bytes.length fp.room
  (n, { fp with written := fp.written ++ bytes.take n, room := fp.room - n })

/-- Flushing the buffer of a stream (allocating it first if the stream is
buffered and has none): the bytes held go to the device, and the buffer is
empty afterwards whether or not the device has taken them all. The result
tells whether it has. -/
def sink.flush (fp : sink) : Bool × sink :=
  let (n, fp1) := sink.write fp.held fp
  (decide (n = fp.held.length), { fp1 with held := [], allocated := fp.buffered })

/-- The function `fwrite(ptr, size, nmemb, fp)`, as the C library does it.
Bytes go into the free space of the buffer first. If some are left, the buffer
is flushed; if the flush fails, the call ends. Then a whole number of blocks
(everything, on an unbuffered stream) goes to the device directly; if the
device does not take all of it, the call ends. The rest is put in the buffer.
The bytes taken by the buffer or the device count as written, and the result
is `nmemb` when that is all of them and the number of complete items among
them otherwise. -/
def sink.fwrite (ptr : List U8) (size nmemb : Nat) (fp : sink) : Nat × sink :=
  let request := size * nmemb
  let bytes := ptr.take request
  if request = 0 then (0, fp) else
  let space := if fp.buffered ∧ fp.allocated then BLOCK_SIZE - fp.held.length else 0
  let count := min space bytes.length
  let fp := { fp with held := fp.held ++ bytes.take count }
  let s := bytes.drop count
  let to_do := bytes.length - count
  if to_do = 0 then (if bytes.length = request then nmemb else bytes.length / size, fp) else
  let (flushed, fp) := sink.flush fp
  if flushed = false then
    (if bytes.length - to_do = request then nmemb else (bytes.length - to_do) / size, fp) else
  let block_size := if fp.buffered then BLOCK_SIZE else 1
  let do_write := to_do - (if block_size ≥ 128 then to_do % block_size else 0)
  let (taken, fp) := sink.write (s.take do_write) fp
  let to_do := to_do - taken
  if taken < do_write then
    (if bytes.length - to_do = request then nmemb else (bytes.length - to_do) / size, fp) else
  let fp := { fp with held := fp.held ++ s.drop do_write }
  (if bytes.length = request then nmemb else bytes.length / size, fp)

/-- The function `fclose`: the buffer is flushed and the stream is gone. The
result is 0, or -1 (`EOF`) when the flush fails, and the file as it is on the
device. -/
def sink.fclose (fp : sink) : Int × sink :=
  let (flushed, fp) := sink.flush fp
  (if flushed then 0 else -1, { written := fp.written, room := fp.room })

/-- The function `write_chunk` on such a stream: return value and the stream
after the four calls of `fwrite`, whose results are not looked at. -/
def sink.write_chunk (fp : sink) (c : Option chunk) : Int × sink :=
  match c with
  | none => (0, fp)
  | some c =>
    let (_, fp) := sink.fwrite (htonl c.length) 4 1 fp
    let (_, fp) := sink.fwrite c.type 1 CHUNK_TYPE_SIZE fp
    let (_, fp) := sink.fwrite c.p_data 1 c.length fp
    let (_, fp) := sink.fwrite (htonl c.crc) 4 1 fp
    (1, fp)

/-- The function `write_PNG` when the file at `filepath` is on a device that
takes `room` bytes: return value and the file on the device after `fclose`,
whose result is not looked at (`none` when the file is not opened). -/
def sink.write_PNG (room : Nat) (png : simple_PNG) : Int × Option sink :=
  if png.p_IHDR.isNone ∨ png.p_IDAT.isNone ∨ png.p_IEND.isNone then (0, none) else
  let fp : sink := sink.fopen room
  let (n, fp) := sink.fwrite expected_signature 1 PNG_SIG_SIZE fp
  if n ≠ PNG_SIG_SIZE then (0, some (sink.fclose fp).2) else
  let (s1, fp) := sink.write_chunk fp png.p_IHDR
  if s1 = 0 then (0, some (sink.fclose fp).2) else
  let (s2, fp) := sink.write_chunk fp png.p_IDAT
  if s2 = 0 then (0, some (sink.fclose fp).2) else
  let (s3, fp) := sink.write_chunk fp png.p_IEND
  (if s3 ≠ 0 then 1 else 0, some (sink.fclose fp).2)

/-- The function `save_png_from_memstrips` when the output file is on a device
that takes `room` bytes: exit status and the file on the device after
`fclose`. The results of `fwrite`, `write_chunk` and `fclose` are not looked
at. -/
def sink.save_png_from_memstrips (mem_inf mem_def : Nat → List U8 → Option (List U8))
    (ref_hdr0 : data_IHDR) (data : Nat → List U8) (sizes : Nat → Nat) (room : Nat) :
    Int × sink :=
  let out : sink := sink.fopen room
  let (_, out) := sink.fwrite expected_signature 1 PNG_SIG_SIZE out
  let st := strip_loop mem_inf ref_hdr0 data sizes
  let ihdr : chunk :=
    { length := DATA_IHDR_SIZE, type := IHDR_tag,
      p_data := ihdr_data st.ref_hdr st.total_height, crc := 0 }
  let ihdr := { ihdr with crc := crc (ihdr.type.take 4) % 2 ^ 32 }
  let ihdr := { ihdr with crc := crc32 ihdr.crc (ihdr.p_data.take ihdr.length) % 2 ^ 32 }
  let (_, out) := sink.write_chunk out (some ihdr)
  let zlen := st.concat_data.length * 2 % 2 ^ 64
  match mem_def zlen st.concat_data with
  | none => (EXIT_FAILURE, (sink.fclose out).2)
  | some zout =>
    let idat : chunk :=
      { length := zout.length % 2 ^ 32, type := IDAT_tag, p_data := zout, crc := 0 }
    let idat := { idat with crc := calculate_chunk_crc (some idat) }
    let (_, out) := sink.write_chunk out (some idat)
    let iend : chunk := { length := 0, type := IEND_tag, p_data := [], crc := 0 }
    let iend := { iend with crc := calculate_chunk_crc (some iend) }
    let (_, out) := sink.write_chunk out (some iend)
    (EXIT_SUCCESS, (sink.fclose out).2)

/-- The stream `fp` is at a point where the bytes `handed` have been passed to
`fwrite` since the file was opened on a device with room for `room0` bytes:
the device holds the first bytes of `handed`, and either the device is full
or the bytes it holds followed by the bytes in the buffer are `handed`. -/
def sink.tracks (fp : sink) (handed : List U8) (room0 : Nat) : Prop :=
  fp.written <+: handed ∧ fp.written.length + fp.room = room0 ∧
  (fp.room = 0 ∨ fp.written ++ fp.held = handed)

/-! ## Notions used to state the properties of the strip decoders -/

/-- The header fields held by the bytes 16 to 28 of a file or strip, where the
payload of the header chunk of a PNG file is: the header that the file
declares. -/
def declared_header (bytes : List U8) : data_IHDR :=
  header_of_bytes ((bytes.drop 16).take 13)

/-- A stand-in for `mem_inf` that shows which capacity it is called with: it
gives the one row byte 0 when the capacity is `c` and fails for every other
capacity. -/
def capacity_probe (c : Nat) : Nat → List U8 → Option (List U8) :=
  fun capacity _ => if capacity = c then some [0] else none

/-- A header that declares 40000 by 40000 pixels. -/
def wide_header : data_IHDR :=
  { width := 40000, height := 40000, bit_depth := 8, color_type := 6, compression := 0,
    filter := 0, interlace := 0 }

end lab_png

namespace paster2

/-! ## paster2.c: the shared buffer and the transfer callbacks -/

/-- The number of strips of an image. -/
def NUM_STRIPS : Nat := 50

/-- The capacity in bytes of one strip slot. -/
def MAX_SEGMENT_SIZE : Nat := 1024 * 30

/-- The `shared_buf_t` in shared memory. An array is a function of the index;
`in_` stands for the field `in`. The fields `in`, `out` and `next_id` only take
values that are not negative; `count` is kept as a C `int`. -/
structure shared_buf_t where
  received : Nat → Int
  sizes : Nat → Nat
  data : Nat → List lab_png.U8
  buf : Nat → Int
  in_ : Nat
  out : Nat
  count : Int
  next_id : Nat

/-- The `curl_data_t` accumulator: `buf` holds the `sz` bytes written so far
into the block of `MAX_SEGMENT_SIZE` bytes, the rest of which is
uninitialised. -/
structure curl_data_t where
  buf : List lab_png.U8
  sz : Nat
  frag_id : Int
deriving DecidableEq

/-- The function `write_cb`: returns the number of bytes taken and the
accumulator; `size * nmemb` and `cd->sz + total` are `size_t` values. -/
def write_cb (ptr : List lab_png.U8) (size nmemb : Nat) (cd : curl_data_t) :
    Nat × curl_data_t :=
  let total := size * nmemb % 2 ^ 64
  if (cd.sz + total) % 2 ^ 64 > MAX_SEGMENT_SIZE then (0, cd) else
  let cd := { cd with buf := cd.buf.take cd.sz ++ ptr.take total }
  let cd := { cd with sz := (cd.sz + total) % 2 ^ 64 }
  (total, cd)

/-- What the server and the network do during one transfer: the body arrives
in `pieces`, one call of the write callback per piece, and the transfer ends
normally or, when `network_error` is set, with an error after these pieces. -/
structure response where
  pieces : List (List lab_png.U8)
  network_error : Bool
deriving DecidableEq

/-- The result code `CURLE_OK`. -/
def CURLE_OK : Int := 0

/-- The result code `CURLE_WRITE_ERROR`. -/
def CURLE_WRITE_ERROR : Int := 23

/-- The result code `CURLE_RECV_ERROR`. -/
def CURLE_RECV_ERROR : Int := 56

/-- The body part of `curl_easy_perform` with `write_cb` installed: the pieces
are handed to `write_cb` in order with `size = 1`; the transfer is aborted
with `CURLE_WRITE_ERROR` as soon as `write_cb` returns another number than the
length of the piece. The header callback only sets `frag_id`, which the
producer never reads, and is left out. -/
def curl_easy_perform (pieces : List (List lab_png.U8)) (network_error : Bool)
    (cd : curl_data_t) : Int × curl_data_t :=
  match pieces with
  | [] => (if network_error then CURLE_RECV_ERROR else CURLE_OK, cd)
  | piece :: rest =>
    let (taken, cd) := write_cb piece 1 piece.length cd
    if taken ≠ piece.length then (CURLE_WRITE_ERROR, cd)
    else curl_easy_perform rest network_error cd

/-! ## paster2.c: producers, consumers and the orchestrator as a transition system

Every process is at one of the places of its code named below and moves by
one step at a time; the steps of all processes interleave in any order. One
step is one semaphore operation on `empty` or `full`, or one critical section
(the statements between `sem_wait(mutex)` and `sem_post(mutex)`, which no
other process can interleave with), or the statements of one process that
touch no shared queue field. A `sem_wait` on a semaphore whose value is 0 is
not enabled. -/

/-- The places of a producer: before the critical section that claims an id,
before the download of the claimed id, before `sem_wait(empty)`, before the
critical section that enqueues, before `sem_post(full)`, and after `exit`. -/
inductive producer_pc where
  | claim
  | fetch (id : Nat)
  | wait_empty (id : Nat)
  | enqueue (id : Nat)
  | post_full
  | exited
deriving DecidableEq

/-- The places of a consumer: before `sem_wait(full)`, before the critical
section that dequeues, before `sem_post(empty)` with the dequeued `id`, and
after `exit`. -/
inductive consumer_pc where
  | wait_full
  | dequeue
  | post_empty (id : Int)
  | exited
deriving DecidableEq

/-- The places of `main` once the processes are forked: waiting for the
producers, in iteration `i` of the poison-pill loop before `sem_wait(empty)`,
before its critical section, before `sem_post(full)`, waiting for the
consumers, and after the consumers have been joined (assembly). -/
inductive main_pc where
  | wait_producers
  | pill_wait (i : Nat)
  | pill_put (i : Nat)
  | pill_post (i : Nat)
  | wait_consumers
  | assemble
deriving DecidableEq

/-- The state of the whole system: the shared buffer, the values of the
semaphores `empty` and `full`, the place of every process, and three history
variables that are not in the program: the values stored in the queue so
far, the values taken from it so far, and the ids claimed so far, each in
order. -/
structure system where
  shm : shared_buf_t
  empty : Nat
  full : Nat
  producers : List producer_pc
  consumers : List consumer_pc
  main : main_pc
  pushed : List Int
  popped : List Int
  claimed : List Nat

/-- The state after `main` has zeroed the shared memory, opened the semaphores
with the values `B` and `0`, and forked `P` producers and `C` consumers. -/
def init (B P C : Nat) : system :=
  { shm := { received := fun _ => 0, sizes := fun _ => 0,
             data := fun _ => List.replicate MAX_SEGMENT_SIZE 0,
             buf := fun _ => 0, in_ := 0, out := 0, count := 0, next_id := 0 }
    empty := B
    full := 0
    producers := List.replicate P producer_pc.claim
    consumers := List.replicate C consumer_pc.wait_full
    main := main_pc.wait_producers
    pushed := []
    popped := []
    claimed := [] }

/-- The critical section of `producer` and of the poison-pill loop of `main`:
`buf[in] = v; in = (in + 1) % B; count++`. -/
def enqueue (B : Nat) (v : Int) (s : system) : system :=
  { s with
    shm := { s.shm with
             buf := Function.update s.shm.buf s.shm.in_ v
             in_ := (s.shm.in_ + 1) % B
             count := s.shm.count + 1 }
    pushed := s.pushed ++ [v] }

/-- One step of producer `k`, `none` when the producer is blocked or has
exited; `resp` is what the network does if the step is a download. -/
def producer_step (B : Nat) (k : Nat) (resp : response) (s : system) : Option system :=
  match s.producers[k]? with
  | none => none
  | some producer_pc.claim =>
    if s.shm.next_id ≥ NUM_STRIPS then
      some { s with producers := s.producers.set k producer_pc.exited }
    else
      some { s with
             shm := { s.shm with next_id := s.shm.next_id + 1 }
             claimed := s.claimed ++ [s.shm.next_id]
             producers := s.producers.set k (producer_pc.fetch s.shm.next_id) }
  | some (producer_pc.fetch id) =>
    let cd : curl_data_t := { buf := [], sz := 0, frag_id := -1 }
    let (_, cd) := curl_easy_perform resp.pieces resp.network_error cd
    some { s with
           shm := { s.shm with
                    data := Function.update s.shm.data id
                      (cd.buf.take cd.sz ++ (s.shm.data id).drop cd.sz)
                    sizes := Function.update s.shm.sizes id cd.sz
                    received := Function.update s.shm.received id 1 }
           producers := s.producers.set k (producer_pc.wait_empty id) }
  | some (producer_pc.wait_empty id) =>
    if s.empty = 0 then none
    else some { s with empty := s.empty - 1,
                       producers := s.producers.set k (producer_pc.enqueue id) }
  | some (producer_pc.enqueue id) =>
    some { enqueue B (id : Int) s with producers := s.producers.set k producer_pc.post_full }
  | some producer_pc.post_full =>
    some { s with full := s.full + 1, producers := s.producers.set k producer_pc.claim }
  | some producer_pc.exited => none

/-- One step of consumer `k`, `none` when the consumer is blocked or has
exited. -/
def consumer_step (B : Nat) (k : Nat) (s : system) : Option system :=
  match s.consumers[k]? with
  | none => none
  | some consumer_pc.wait_full =>
    if s.full = 0 then none
    else some { s with full := s.full - 1,
                       consumers := s.consumers.set k consumer_pc.dequeue }
  | some consumer_pc.dequeue =>
    let id := s.shm.buf s.shm.out
    some { s with
           shm := { s.shm with out := (s.shm.out + 1) % B, count := s.shm.count - 1 }
           popped := s.popped ++ [id]
           consumers := s.consumers.set k (consumer_pc.post_empty id) }
  | some (consumer_pc.post_empty id) =>
    some { s with
           empty := s.empty + 1
           consumers := s.consumers.set k
             (if id < 0 then consumer_pc.exited else consumer_pc.wait_full) }
  | some consumer_pc.exited => none

/-- One step of `main`, `none` when `main` is blocked or past the joins; the
number `C` of iterations of the poison-pill loop is the number of consumers
forked. -/
def main_step (B : Nat) (s : system) : Option system :=
  match s.main with
  | main_pc.wait_producers =>
    if s.producers.all (fun pc => pc = producer_pc.exited) then
      some { s with main := if 0 < s.consumers.length then main_pc.pill_wait 0
                            else main_pc.wait_consumers }
    else none
  | main_pc.pill_wait i =>
    if s.empty = 0 then none
    else some { s with empty := s.empty - 1, main := main_pc.pill_put i }
  | main_pc.pill_put i =>
    some { enqueue B (-1) s with main := main_pc.pill_post i }
  | main_pc.pill_post i =>
    some { s with full := s.full + 1,
                  main := if i + 1 < s.consumers.length then main_pc.pill_wait (i + 1)
                          else main_pc.wait_consumers }
  | main_pc.wait_consumers =>
    if s.consumers.all (fun pc => pc = consumer_pc.exited) then
      some { s with main := main_pc.assemble }
    else none
  | main_pc.assemble => none

/-- Which process moves next, with what the network does if a producer
downloads. -/
inductive action where
  | producer (k : Nat) (resp : response)
  | consumer (k : Nat)
  | main
deriving DecidableEq

/-- One step of the system. -/
def step (B : Nat) (s : system) (a : action) : Option system :=
  match a with
  | action.producer k resp => producer_step B k resp s
  | action.consumer k => consumer_step B k s
  | action.main => main_step B s

/-- The state reached from `s` by the steps `acts` in this order, `none` when
one of them is not enabled. -/
def run (B : Nat) (s : system) (acts : List action) : Option system :=
  match acts with
  | [] => some s
  | a :: rest =>
    match step B s a with
    | none => none
    | some t => run B t rest

/-! ## Notions used to state the properties of the queue -/

/-- A producer that has taken a unit of `empty` and not yet stored its id. -/
def producer_pc.holds_empty : producer_pc → Bool
  | producer_pc.enqueue _ => true
  | _ => false

/-- A producer that has stored its id and not yet posted `full`. -/
def producer_pc.owes_full : producer_pc → Bool
  | producer_pc.post_full => true
  | _ => false

/-- A consumer that has taken a unit of `full` and not yet dequeued. -/
def consumer_pc.holds_full : consumer_pc → Bool
  | consumer_pc.dequeue => true
  | _ => false

/-- A consumer that has dequeued and not yet posted `empty`. -/
def consumer_pc.owes_empty : consumer_pc → Bool
  | consumer_pc.post_empty _ => true
  | _ => false

/-- Whether `main` has taken a unit of `empty` and not yet stored its pill. -/
def main_pc.holds_empty : main_pc → Nat
  | main_pc.pill_put _ => 1
  | _ => 0

/-- Whether `main` has stored a pill and not yet posted `full`. -/
def main_pc.owes_full : main_pc → Nat
  | main_pc.pill_post _ => 1
  | _ => 0

/-- The values waiting in the queue, oldest first: the `n` slots of `buf` from
index `out` on, circularly. -/
def pending (B : Nat) (shm : shared_buf_t) (n : Nat) : List Int :=
  (List.range n).map (fun j => shm.buf ((shm.out + j) % B))

/-- The invariant of the queue: the indices are in range, the units of the two
semaphores and the processes between a semaphore operation and its critical
section account for `B` and for `count`, `in` is `count` slots after `out`,
and the values stored so far are the values taken so far followed by the
values waiting. -/
def queue_inv (B : Nat) (s : system) : Prop :=
  s.shm.in_ < B ∧ s.shm.out < B ∧
  (s.empty : Int) + s.shm.count + (s.producers.countP producer_pc.holds_empty : Nat) +
      (s.main.holds_empty : Nat) + (s.consumers.countP consumer_pc.owes_empty : Nat) = (B : Int) ∧
  (s.full : Int) + (s.producers.countP producer_pc.owes_full : Nat) + (s.main.owes_full : Nat) +
      (s.consumers.countP consumer_pc.holds_full : Nat) = s.shm.count ∧
  ∃ n : Nat, s.shm.count = (n : Int) ∧ s.shm.in_ = (s.shm.out + n) % B ∧
    s.pushed = s.popped ++ pending B s.shm n

/-- A producer that has claimed the id `x` and not yet stored it in the
queue. -/
def producer_pc.holds_id (x : Nat) : producer_pc → Bool
  | producer_pc.fetch id => decide (id = x)
  | producer_pc.wait_empty id => decide (id = x)
  | producer_pc.enqueue id => decide (id = x)
  | _ => false

/-- A producer that has left its loop. -/
def producer_pc.is_exited : producer_pc → Bool
  | producer_pc.exited => true
  | _ => false

/-- A consumer that has left its loop. -/
def consumer_pc.is_exited : consumer_pc → Bool
  | consumer_pc.exited => true
  | _ => false

/-- A consumer that has dequeued a negative value: it has exited, or it is
before its last `sem_post(empty)`, after which it exits. -/
def consumer_pc.got_pill : consumer_pc → Bool
  | consumer_pc.post_empty id => decide (id < 0)
  | consumer_pc.exited => true
  | _ => false

/-- The number of poison pills that `main` has stored in the queue, `C` being
the number of consumers. -/
def main_pc.pills (C : Nat) : main_pc → Nat
  | main_pc.wait_producers => 0
  | main_pc.pill_wait i => i
  | main_pc.pill_put i => i
  | main_pc.pill_post i => i + 1
  | main_pc.wait_consumers => C
  | main_pc.assemble => C

/-- The loop counter of the poison-pill loop is below `C` inside the loop. -/
def main_pc.in_loop (C : Nat) : main_pc → Prop
  | main_pc.pill_wait i => i < C
  | main_pc.pill_put i => i < C
  | main_pc.pill_post i => i < C
  | _ => True

/-- The invariant of the claims: the counter is at most 50, the ids claimed so
far are `0, 1, ..., next_id - 1` in this order, every id below the counter is
either held by exactly one producer or stored exactly once in the queue
history, no other id is held or stored, and a producer has exited only if the
counter has reached 50. -/
def claim_inv (s : system) : Prop :=
  s.shm.next_id ≤ NUM_STRIPS ∧
  s.claimed = List.range s.shm.next_id ∧
  (∀ x : Nat, s.pushed.count (x : Int) + s.producers.countP (producer_pc.holds_id x) =
    if x < s.shm.next_id then 1 else 0) ∧
  (0 < s.producers.countP producer_pc.is_exited → NUM_STRIPS ≤ s.shm.next_id)

/-- The invariant of the shutdown: `main` is past the join of the producers
only if every producer has exited, its loop counter is in range, the values
stored in the queue so far are ids followed by as many values `-1` as `main`
has stored pills, and the consumers that have dequeued a negative value are
as many as the negative values taken from the queue. -/
def shutdown_inv (s : system) : Prop :=
  (s.main ≠ main_pc.wait_producers → s.producers.countP producer_pc.is_exited = s.producers.length) ∧
  s.main.in_loop s.consumers.length ∧
  (∃ ids : List Nat,
    s.pushed = ids.map (fun x : Nat => (x : Int)) ++
      List.replicate (s.main.pills s.consumers.length) (-1)) ∧
  s.consumers.countP consumer_pc.got_pill = s.popped.countP (fun v => decide (v < 0))

/-- A consumer that has dequeued a negative value and is before its last
`sem_post(empty)`, after which it leaves the loop and exits. -/
def consumer_pc.exiting : consumer_pc → Bool
  | consumer_pc.post_empty id => decide (id < 0)
  | _ => false

/-- The values waiting in the queue of a state, oldest first. -/
def queue_contents (B : Nat) (s : system) : List Int :=
  pending B s.shm s.shm.count.toNat

/-- The invariant of the joins: the numbers of producers and consumers are
those forked, and `main` is past the join of the consumers only if every
consumer has exited. -/
def join_inv (P C : Nat) (s : system) : Prop :=
  s.producers.length = P ∧ s.consumers.length = C ∧
  (s.main = main_pc.assemble → s.consumers.countP consumer_pc.is_exited = s.consumers.length)

/-! ## Runs used as concrete inputs -/

/-- The state after the steps `acts` from the initial state; the initial state
itself when one of the steps is not enabled. -/
def state_after (B P C : Nat) (acts : List action) : system :=
  (run B (init B P C) acts).getD (init B P C)

/-- A transfer that delivers a body of three bytes in one piece. -/
def small_response : response := { pieces := [[1, 2, 3]], network_error := false }

/-- A transfer that fails before any byte of the body arrives. -/
def failed_response : response := { pieces := [], network_error := true }

/-- A transfer whose body of 30721 bytes arrives in one piece. -/
def oversize_response : response :=
  { pieces := [List.replicate (MAX_SEGMENT_SIZE + 1) 0], network_error := false }

/-- Producer 0 claims an id, downloads it with the response `resp`, stores it
in the queue and posts `full`. -/
def produce_one (resp : response) : List action :=
  List.replicate 5 (action.producer 0 resp)

/-- Consumer 0 takes a unit of `full`, dequeues and posts `empty`. -/
def consume_one : List action :=
  List.replicate 3 (action.consumer 0)

/-- One producer and one consumer hand over the 50 ids one at a time. -/
def all_strips : List action :=
  (List.replicate NUM_STRIPS (produce_one small_response ++ consume_one)).flatten

/-- The 50 ids are handed over, the producer exits, `main` joins it and stores
the one pill, and consumer 0 dequeues the pill: it is now before its
`sem_post(empty)`. -/
def pill_taken : List action :=
  all_strips ++ [action.producer 0 small_response, action.main, action.main, action.main,
    action.main, action.consumer 0, action.consumer 0]

/-- A complete run with one producer and one consumer: after the pill is
taken the consumer posts `empty` and exits, and `main` joins it. -/
def complete_run : List action :=
  pill_taken ++ [action.consumer 0, action.main]

/-- Producer 0 claims id 0, downloads it with the response `resp`, stores it
in the queue, posts `full` and claims again. -/
def fetch_then_claim (resp : response) : List action :=
  produce_one resp ++ [action.producer 0 small_response]

/-- A state in which no process is between a semaphore operation and the
critical section that goes with it: nobody has taken a unit of `empty` or
`full` without having stored or dequeued, and nobody has stored or dequeued
without having posted. -/
def quiescent (s : system) : Prop :=
  s.producers.countP producer_pc.holds_empty = 0 ∧
  s.producers.countP producer_pc.owes_full = 0 ∧
  s.consumers.countP consumer_pc.holds_full = 0 ∧
  s.consumers.countP consumer_pc.owes_empty = 0 ∧
  s.main.holds_empty = 0 ∧ s.main.owes_full = 0

/-- The accumulator after the calls of `write_cb` for the pieces `pieces` in
this order, each with `size = 1`, whatever the calls return. -/
def deliver_pieces (cd : curl_data_t) (pieces : List (List lab_png.U8)) : curl_data_t :=
  pieces.foldl (fun cd piece => (write_cb piece 1 piece.length cd).2) cd

/-! ## paster2.c: the checks of the arguments in `main` -/

/-- The five integers that `main` reads from its arguments. -/
structure arguments where
  B : Int
  P : Int
  C : Int
  X : Int
  N : Int
deriving DecidableEq

/-- The integers `atoi(argv[1])`, ..., `atoi(argv[5])`. -/
def parse_arguments (argv : List (List lab_png.U8)) : arguments :=
  { B := lab_png.atoi (argv.getD 1 [])
    P := lab_png.atoi (argv.getD 2 [])
    C := lab_png.atoi (argv.getD 3 [])
    X := lab_png.atoi (argv.getD 4 [])
    N := lab_png.atoi (argv.getD 5 []) }

/-- The start of `main`, up to the fork of the processes: `argv` holds the
program name followed by the arguments, `argc` is its length. The result is
the exit status when `main` returns from its checks, which come before the
shared memory, the semaphores and the processes are created; otherwise the
integers read and the state in which the processes start. -/
def main (argv : List (List lab_png.U8)) : Except Int (arguments × system) :=
  if argv.length ≠ 6 then Except.error lab_png.EXIT_FAILURE else
  let a := parse_arguments argv
  if a.B < 1 ∨ a.B > NUM_STRIPS ∨ a.P < 1 ∨ a.C < 1 ∨ a.X < 0 ∨ a.N < 1 ∨ a.N > 3 then
    Except.error lab_png.EXIT_FAILURE
  else Except.ok (a, init a.B.toNat a.P.toNat a.C.toNat)

/-- The argument vector of `paster2 5 1 2 0 1`, the program name being "p". -/
def example_argv : List (List lab_png.U8) :=
  [[112], [53], [49], [50], [48], [49]]

/-- The argument vector of `paster2 5 1 2 0 4`, whose image number is out of
range. -/
def bad_argv : List (List lab_png.U8) :=
  [[112], [53], [49], [50], [48], [52]]

end paster2

namespace paster

/-! ## paster.c: the strip store and the write callback -/

/-- The number of strips of an image. -/
def NUM_STRIPS : Nat := 50

/-- The `shared_data_t` of paster.c without its lock. An array is a function
of the index; `data[i]` is `none` for the null pointer and otherwise the
content of the block it points to. The C arrays have the 50 entries `0..49`,
and only at these indices do the functions describe the store: an access at
another index falls on a neighbouring member of the struct or outside it
(`received[50]` on the lock, `sizes[-1]` on `data[49]`, `received[-1]` on
`sizes[49]`), and no value of these functions stands for it. -/
structure shared_data_t where
  data : Int → Option (List lab_png.U8)
  sizes : Int → Nat
  received : Int → Int
  image_num : Int
  downloaded : Int
  current_header_strip : Int

/-- The store after `shared_data_t shared = {0}` and the assignment of
`image_num` in `main`. -/
def init (image_num : Int) : shared_data_t :=
  { data := fun _ => none, sizes := fun _ => 0, received := fun _ => 0,
    image_num := image_num, downloaded := 0, current_header_strip := 0 }

/-- The function `write_cb`: returns the number of bytes taken and the store;
`size * nmemb` is a `size_t` value, and `ptr` points to that many bytes. The
store returned is that of the C program when `current_header_strip` lies in
`0..49`. -/
def write_cb (ptr : List lab_png.U8) (size nmemb : Nat) (shared : shared_data_t) :
    Nat × shared_data_t :=
  let total := size * nmemb % 2 ^ 64
  let strip_no := shared.current_header_strip
  if shared.received strip_no = 0 then
    (total, { shared with
              data := Function.update shared.data strip_no (some (ptr.take total))
              sizes := Function.update shared.sizes strip_no total
              received := Function.update shared.received strip_no 1
              downloaded := shared.downloaded + 1 })
  else (total, shared)

/-! ## Notions used to state the properties of the strip store -/

/-- The string "X-Ece252-Fragment:", 18 characters. -/
def fragment_name : List lab_png.U8 :=
  [88, 45, 69, 99, 101, 50, 53, 50, 45, 70, 114, 97, 103, 109, 101, 110, 116, 58]

/-- The function `header_cb`: `buffer` holds the `size * nitems` bytes of one
header line. Returns the number of bytes taken and the store. -/
def header_cb (buffer : List lab_png.U8) (size nitems : Nat) (shared : shared_data_t) :
    Nat × shared_data_t :=
  let total := size * nitems % 2 ^ 64
  if lab_png.strncasecmp buffer fragment_name 18 = 0 then
    let strip_no := lab_png.atoi (buffer.drop 18)
    (total, { shared with current_header_strip := strip_no })
  else (total, shared)

/-- What the server and the network do during one transfer: the header lines
of the response, the pieces in which the body arrives, and whether the
transfer ends with an error after them. -/
structure response where
  headers : List (List lab_png.U8)
  pieces : List (List lab_png.U8)
  network_error : Bool
deriving DecidableEq

/-- The result code `CURLE_OK`. -/
def CURLE_OK : Int := 0

/-- The result code `CURLE_WRITE_ERROR`. -/
def CURLE_WRITE_ERROR : Int := 23

/-- The result code `CURLE_RECV_ERROR`. -/
def CURLE_RECV_ERROR : Int := 56

/-- The body part of `curl_easy_perform`: the pieces are handed to `write_cb`
in order with `size = 1`, and the transfer is aborted with
`CURLE_WRITE_ERROR` as soon as `write_cb` returns another number than the
length of the piece. -/
def perform_body (pieces : List (List lab_png.U8)) (network_error : Bool)
    (shared : shared_data_t) : Int × shared_data_t :=
  match pieces with
  | [] => (if network_error then CURLE_RECV_ERROR else CURLE_OK, shared)
  | piece :: rest =>
    let (taken, shared) := write_cb piece 1 piece.length shared
    if taken ≠ piece.length then (CURLE_WRITE_ERROR, shared)
    else perform_body rest network_error shared

/-- The function `curl_easy_perform` with `header_cb` and `write_cb`
installed: every header line is handed to `header_cb` with `size = 1`, then
the body is delivered. The transfer is aborted with `CURLE_WRITE_ERROR` when
`header_cb` returns another number than the length of the line. -/
def curl_easy_perform (headers : List (List lab_png.U8)) (pieces : List (List lab_png.U8))
    (network_error : Bool) (shared : shared_data_t) : Int × shared_data_t :=
  match headers with
  | [] => perform_body pieces network_error shared
  | line :: rest =>
    let (taken, shared) := header_cb line 1 line.length shared
    if taken ≠ line.length then (CURLE_WRITE_ERROR, shared)
    else curl_easy_perform rest pieces network_error shared

/-! ## Responses used as concrete inputs -/

/-- The header line "X-Ece252-Fragment: " followed by the characters `number`
and the line end. -/
def fragment_line (number : List lab_png.U8) : List lab_png.U8 :=
  fragment_name ++ [32] ++ number ++ [13, 10]

/-- A response for strip 7 whose body of five bytes arrives in two pieces. -/
def two_piece_response : response :=
  { headers := [fragment_line [55]], pieces := [[1, 2, 3], [4, 5]], network_error := false }

/-- The function `decompress_strip`: return value and the content of
`out_buffer` after a successful call. The routine `uncompress` of zlib is a
black box: from the capacity `out_len` of the destination and the compressed
bytes it gives the inflated bytes, or `none` when it does not return `Z_OK`.
No caller of this function is among the sources. -/
def decompress_strip (uncompress : Nat → List lab_png.U8 → Option (List lab_png.U8))
    (png_data : List lab_png.U8) (size : Nat) : Int × Option (List lab_png.U8) :=
  let fp : lab_png.FILE := { data := png_data.take size, pos := 0 }
  let (r, strip, _) := lab_png.get_png_chunks lab_png.mallocPNG fp 0 lab_png.Whence.SEEK_SET
  if r = 0 then (0, none) else
  let out_len := 400 * 6 + 6
  match strip.p_IDAT with
  | none => (0, none)
  | some idat =>
    match uncompress out_len (idat.p_data.take idat.length) with
    | none => (0, none)
    | some raw => (1, some raw)

end paster

namespace catpng

/-! ## catpng.c -/

/-- The locals of `main` that the loop over the input files updates:
`ref_hdr`, the buffer `concat_data` (whose length is `concat_size`), the `U32`
`total_height` and the count `valid_pngs`. -/
structure file_acc where
  ref_hdr : lab_png.data_IHDR
  concat_data : List lab_png.U8
  total_height : Nat
  valid_pngs : Nat
deriving DecidableEq

/-- One iteration of the loop of `main` over the input files: `file` holds the
bytes of the file named by the argument (`none` when it cannot be opened) and
`hdr0` is the content of the uninitialised local `hdr`. The decompression
routine `mem_inf` is a black box as in `save_png_from_memstrips`. -/
def file_body (mem_inf : Nat → List lab_png.U8 → Option (List lab_png.U8))
    (hdr0 : lab_png.data_IHDR) (st : file_acc) (file : Option (List lab_png.U8)) : file_acc :=
  match file with
  | none => st
  | some bytes =>
    let fp : lab_png.FILE := { data := bytes, pos := 0 }
    let (sig_buf, fp) := lab_png.fread lab_png.PNG_SIG_SIZE fp
    if sig_buf.length ≠ lab_png.PNG_SIG_SIZE ∨ lab_png.is_png sig_buf lab_png.PNG_SIG_SIZE = 0
    then st else
    let (r, hdr, fp) :=
      lab_png.get_png_data_IHDR hdr0 fp lab_png.PNG_SIG_SIZE lab_png.Whence.SEEK_SET
    if r = 0 then st else
    if st.valid_pngs ≠ 0 ∧
        (hdr.width ≠ st.ref_hdr.width ∨ hdr.bit_depth ≠ st.ref_hdr.bit_depth ∨
         hdr.color_type ≠ st.ref_hdr.color_type ∨ hdr.compression ≠ st.ref_hdr.compression ∨
         hdr.filter ≠ st.ref_hdr.filter ∨ hdr.interlace ≠ st.ref_hdr.interlace)
    then st else
    let st := if st.valid_pngs = 0 then { st with ref_hdr := hdr } else st
    let (r, png, _) :=
      lab_png.get_png_chunks lab_png.mallocPNG fp lab_png.PNG_SIG_SIZE lab_png.Whence.SEEK_SET
    if r = 0 then st else
    match png.p_IDAT with
    | none => st
    | some idat =>
      if lab_png.get_chunk_crc (some idat) ≠ lab_png.calculate_chunk_crc (some idat) then st else
      match mem_inf (lab_png.est_raw_size hdr) (idat.p_data.take idat.length) with
      | none => st
      | some raw =>
        { st with
          concat_data := st.concat_data ++ raw
          total_height := (st.total_height + hdr.height) % 2 ^ 32
          valid_pngs := st.valid_pngs + 1 }

/-- The loop of `main` over the input files, in the order of the arguments;
`ref_hdr0` is the content of the uninitialised local `ref_hdr`. -/
def file_loop (mem_inf : Nat → List lab_png.U8 → Option (List lab_png.U8))
    (ref_hdr0 hdr0 : lab_png.data_IHDR) (files : List (Option (List lab_png.U8))) : file_acc :=
  files.foldl (file_body mem_inf hdr0)
    { ref_hdr := ref_hdr0, concat_data := [], total_height := 0, valid_pngs := 0 }

/-- The function `main`, `files` being the files named by the arguments and
`all.png` being opened: exit status and the bytes written to `all.png`
(`none` when the file is not created). The compression routine `mem_def` is a
black box as in `save_png_from_memstrips`. -/
def main (mem_inf mem_def : Nat → List lab_png.U8 → Option (List lab_png.U8))
    (ref_hdr0 hdr0 : lab_png.data_IHDR) (files : List (Option (List lab_png.U8))) :
    Int × Option (List lab_png.U8) :=
  if files.length + 1 < 2 then (lab_png.EXIT_SUCCESS, none) else
  let out : List lab_png.U8 := []
  let out := out ++ lab_png.expected_signature
  let st := file_loop mem_inf ref_hdr0 hdr0 files
  if st.valid_pngs = 0 then (lab_png.EXIT_SUCCESS, some out) else
  let ihdr : lab_png.chunk :=
    { length := lab_png.DATA_IHDR_SIZE, type := lab_png.IHDR_tag,
      p_data := lab_png.ihdr_data st.ref_hdr st.total_height, crc := 0 }
  let ihdr := { ihdr with crc := lab_png.crc (ihdr.type.take 4) % 2 ^ 32 }
  let ihdr :=
    { ihdr with crc := lab_png.crc32 ihdr.crc (ihdr.p_data.take ihdr.length) % 2 ^ 32 }
  let (_, out) := lab_png.write_chunk out (some ihdr)
  let zlen := st.concat_data.length * 2 % 2 ^ 64
  match mem_def zlen st.concat_data with
  | none => (lab_png.EXIT_FAILURE, some out)
  | some zout =>
    let idat : lab_png.chunk :=
      { length := zout.length % 2 ^ 32, type := lab_png.IDAT_tag, p_data := zout, crc := 0 }
    let idat := { idat with crc := lab_png.crc (idat.type.take 4) % 2 ^ 32 }
    let idat :=
      { idat with crc := lab_png.crc32 idat.crc (idat.p_data.take idat.length) % 2 ^ 32 }
    let (_, out) := lab_png.write_chunk out (some idat)
    let iend : lab_png.chunk :=
      { length := 0, type := lab_png.IEND_tag, p_data := [], crc := 0 }
    let iend := { iend with crc := lab_png.crc (iend.type.take 4) % 2 ^ 32 }
    let (_, out) := lab_png.write_chunk out (some iend)
    (lab_png.EXIT_SUCCESS, some out)

/-! ## Notions used to state the properties of catpng -/

end catpng

namespace pnginfo

/-! ## pnginfo.c -/

/-- The lines that `main` prints, on either stream: the usage line, the four
error lines, the line with the dimensions and the line of the CRC error. -/
inductive message where
  | usage
  | unable_to_open
  | not_a_PNG
  | invalid_IHDR
  | failed_chunks
  | dimensions (width height : Nat)
  | crc_error (computed expected : Nat)
deriving DecidableEq

/-- The function `main`: `argc` is the argument count, `file` the bytes of the
file named by the argument (`none` when it cannot be opened), `ihdr0` the
content of the uninitialised local `ihdr`. The result is the exit status and
the lines printed. -/
def main (ihdr0 : lab_png.data_IHDR) (argc : Nat) (file : Option (List lab_png.U8)) :
    Int × List message :=
  if argc ≠ 2 then (lab_png.EXIT_FAILURE, [message.usage]) else
  match file with
  | none => (lab_png.EXIT_FAILURE, [message.unable_to_open])
  | some bytes =>
    let fp : lab_png.FILE := { data := bytes, pos := 0 }
    let (sig, fp) := lab_png.fread lab_png.PNG_SIG_SIZE fp
    if sig.length ≠ lab_png.PNG_SIG_SIZE ∨ lab_png.is_png sig lab_png.PNG_SIG_SIZE = 0 then
      (lab_png.EXIT_SUCCESS, [message.not_a_PNG]) else
    let (r, ihdr, fp) := lab_png.get_png_data_IHDR ihdr0 fp 0 lab_png.Whence.SEEK_SET
    if r = 0 then (lab_png.EXIT_FAILURE, [message.invalid_IHDR]) else
    let (r, png, _) := lab_png.get_png_chunks lab_png.mallocPNG fp 0 lab_png.Whence.SEEK_SET
    if r = 0 then (lab_png.EXIT_FAILURE, [message.failed_chunks]) else
    let expected_crc := lab_png.get_chunk_crc png.p_IDAT
    let computed_crc := lab_png.calculate_chunk_crc png.p_IDAT
    if expected_crc ≠ computed_crc then
      (lab_png.EXIT_SUCCESS,
        [message.dimensions ihdr.width ihdr.height,
         message.crc_error computed_crc expected_crc])
    else (lab_png.EXIT_SUCCESS, [message.dimensions ihdr.width ihdr.height])

/-- A file of 33 bytes: the signature, a header chunk for 400 by 6 pixels
with a zero CRC field. -/
def example_file : List lab_png.U8 :=
  lab_png.expected_signature ++ [0, 0, 0, 13] ++ lab_png.IHDR_tag ++
    [0, 0, 1, 144, 0, 0, 0, 6, 8, 6, 0, 0, 0] ++ [0, 0, 0, 0]

end pnginfo

/-! # Properties -/

set_option maxRecDepth 100000

namespace lab_png

/-! ### Reading and writing chunks -/

theorem htonl_length (n : Nat) : (htonl n).length = 4 := rfl

theorem ntohl_htonl (n : Nat) (h : n < 2 ^ 32) : ntohl (htonl n) = n := by
  simp only [ntohl, htonl, List.foldl, Fin.ofNat, Fin.val_mk]
  omega

theorem fread_fst (n : Nat) (fp : FILE) : (fread n fp).1 = (fp.data.drop fp.pos).take n := rfl

theorem fread_snd (n : Nat) (fp : FILE) :
    (fread n fp).2 = { data := fp.data, pos := fp.pos + min n (fp.data.length - fp.pos) } := by
  simp [fread]

theorem get_chunk_some (fp : FILE) (h : 12 + ntohl ((fp.data.drop fp.pos).take 4) ≤ fp.data.length - fp.pos) :
    get_chunk fp =
      (some { length := ntohl ((fp.data.drop fp.pos).take 4)
              type := (fp.data.drop (fp.pos + 4)).take 4
              p_data := (fp.data.drop (fp.pos + 8)).take (ntohl ((fp.data.drop fp.pos).take 4))
              crc := ntohl ((fp.data.drop (fp.pos + 8 + ntohl ((fp.data.drop fp.pos).take 4))).take 4) },
       { data := fp.data, pos := fp.pos + 12 + ntohl ((fp.data.drop fp.pos).take 4) }) := by
  obtain ⟨d, p⟩ := fp
  simp only at h
  generalize hL : ntohl ((d.drop p).take 4) = L at h
  simp only [get_chunk, fread, CHUNK_TYPE_SIZE, List.length_take, List.length_drop, hL]
  have h1 : min 4 (d.length - p) = 4 := by omega
  have h2 : min 4 (d.length - (p + 4)) = 4 := by omega
  have h3 : min L (d.length - (p + 4 + 4)) = L := by omega
  have h4 : min 4 (d.length - (p + 4 + 4 + L)) = 4 := by omega
  simp [h1, h2, h3, h4]
  omega

theorem get_chunk_none (fp : FILE)
    (h : fp.data.length - fp.pos < 12 + ntohl ((fp.data.drop fp.pos).take 4)) :
    get_chunk fp = (none, { data := fp.data, pos := fp.pos + (fp.data.length - fp.pos) }) := by
  obtain ⟨d, p⟩ := fp
  simp only at h
  generalize hL : ntohl ((d.drop p).take 4) = L at h
  simp only [get_chunk, fread, CHUNK_TYPE_SIZE, List.length_take, List.length_drop, hL]
  split_ifs <;> simp only [Prod.mk.injEq, FILE.mk.injEq, true_and, reduceCtorEq, false_and] <;> omega

theorem chunk_bytes_length (c : chunk) (hty : c.type.length = 4) (hlen : c.length = c.p_data.length) :
    (chunk_bytes c).length = 12 + c.length := by
  simp [chunk_bytes, htonl_length, hty, hlen]; omega

theorem drop_take_mid (a b c : List U8) (n m : Nat) (hn : a.length = n) (hm : b.length = m) :
    ((a ++ b ++ c).drop n).take m = b := by
  subst hn hm
  simp [List.append_assoc]

theorem get_chunk_chunk_bytes (pre rest : List U8) (c : chunk)
    (hl : c.length < 2 ^ 32) (hc : c.crc < 2 ^ 32) (hty : c.type.length = 4)
    (hlen : c.length = c.p_data.length) :
    get_chunk { data := pre ++ chunk_bytes c ++ rest, pos := pre.length } =
      (some c, { data := pre ++ chunk_bytes c ++ rest, pos := pre.length + 12 + c.length }) := by
  have e1 : ((pre ++ chunk_bytes c ++ rest).drop pre.length).take 4 = htonl c.length := by
    have : pre ++ chunk_bytes c ++ rest
        = pre ++ htonl c.length ++ (c.type ++ c.p_data ++ htonl c.crc ++ rest) := by
      simp [chunk_bytes, List.append_assoc]
    rw [this]; exact drop_take_mid _ _ _ _ _ rfl rfl
  have e2 : ((pre ++ chunk_bytes c ++ rest).drop (pre.length + 4)).take 4 = c.type := by
    have : pre ++ chunk_bytes c ++ rest
        = (pre ++ htonl c.length) ++ c.type ++ (c.p_data ++ htonl c.crc ++ rest) := by
      simp [chunk_bytes, List.append_assoc]
    rw [this]; exact drop_take_mid _ _ _ _ _ (by simp [htonl_length]) hty
  have e3 : ((pre ++ chunk_bytes c ++ rest).drop (pre.length + 8)).take c.length = c.p_data := by
    have : pre ++ chunk_bytes c ++ rest
        = (pre ++ htonl c.length ++ c.type) ++ c.p_data ++ (htonl c.crc ++ rest) := by
      simp [chunk_bytes, List.append_assoc]
    rw [this]; exact drop_take_mid _ _ _ _ _ (by simp [htonl_length, hty]) hlen.symm
  have e4 : ((pre ++ chunk_bytes c ++ rest).drop (pre.length + 8 + c.length)).take 4
      = htonl c.crc := by
    have : pre ++ chunk_bytes c ++ rest
        = (pre ++ htonl c.length ++ c.type ++ c.p_data) ++ htonl c.crc ++ rest := by
      simp [chunk_bytes, List.append_assoc]
    rw [this]; exact drop_take_mid _ _ _ _ _ (by simp [htonl_length, hty, hlen]; omega) rfl
  have hL : ntohl (((pre ++ chunk_bytes c ++ rest).drop pre.length).take 4) = c.length := by
    rw [e1, ntohl_htonl _ hl]
  have := get_chunk_some { data := pre ++ chunk_bytes c ++ rest, pos := pre.length } (by
    simp only [hL]
    simp [chunk_bytes_length c hty hlen])
  rw [this]
  simp only [hL, e2, e3, e4, ntohl_htonl _ hc]

theorem pack_U32_eq (b0 b1 b2 b3 : U8) : pack_U32 b0 b1 b2 b3 = ntohl [b0, b1, b2, b3] := by
  have h0 := b0.isLt
  have h1 := b1.isLt
  have h2 := b2.isLt
  have h3 := b3.isLt
  have e3 : (b2.val <<< 8) ||| b3.val = 2 ^ 8 * b2.val + b3.val := by
    rw [Nat.shiftLeft_eq, Nat.mul_comm, ← Nat.mul_add_lt_is_or (by omega)]
  have e2 : (b1.val <<< 16) ||| (2 ^ 8 * b2.val + b3.val)
      = 2 ^ 16 * b1.val + (2 ^ 8 * b2.val + b3.val) := by
    rw [Nat.shiftLeft_eq, Nat.mul_comm, ← Nat.mul_add_lt_is_or (by omega)]
  have e1 : (b0.val <<< 24) ||| (2 ^ 16 * b1.val + (2 ^ 8 * b2.val + b3.val))
      = 2 ^ 24 * b0.val + (2 ^ 16 * b1.val + (2 ^ 8 * b2.val + b3.val)) := by
    rw [Nat.shiftLeft_eq, Nat.mul_comm, ← Nat.mul_add_lt_is_or (by omega)]
  simp only [pack_U32, ntohl, List.foldl, Nat.lor_assoc, e3, e2, e1]
  omega

theorem write_chunk_eq (fp : List U8) (c : chunk) (hty : c.type.length = 4)
    (hlen : c.length = c.p_data.length) :
    write_chunk fp (some c) = (1, fp ++ chunk_bytes c) := by
  simp [write_chunk, chunk_bytes, CHUNK_TYPE_SIZE, hlen, List.take_of_length_le, ← hty,
    List.append_assoc]

theorem is_png_signature (rest : List U8) (n : Nat) (h : 8 ≤ n) :
    is_png (expected_signature ++ rest) n = 1 := by
  have : ¬ n < 8 := by omega
  simp [is_png, PNG_SIG_SIZE, this, expected_signature]

theorem fseek_set (fp : FILE) (k : Nat) :
    fseek fp (k : Int) Whence.SEEK_SET = (0, { data := fp.data, pos := k }) := by
  simp [fseek]

theorem get_png_chunks_eq (out : simple_PNG) (fp : FILE) (k : Nat) :
    get_png_chunks out fp (k : Int) Whence.SEEK_SET =
      (if (get_chunk { data := fp.data, pos := k }).1.isNone ∨
          (get_chunk (get_chunk { data := fp.data, pos := k }).2).1.isNone ∨
          (get_chunk (get_chunk (get_chunk { data := fp.data, pos := k }).2).2).1.isNone
        then 0 else 1,
       { p_IHDR := (get_chunk { data := fp.data, pos := k }).1
         p_IDAT := (get_chunk (get_chunk { data := fp.data, pos := k }).2).1
         p_IEND := (get_chunk (get_chunk (get_chunk { data := fp.data, pos := k }).2).2).1 },
       (get_chunk (get_chunk (get_chunk { data := fp.data, pos := k }).2).2).2) := by
  unfold get_png_chunks
  rw [fseek_set]
  dsimp only
  rw [if_neg (by decide)]
  split_ifs <;> rfl

theorem get_png_chunks_of_three (out : simple_PNG) (pre rest : List U8) (p : Nat) (c1 c2 c3 : chunk)
    (r1 : c1.in_range) (r2 : c2.in_range) (r3 : c3.in_range)
    (h1 : c1.length = c1.p_data.length) (h2 : c2.length = c2.p_data.length)
    (h3 : c3.length = c3.p_data.length) :
    get_png_chunks out
        { data := pre ++ chunk_bytes c1 ++ chunk_bytes c2 ++ chunk_bytes c3 ++ rest, pos := p }
        (pre.length : Int) Whence.SEEK_SET =
      (1, { p_IHDR := some c1, p_IDAT := some c2, p_IEND := some c3 },
        { data := pre ++ chunk_bytes c1 ++ chunk_bytes c2 ++ chunk_bytes c3 ++ rest,
          pos := pre.length + (12 + c1.length) + (12 + c2.length) + (12 + c3.length) }) := by
  obtain ⟨l1, k1, t1⟩ := r1
  obtain ⟨l2, k2, t2⟩ := r2
  obtain ⟨l3, k3, t3⟩ := r3
  have g1 := get_chunk_chunk_bytes pre (chunk_bytes c2 ++ chunk_bytes c3 ++ rest) c1 l1 k1 t1 h1
  have g2 := get_chunk_chunk_bytes (pre ++ chunk_bytes c1) (chunk_bytes c3 ++ rest) c2 l2 k2 t2 h2
  have g3 := get_chunk_chunk_bytes (pre ++ chunk_bytes c1 ++ chunk_bytes c2) rest c3 l3 k3 t3 h3
  have a1 : pre.length + 12 + c1.length = pre.length + (12 + c1.length) := by omega
  have a2 : (pre ++ chunk_bytes c1).length + 12 + c2.length
      = pre.length + (12 + c1.length) + (12 + c2.length) := by
    rw [List.length_append, chunk_bytes_length c1 t1 h1]; omega
  have a3 : (pre ++ chunk_bytes c1 ++ chunk_bytes c2).length + 12 + c3.length
      = pre.length + (12 + c1.length) + (12 + c2.length) + (12 + c3.length) := by
    rw [List.length_append, List.length_append, chunk_bytes_length c1 t1 h1,
      chunk_bytes_length c2 t2 h2]; omega
  have b2 : (pre ++ chunk_bytes c1).length = pre.length + (12 + c1.length) := by
    rw [List.length_append, chunk_bytes_length c1 t1 h1]
  have b3 : (pre ++ chunk_bytes c1 ++ chunk_bytes c2).length
      = pre.length + (12 + c1.length) + (12 + c2.length) := by
    rw [List.length_append, List.length_append, chunk_bytes_length c1 t1 h1,
      chunk_bytes_length c2 t2 h2]
  rw [a1] at g1
  rw [a2, b2] at g2
  rw [a3, b3] at g3
  have d1 : pre ++ chunk_bytes c1 ++ (chunk_bytes c2 ++ chunk_bytes c3 ++ rest)
      = pre ++ chunk_bytes c1 ++ chunk_bytes c2 ++ chunk_bytes c3 ++ rest := by
    simp only [List.append_assoc]
  have d2 : pre ++ chunk_bytes c1 ++ chunk_bytes c2 ++ (chunk_bytes c3 ++ rest)
      = pre ++ chunk_bytes c1 ++ chunk_bytes c2 ++ chunk_bytes c3 ++ rest := by
    simp only [List.append_assoc]
  rw [d1] at g1
  rw [d2] at g2
  generalize pre ++ chunk_bytes c1 ++ chunk_bytes c2 ++ chunk_bytes c3 ++ rest = D at g1 g2 g3 ⊢
  generalize pre.length = n at g1 g2 g3 ⊢
  rw [get_png_chunks_eq]
  simp only [g1, g2, g3]
  simp

/-- C1: a container of three chunks whose length fields equal their payload
byte counts is written by `write_PNG` as bytes that start with the signature
`is_png` accepts, and `get_png_chunks` at offset 8 of these bytes succeeds and
gives back the three chunks, equal in every field. -/
theorem write_PNG_round_trip (c1 c2 c3 : chunk) (out : simple_PNG) (p : Nat)
    (r1 : c1.in_range) (r2 : c2.in_range) (r3 : c3.in_range)
    (h1 : c1.length = c1.p_data.length) (h2 : c2.length = c2.p_data.length)
    (h3 : c3.length = c3.p_data.length) :
    ∃ bytes : List U8,
      write_PNG { p_IHDR := some c1, p_IDAT := some c2, p_IEND := some c3 } = (1, some bytes) ∧
      bytes.take 8 = [0x89, 0x50, 0x4E, 0x47, 0x0D, 0x0A, 0x1A, 0x0A] ∧
      is_png bytes 8 = 1 ∧
      get_png_chunks out { data := bytes, pos := p } 8 Whence.SEEK_SET =
        (1, { p_IHDR := some c1, p_IDAT := some c2, p_IEND := some c3 },
          { data := bytes, pos := bytes.length }) := by
  refine ⟨expected_signature ++ chunk_bytes c1 ++ chunk_bytes c2 ++ chunk_bytes c3, ?_, ?_, ?_, ?_⟩
  · simp [write_PNG, write_chunk_eq _ c1 r1.2.2 h1, write_chunk_eq _ c2 r2.2.2 h2,
      write_chunk_eq _ c3 r3.2.2 h3]
  · simp [expected_signature]
  · simpa [List.append_assoc] using
      is_png_signature (chunk_bytes c1 ++ chunk_bytes c2 ++ chunk_bytes c3) 8 (le_refl 8)
  · have := get_png_chunks_of_three out expected_signature [] p c1 c2 c3 r1 r2 r3 h1 h2 h3
    simp only [List.append_nil] at this
    have e : ((expected_signature.length : Nat) : Int) = 8 := rfl
    rw [e] at this
    rw [this]
    simp [chunk_bytes_length c1 r1.2.2 h1, chunk_bytes_length c2 r2.2.2 h2,
      chunk_bytes_length c3 r3.2.2 h3, expected_signature]
    omega

/-- Witness of `write_PNG_round_trip` on a concrete container. -/
theorem write_PNG_round_trip_witness :
    ∃ bytes : List U8,
      write_PNG { p_IHDR := some example_IHDR, p_IDAT := some example_IDAT,
                  p_IEND := some example_IEND } = (1, some bytes) ∧
      bytes.take 8 = [0x89, 0x50, 0x4E, 0x47, 0x0D, 0x0A, 0x1A, 0x0A] ∧
      is_png bytes 8 = 1 ∧
      get_png_chunks mallocPNG { data := bytes, pos := 0 } 8 Whence.SEEK_SET =
        (1, { p_IHDR := some example_IHDR, p_IDAT := some example_IDAT,
              p_IEND := some example_IEND },
          { data := bytes, pos := bytes.length }) :=
  write_PNG_round_trip example_IHDR example_IDAT example_IEND mallocPNG 0
    (by decide) (by decide) (by decide) (by decide) (by decide) (by decide)

theorem remaining_length (fp : FILE) : (remaining fp).length = fp.data.length - fp.pos := by
  simp [remaining]

/-- C2: `get_chunk` returns a chunk exactly when the remaining bytes `s` of
the stream number at least `12 + L`, `L` being the big-endian value of
`s[0..4)`; the chunk then has length `L`, type `s[4..8)`, payload `s[8..8+L)`
and crc the big-endian value of `s[8+L..12+L)`, and `12 + L` bytes are
consumed; on every shorter stream the result is `NULL`. -/
theorem get_chunk_iff (fp : FILE) :
    ((get_chunk fp).1.isSome ↔ 12 + ntohl ((remaining fp).take 4) ≤ (remaining fp).length) ∧
    (12 + ntohl ((remaining fp).take 4) ≤ (remaining fp).length →
      get_chunk fp =
        (some { length := ntohl ((remaining fp).take 4)
                type := ((remaining fp).drop 4).take 4
                p_data := ((remaining fp).drop 8).take (ntohl ((remaining fp).take 4))
                crc := ntohl (((remaining fp).drop (8 + ntohl ((remaining fp).take 4))).take 4) },
         { data := fp.data, pos := fp.pos + (12 + ntohl ((remaining fp).take 4)) })) ∧
    ((remaining fp).length < 12 + ntohl ((remaining fp).take 4) → (get_chunk fp).1 = none) := by
  have hsome : 12 + ntohl ((remaining fp).take 4) ≤ (remaining fp).length →
      get_chunk fp =
        (some { length := ntohl ((remaining fp).take 4)
                type := ((remaining fp).drop 4).take 4
                p_data := ((remaining fp).drop 8).take (ntohl ((remaining fp).take 4))
                crc := ntohl (((remaining fp).drop (8 + ntohl ((remaining fp).take 4))).take 4) },
         { data := fp.data, pos := fp.pos + (12 + ntohl ((remaining fp).take 4)) }) := by
    intro h
    rw [remaining_length] at h
    rw [get_chunk_some fp h]
    simp only [remaining, List.drop_drop, Prod.mk.injEq, Option.some.injEq, chunk.mk.injEq,
      FILE.mk.injEq, true_and]
    refine ⟨?_, ?_⟩
    · rw [Nat.add_assoc]
    · rw [Nat.add_assoc]
  have hnone : (remaining fp).length < 12 + ntohl ((remaining fp).take 4) →
      (get_chunk fp).1 = none := by
    intro h
    rw [remaining_length] at h
    rw [get_chunk_none fp h]
  refine ⟨⟨fun h => ?_, fun h => ?_⟩, hsome, hnone⟩
  · by_contra hc
    rw [hnone (by omega)] at h
    simp at h
  · rw [hsome h]; rfl

/-- Witness of `get_chunk_iff`: the header chunk of a strip is read at offset
8, and nothing is read from a strip cut after 20 bytes. -/
theorem get_chunk_iff_witness :
    get_chunk { data := example_strip 400 6 [1], pos := 8 } =
      (some example_IHDR, { data := example_strip 400 6 [1], pos := 33 }) ∧
    (get_chunk { data := (example_strip 400 6 [1]).take 20, pos := 8 }).1 = none :=
  ⟨((get_chunk_iff { data := example_strip 400 6 [1], pos := 8 }).2.1 (by decide)).trans
      (by decide),
    (get_chunk_iff { data := (example_strip 400 6 [1]).take 20, pos := 8 }).2.2 (by decide)⟩

/-- C3: for a chunk whose length field equals its payload byte count,
`write_chunk` appends exactly `12 + length` bytes: the 4-byte big-endian
length, the 4 type bytes, the payload unchanged and unpadded, and the 4-byte
big-endian crc, in this order. -/
theorem write_chunk_layout (fp : List U8) (c : chunk) (r : c.in_range)
    (hlen : c.length = c.p_data.length) :
    ∃ len_bytes crc_bytes : List U8,
      write_chunk fp (some c) = (1, fp ++ (len_bytes ++ c.type ++ c.p_data ++ crc_bytes)) ∧
      len_bytes.length = 4 ∧ ntohl len_bytes = c.length ∧
      crc_bytes.length = 4 ∧ ntohl crc_bytes = c.crc ∧
      (write_chunk fp (some c)).2.length = fp.length + (12 + c.length) := by
  refine ⟨htonl c.length, htonl c.crc, ?_, rfl, ntohl_htonl _ r.1, rfl, ntohl_htonl _ r.2.1, ?_⟩
  · rw [write_chunk_eq fp c r.2.2 hlen]; rfl
  · rw [write_chunk_eq fp c r.2.2 hlen]
    simp only [List.length_append, chunk_bytes_length c r.2.2 hlen]

/-- Witness of `write_chunk_layout` on a concrete chunk. -/
theorem write_chunk_layout_witness :
    ∃ len_bytes crc_bytes : List U8,
      write_chunk [] (some example_IDAT) =
        (1, [] ++ (len_bytes ++ example_IDAT.type ++ example_IDAT.p_data ++ crc_bytes)) ∧
      len_bytes.length = 4 ∧ ntohl len_bytes = example_IDAT.length ∧
      crc_bytes.length = 4 ∧ ntohl crc_bytes = example_IDAT.crc ∧
      (write_chunk [] (some example_IDAT)).2.length = ([] : List U8).length + (12 + example_IDAT.length) :=
  write_chunk_layout [] example_IDAT (by decide) (by decide)

/-- C4: `is_png(buf, n)` is non-zero exactly when `n >= 8` and the first 8
bytes of `buf` are 89 50 4E 47 0D 0A 1A 0A; two buffers with the same first 8
bytes give the same result. -/
theorem is_png_iff (buf : List U8) (n : Nat) :
    (is_png buf n ≠ 0 ↔
      (8 ≤ n ∧ buf.take 8 = [0x89, 0x50, 0x4E, 0x47, 0x0D, 0x0A, 0x1A, 0x0A])) ∧
    (∀ other : List U8, other.take 8 = buf.take 8 → is_png other n = is_png buf n) := by
  constructor
  · unfold is_png PNG_SIG_SIZE expected_signature
    by_cases hn : n < 8
    · simp [hn]
    · by_cases hb : buf.take 8 = [0x89, 0x50, 0x4E, 0x47, 0x0D, 0x0A, 0x1A, 0x0A]
      · simp [hn, hb]; omega
      · simp [hn, hb]
  · intro other h
    simp only [is_png, PNG_SIG_SIZE, h]

/-- Witness of `is_png_iff`: the signature is accepted, also when other bytes
follow it. -/
theorem is_png_iff_witness :
    is_png [0x89, 0x50, 0x4E, 0x47, 0x0D, 0x0A, 0x1A, 0x0A] 8 ≠ 0 ∧
    is_png [0x89, 0x50, 0x4E, 0x47, 0x0D, 0x0A, 0x1A, 0x0A, 0x00, 0x01] 8 =
      is_png [0x89, 0x50, 0x4E, 0x47, 0x0D, 0x0A, 0x1A, 0x0A] 8 :=
  ⟨(is_png_iff [0x89, 0x50, 0x4E, 0x47, 0x0D, 0x0A, 0x1A, 0x0A] 8).1.mpr ⟨by decide, by decide⟩,
    (is_png_iff [0x89, 0x50, 0x4E, 0x47, 0x0D, 0x0A, 0x1A, 0x0A] 8).2
      [0x89, 0x50, 0x4E, 0x47, 0x0D, 0x0A, 0x1A, 0x0A, 0x00, 0x01] (by decide)⟩

/-! ### The header chunk -/

theorem header_of_bytes_eq (buf : List U8) (h : buf.length = 13) :
    ({ width := pack_U32 (buf.getD 0 0) (buf.getD 1 0) (buf.getD 2 0) (buf.getD 3 0)
       height := pack_U32 (buf.getD 4 0) (buf.getD 5 0) (buf.getD 6 0) (buf.getD 7 0)
       bit_depth := buf.getD 8 0
       color_type := buf.getD 9 0
       compression := buf.getD 10 0
       filter := buf.getD 11 0
       interlace := buf.getD 12 0 } : data_IHDR) = header_of_bytes buf := by
  match buf, h with
  | [b0, b1, b2, b3, b4, b5, b6, b7, b8, b9, b10, b11, b12], _ =>
    simp [header_of_bytes, pack_U32_eq]

theorem get_png_data_IHDR_fail (out : data_IHDR) (fp : FILE) (offset : Int) (whence : Whence)
    (h : ¬ ((fseek fp offset whence).1 = 0 ∧ IHDR_at (remaining (fseek fp offset whence).2))) :
    (get_png_data_IHDR out fp offset whence).1 = 0 ∧
    (get_png_data_IHDR out fp offset whence).2.1 = out := by
  unfold get_png_data_IHDR
  generalize fseek fp offset whence = fs at h ⊢
  obtain ⟨r, d, p⟩ := fs
  simp only [remaining, IHDR_at, List.length_drop, List.drop_drop] at h
  simp only [fread, CHUNK_TYPE_SIZE, DATA_IHDR_SIZE, List.length_take, List.length_drop]
  split_ifs with h1 h2 h3 h4 h5
  all_goals first | exact ⟨rfl, rfl⟩ | skip
  exfalso
  apply h
  have e1 : min 4 (d.length - p) = 4 := by omega
  rw [e1] at h3 h4 h5
  have e2 : min 4 (d.length - (p + 4)) = 4 := by omega
  rw [e2] at h5
  have h4a := not_or.mp h4
  exact ⟨by simpa using h1, by omega, by simpa using h4a.2, by simpa using h4a.1⟩

theorem get_png_data_IHDR_ok (out : data_IHDR) (fp : FILE) (offset : Int) (whence : Whence)
    (h0 : (fseek fp offset whence).1 = 0) (h : IHDR_at (remaining (fseek fp offset whence).2)) :
    get_png_data_IHDR out fp offset whence =
      (1, header_of_bytes (((remaining (fseek fp offset whence).2).drop 8).take 13),
        { data := (fseek fp offset whence).2.data, pos := (fseek fp offset whence).2.pos + 25 }) := by
  unfold get_png_data_IHDR
  generalize fseek fp offset whence = fs at h h0 ⊢
  obtain ⟨r, d, p⟩ := fs
  simp only [remaining, IHDR_at, List.length_drop, List.drop_drop] at h
  simp only at h0
  subst h0
  obtain ⟨hl, hn, ht⟩ := h
  have e1 : min 4 (d.length - p) = 4 := by omega
  have e2 : min 4 (d.length - (p + 4)) = 4 := by omega
  have e3 : min 13 (d.length - (p + 4 + 4)) = 13 := by omega
  simp only [fread, CHUNK_TYPE_SIZE, DATA_IHDR_SIZE, List.length_take, List.length_drop, e1, e2, e3]
  rw [if_neg (by simp), if_neg (by simp), if_neg (by simp), if_neg (by simp [hn, ht]),
    if_neg (by simp)]
  rw [header_of_bytes_eq _ (by simp only [List.length_take, List.length_drop]; omega)]
  simp only [fseek, CHUNK_CRC_SIZE, remaining, List.drop_drop]
  have e4 : ¬ (((p + 4 + 4 + 13 : Nat) : Int) + ((4 : Nat) : Int) < 0) := by omega
  rw [if_neg e4]
  have e5 : (((p + 4 + 4 + 13 : Nat) : Int) + ((4 : Nat) : Int)).toNat = p + 25 := by omega
  rw [e5, show p + 4 + 4 = p + 8 by omega]

theorem header_of_bytes_fields (buf : List U8) (h : buf.length = 13) :
    (header_of_bytes buf).width =
      (buf.getD 0 0).val * 2 ^ 24 + (buf.getD 1 0).val * 2 ^ 16 + (buf.getD 2 0).val * 2 ^ 8 +
        (buf.getD 3 0).val ∧
    (header_of_bytes buf).height =
      (buf.getD 4 0).val * 2 ^ 24 + (buf.getD 5 0).val * 2 ^ 16 + (buf.getD 6 0).val * 2 ^ 8 +
        (buf.getD 7 0).val := by
  match buf, h with
  | [b0, b1, b2, b3, b4, b5, b6, b7, b8, b9, b10, b11, b12], _ =>
    simp only [header_of_bytes, ntohl, List.take, List.drop, List.foldl, List.getD_cons_zero,
      List.getD_cons_succ]
    constructor <;> omega

/-- C5: `get_png_data_IHDR` returns 1 exactly when the seek succeeds and the
bytes `s` from the position reached hold a length field with big-endian value
13, the type "IHDR" and 13 payload bytes; then width and height are the
big-endian values of payload bytes 0..3 and 4..7, for all byte values, and the
five other fields are payload bytes 8..12; in every other case it returns 0
and leaves the header unchanged. -/
theorem get_png_data_IHDR_iff (out : data_IHDR) (fp : FILE) (offset : Int) (whence : Whence) :
    ((get_png_data_IHDR out fp offset whence).1 = 1 ↔
      ((fseek fp offset whence).1 = 0 ∧
        21 ≤ (remaining (fseek fp offset whence).2).length ∧
        ntohl ((remaining (fseek fp offset whence).2).take 4) = 13 ∧
        ((remaining (fseek fp offset whence).2).drop 4).take 4 = [0x49, 0x48, 0x44, 0x52])) ∧
    ((get_png_data_IHDR out fp offset whence).1 = 1 →
      ∀ payload : List U8, payload = ((remaining (fseek fp offset whence).2).drop 8).take 13 →
        (get_png_data_IHDR out fp offset whence).2.1 =
          { width := (payload.getD 0 0).val * 2 ^ 24 + (payload.getD 1 0).val * 2 ^ 16 +
              (payload.getD 2 0).val * 2 ^ 8 + (payload.getD 3 0).val
            height := (payload.getD 4 0).val * 2 ^ 24 + (payload.getD 5 0).val * 2 ^ 16 +
              (payload.getD 6 0).val * 2 ^ 8 + (payload.getD 7 0).val
            bit_depth := payload.getD 8 0
            color_type := payload.getD 9 0
            compression := payload.getD 10 0
            filter := payload.getD 11 0
            interlace := payload.getD 12 0 }) ∧
    ((get_png_data_IHDR out fp offset whence).1 ≠ 1 →
      (get_png_data_IHDR out fp offset whence).1 = 0 ∧
      (get_png_data_IHDR out fp offset whence).2.1 = out) := by
  by_cases hc : (fseek fp offset whence).1 = 0 ∧ IHDR_at (remaining (fseek fp offset whence).2)
  · have hok := get_png_data_IHDR_ok out fp offset whence hc.1 hc.2
    refine ⟨⟨fun _ => hc, fun _ => by rw [hok]⟩, ?_, ?_⟩
    · intro _ payload hp
      have hl : payload.length = 13 := by
        rw [hp]
        have := hc.2.1
        simp only [List.length_take, List.length_drop]
        omega
      rw [hok, ← hp]
      have := header_of_bytes_fields payload hl
      simp only [header_of_bytes] at this ⊢
      rw [this.1, this.2]
    · intro h
      rw [hok] at h
      exact absurd rfl h
  · have hf := get_png_data_IHDR_fail out fp offset whence hc
    refine ⟨⟨fun h => ?_, fun h => absurd h hc⟩, ?_, fun _ => hf⟩
    · rw [hf.1] at h
      exact absurd h (by decide)
    · intro h
      rw [hf.1] at h
      exact absurd h (by decide)

/-- Witness of `get_png_data_IHDR_iff`: the header of a strip of 400 by 6
pixels is read at offset 8, and a header whose width starts with the byte
`0x80` gives the width `2 ^ 31`. -/
theorem get_png_data_IHDR_iff_witness :
    (get_png_data_IHDR zero_IHDR { data := example_strip 400 6 [1], pos := 0 } 8
      Whence.SEEK_SET).1 = 1 ∧
    (get_png_data_IHDR zero_IHDR { data := example_strip (2 ^ 31) 6 [1], pos := 0 } 8
      Whence.SEEK_SET).2.1 =
      { width := 2 ^ 31, height := 6, bit_depth := 8, color_type := 6, compression := 0,
        filter := 0, interlace := 0 } :=
  ⟨(get_png_data_IHDR_iff zero_IHDR { data := example_strip 400 6 [1], pos := 0 } 8
      Whence.SEEK_SET).1.mpr (by decide),
    ((get_png_data_IHDR_iff zero_IHDR { data := example_strip (2 ^ 31) 6 [1], pos := 0 } 8
      Whence.SEEK_SET).2.1 (by decide) _ rfl).trans (by decide)⟩

/-! ### The CRC-32 model: linearity, bounds and injectivity -/

theorem shiftRight_xor (a b k : Nat) : (a ^^^ b) >>> k = (a >>> k) ^^^ (b >>> k) := by
  apply Nat.eq_of_testBit_eq
  intro i
  simp only [Nat.testBit_shiftRight, Nat.testBit_xor]

theorem xor_swap (p a b : Nat) : (p ^^^ a) ^^^ (p ^^^ b) = a ^^^ b := by
  apply Nat.eq_of_testBit_eq
  intro i
  simp only [Nat.testBit_xor]
  cases p.testBit i <;> cases a.testBit i <;> cases b.testBit i <;> rfl

theorem crc_round_xor (a b : Nat) : crc_round (a ^^^ b) = crc_round a ^^^ crc_round b := by
  unfold crc_round
  rw [shiftRight_xor]
  by_cases ha : a % 2 = 1 <;> by_cases hb : b % 2 = 1
  · have : ¬ ((a ^^^ b) % 2 = 1) := by simp [ha, hb]; omega
    rw [if_neg this, if_pos ha, if_pos hb, xor_swap]
  · have : (a ^^^ b) % 2 = 1 := by simp [ha, hb]; omega
    rw [if_pos this, if_pos ha, if_neg hb, Nat.xor_assoc]
  · have : (a ^^^ b) % 2 = 1 := by simp [ha, hb]; omega
    rw [if_pos this, if_neg ha, if_pos hb, ← Nat.xor_assoc, Nat.xor_comm _ (a >>> 1),
      Nat.xor_assoc]
  · have : ¬ ((a ^^^ b) % 2 = 1) := by simp [ha, hb]; omega
    rw [if_neg this, if_neg ha, if_neg hb]

theorem crc_round_iterate_xor (k a b : Nat) :
    crc_round^[k] (a ^^^ b) = crc_round^[k] a ^^^ crc_round^[k] b := by
  induction k generalizing a b with
  | zero => rfl
  | succ k ih => simp only [Function.iterate_succ_apply, crc_round_xor, ih]

theorem crc_round_iterate_shiftLeft (k h : Nat) : crc_round^[k] (h <<< k) = h := by
  induction k with
  | zero => rfl
  | succ k ih =>
    rw [Function.iterate_succ_apply]
    have e : crc_round (h <<< (k + 1)) = h <<< k := by
      unfold crc_round
      rw [Nat.shiftLeft_succ, Nat.shiftRight_one]
      have : ¬ (2 * h <<< k % 2 = 1) := by omega
      rw [if_neg this]
      omega
    rw [e, ih]

theorem split_low_high (x k : Nat) : x = (x % 2 ^ k) ^^^ ((x >>> k) <<< k) := by
  apply Nat.eq_of_testBit_eq
  intro i
  simp only [Nat.testBit_xor, Nat.testBit_mod_two_pow, Nat.testBit_shiftLeft,
    Nat.testBit_shiftRight]
  by_cases h : i < k
  · have : ¬ i ≥ k := by omega
    simp [h, this]
  · have h2 : i ≥ k := by omega
    have : k + (i - k) = i := by omega
    simp [h, h2, this]

theorem crc_round_iterate_split (k x : Nat) :
    crc_round^[k] x = crc_round^[k] (x % 2 ^ k) ^^^ (x >>> k) := by
  conv_lhs => rw [split_low_high x k]
  rw [crc_round_iterate_xor, crc_round_iterate_shiftLeft]

theorem crc_step_eq (c : Nat) (b : U8) :
    crc_table ((c ^^^ b.val) % 256) ^^^ (c >>> 8) = crc_round^[8] (c ^^^ b.val) := by
  rw [crc_round_iterate_split 8 (c ^^^ b.val), shiftRight_xor]
  have : b.val >>> 8 = 0 := by
    rw [Nat.shiftRight_eq_div_pow]
    have := b.isLt
    omega
  rw [this, Nat.xor_zero]
  rfl

theorem crc_round_lt (c : Nat) (h : c < 2 ^ 32) : crc_round c < 2 ^ 32 := by
  unfold crc_round
  have h1 : c >>> 1 < 2 ^ 32 := by rw [Nat.shiftRight_one]; omega
  split_ifs
  · exact Nat.xor_lt_two_pow (by norm_num) h1
  · exact h1

theorem crc_round_odd_bit (a : Nat) (h : a < 2 ^ 31) : (0xedb88320 ^^^ a).testBit 31 = true := by
  rw [Nat.testBit_xor, Nat.testBit_lt_two_pow h]
  decide

theorem crc_round_inj (a b : Nat) (ha : a < 2 ^ 32) (hb : b < 2 ^ 32)
    (h : crc_round a = crc_round b) : a = b := by
  unfold crc_round at h
  simp only [Nat.shiftRight_one] at h
  have ha1 : a / 2 < 2 ^ 31 := by omega
  have hb1 : b / 2 < 2 ^ 31 := by omega
  by_cases pa : a % 2 = 1 <;> by_cases pb : b % 2 = 1
  · rw [if_pos pa, if_pos pb] at h
    have := Nat.xor_right_injective h
    omega
  · rw [if_pos pa, if_neg pb] at h
    have t1 := crc_round_odd_bit (a / 2) ha1
    rw [h, Nat.testBit_lt_two_pow hb1] at t1
    exact absurd t1 (by decide)
  · rw [if_neg pa, if_pos pb] at h
    have t1 := crc_round_odd_bit (b / 2) hb1
    rw [← h, Nat.testBit_lt_two_pow ha1] at t1
    exact absurd t1 (by decide)
  · rw [if_neg pa, if_neg pb] at h
    omega

theorem crc_round_iterate_lt (k c : Nat) (h : c < 2 ^ 32) : crc_round^[k] c < 2 ^ 32 := by
  induction k generalizing c with
  | zero => exact h
  | succ k ih =>
    rw [Function.iterate_succ_apply]
    exact ih _ (crc_round_lt c h)

theorem crc_round_iterate_inj (k a b : Nat) (ha : a < 2 ^ 32) (hb : b < 2 ^ 32)
    (h : crc_round^[k] a = crc_round^[k] b) : a = b := by
  induction k generalizing a b with
  | zero => exact h
  | succ k ih =>
    rw [Function.iterate_succ_apply, Function.iterate_succ_apply] at h
    exact crc_round_inj a b ha hb (ih _ _ (crc_round_lt a ha) (crc_round_lt b hb) h)

theorem byte_lt_two_pow_32 (b : U8) : b.val < 2 ^ 32 := by
  have := b.isLt
  omega

theorem update_crc_cons (c : Nat) (b : U8) (buf : List U8) :
    update_crc c (b :: buf) = update_crc (crc_round^[8] (c ^^^ b.val)) buf := by
  simp only [update_crc, List.foldl_cons, crc_step_eq]

theorem update_crc_append (c : Nat) (a b : List U8) :
    update_crc c (a ++ b) = update_crc (update_crc c a) b := by
  simp only [update_crc, List.foldl_append]

theorem update_crc_lt (c : Nat) (buf : List U8) (h : c < 2 ^ 32) : update_crc c buf < 2 ^ 32 := by
  induction buf generalizing c with
  | nil => exact h
  | cons b buf ih =>
    rw [update_crc_cons]
    exact ih _ (crc_round_iterate_lt 8 _ (Nat.xor_lt_two_pow h (byte_lt_two_pow_32 b)))

theorem update_crc_state_inj (c1 c2 : Nat) (buf : List U8) (h1 : c1 < 2 ^ 32) (h2 : c2 < 2 ^ 32)
    (h : update_crc c1 buf = update_crc c2 buf) : c1 = c2 := by
  induction buf generalizing c1 c2 with
  | nil => exact h
  | cons b buf ih =>
    rw [update_crc_cons, update_crc_cons] at h
    have k1 := Nat.xor_lt_two_pow h1 (byte_lt_two_pow_32 b)
    have k2 := Nat.xor_lt_two_pow h2 (byte_lt_two_pow_32 b)
    have := ih _ _ (crc_round_iterate_lt 8 _ k1) (crc_round_iterate_lt 8 _ k2) h
    exact Nat.xor_left_injective (crc_round_iterate_inj 8 _ _ k1 k2 this)

theorem update_crc_byte_inj (c : Nat) (x y : U8) (buf : List U8) (hc : c < 2 ^ 32)
    (h : update_crc c (x :: buf) = update_crc c (y :: buf)) : x = y := by
  rw [update_crc_cons, update_crc_cons] at h
  have k1 := Nat.xor_lt_two_pow hc (byte_lt_two_pow_32 x)
  have k2 := Nat.xor_lt_two_pow hc (byte_lt_two_pow_32 y)
  have := update_crc_state_inj _ _ buf (crc_round_iterate_lt 8 _ k1) (crc_round_iterate_lt 8 _ k2) h
  have := Nat.xor_right_injective (crc_round_iterate_inj 8 _ _ k1 k2 this)
  exact Fin.ext this

theorem crc_lt (buf : List U8) : crc buf < 2 ^ 32 :=
  Nat.xor_lt_two_pow (update_crc_lt _ buf (by norm_num)) (by norm_num)

theorem crc32_lt (c : Nat) (buf : List U8) (h : c < 2 ^ 32) : crc32 c buf < 2 ^ 32 :=
  Nat.xor_lt_two_pow (update_crc_lt _ buf (Nat.xor_lt_two_pow h (by norm_num))) (by norm_num)

theorem crc32_crc (t p : List U8) : crc32 (crc t) p = crc (t ++ p) := by
  unfold crc32 crc
  rw [Nat.xor_cancel_right, update_crc_append]

/-- The CRC-32 of the nine ASCII digits "123456789" is the check value
`0xCBF43926` of the standard. -/
theorem crc_check_value :
    crc [0x31, 0x32, 0x33, 0x34, 0x35, 0x36, 0x37, 0x38, 0x39] = 0xCBF43926 := by
  decide

theorem crc_set_ne (pre : List U8) (p : List U8) (i : Nat) (b : U8) (hi : i < p.length)
    (hb : p.get ⟨i, hi⟩ ≠ b) : crc (pre ++ p.set i b) ≠ crc (pre ++ p) := by
  intro h
  unfold crc at h
  have h := Nat.xor_left_injective h
  have e1 : p = p.take i ++ p.get ⟨i, hi⟩ :: p.drop (i + 1) := by
    simp
  have e2 : p.set i b = p.take i ++ b :: p.drop (i + 1) := by
    rw [List.set_eq_take_append_cons_drop, if_pos hi]
  rw [e2] at h
  conv at h => rhs; rw [e1]
  rw [← List.append_assoc, ← List.append_assoc, update_crc_append,
    update_crc_append _ (pre ++ List.take i p)] at h
  exact hb (update_crc_byte_inj _ _ _ _ (update_crc_lt _ _ (by norm_num)) h).symm

theorem calculate_chunk_crc_eq (c : chunk) (h4 : c.length + 4 < 2 ^ 32) :
    calculate_chunk_crc (some c) = crc (c.type.take 4 ++ c.p_data.take c.length) := by
  simp only [calculate_chunk_crc, CHUNK_TYPE_SIZE]
  rw [Nat.mod_eq_of_lt h4, Nat.mod_eq_of_lt (crc_lt _), List.take_of_length_le]
  simp only [List.length_append, List.length_take]
  omega

/-- C6: the seeded computation `crc32(crc(t, 4), p, |p|)` used for the chunks
written by catpng equals `calculate_chunk_crc` of the chunk with type `t` and
payload `p`, and both are the CRC-32 of the concatenation of `t` and `p`; for
an empty payload both equal `crc(t, 4)`. -/
theorem seeded_crc_eq_calculate_chunk_crc (t p : List U8) (k : Nat) (ht : t.length = 4)
    (hp : p.length + 4 < 2 ^ 32) :
    crc32 (crc t % 2 ^ 32) p % 2 ^ 32 =
      calculate_chunk_crc (some { length := p.length, type := t, p_data := p, crc := k }) ∧
    calculate_chunk_crc (some { length := p.length, type := t, p_data := p, crc := k }) =
      crc (t ++ p) ∧
    crc32 (crc t % 2 ^ 32) [] % 2 ^ 32 = crc t ∧
    calculate_chunk_crc (some { length := 0, type := t, p_data := [], crc := k }) = crc t := by
  have e1 : crc32 (crc t % 2 ^ 32) p % 2 ^ 32 = crc (t ++ p) := by
    rw [Nat.mod_eq_of_lt (crc_lt t), crc32_crc, Nat.mod_eq_of_lt (crc_lt _)]
  have e2 : calculate_chunk_crc (some { length := p.length, type := t, p_data := p, crc := k })
      = crc (t ++ p) := by
    rw [calculate_chunk_crc_eq _ hp]
    simp [← ht]
  refine ⟨by rw [e1, e2], e2, ?_, ?_⟩
  · rw [Nat.mod_eq_of_lt (crc_lt t), crc32_crc, Nat.mod_eq_of_lt (crc_lt _), List.append_nil]
  · rw [calculate_chunk_crc_eq _ (by norm_num)]
    simp [← ht]

/-- Witness of `seeded_crc_eq_calculate_chunk_crc` on the type "IDAT" and a
payload of three bytes. -/
theorem seeded_crc_eq_calculate_chunk_crc_witness :
    crc32 (crc IDAT_tag % 2 ^ 32) [1, 2, 3] % 2 ^ 32 =
      calculate_chunk_crc (some { length := 3, type := IDAT_tag, p_data := [1, 2, 3], crc := 0 }) ∧
    calculate_chunk_crc (some { length := 3, type := IDAT_tag, p_data := [1, 2, 3], crc := 0 }) =
      crc (IDAT_tag ++ [1, 2, 3]) ∧
    crc32 (crc IDAT_tag % 2 ^ 32) [] % 2 ^ 32 = crc IDAT_tag ∧
    calculate_chunk_crc (some { length := 0, type := IDAT_tag, p_data := [], crc := 0 }) =
      crc IDAT_tag :=
  seeded_crc_eq_calculate_chunk_crc IDAT_tag [1, 2, 3] 0 (by decide) (by decide)

/-- C7: when the stored crc of a chunk equals `calculate_chunk_crc`, replacing
one payload byte by a different value gives a chunk whose stored crc differs
from `calculate_chunk_crc`; a chunk whose crc field holds
`calculate_chunk_crc` of it verifies. -/
theorem crc_detects_payload_byte_change (c : chunk) (i : Nat) (b : U8)
    (h4 : c.length + 4 < 2 ^ 32) (hil : i < c.length) (hi : i < c.p_data.length)
    (hb : c.p_data.get ⟨i, hi⟩ ≠ b)
    (hv : get_chunk_crc (some c) = calculate_chunk_crc (some c)) :
    get_chunk_crc (some { c with p_data := c.p_data.set i b }) ≠
      calculate_chunk_crc (some { c with p_data := c.p_data.set i b }) ∧
    get_chunk_crc (some { c with crc := calculate_chunk_crc (some c) }) =
      calculate_chunk_crc (some { c with crc := calculate_chunk_crc (some c) }) := by
  constructor
  · rw [calculate_chunk_crc_eq _ h4] at hv
    rw [calculate_chunk_crc_eq { c with p_data := c.p_data.set i b } h4]
    simp only [get_chunk_crc] at hv ⊢
    rw [hv]
    have hi2 : i < (c.p_data.take c.length).length := by
      simp only [List.length_take]; omega
    have e : (c.p_data.set i b).take c.length = (c.p_data.take c.length).set i b := by
      rw [List.set_take]
    rw [e]
    refine (crc_set_ne _ _ i b hi2 ?_).symm
    simpa [List.get_eq_getElem, List.getElem_take] using hb
  · rfl

/-- Witness of `crc_detects_payload_byte_change`: changing the second payload
byte of a chunk that verifies gives a chunk that does not. -/
theorem crc_detects_payload_byte_change_witness :
    get_chunk_crc (some { example_IDAT with p_data := example_IDAT.p_data.set 1 9 }) ≠
      calculate_chunk_crc (some { example_IDAT with p_data := example_IDAT.p_data.set 1 9 }) ∧
    get_chunk_crc (some { example_IDAT with crc := calculate_chunk_crc (some example_IDAT) }) =
      calculate_chunk_crc
        (some { example_IDAT with crc := calculate_chunk_crc (some example_IDAT) }) :=
  crc_detects_payload_byte_change example_IDAT 1 9 (by decide) (by decide) (by decide)
    (by decide) (by decide)

/-! ### The strip loop -/

theorem write_chunk_eq_take (fp : List U8) (c : chunk) :
    write_chunk fp (some c) =
      (1, fp ++ chunk_bytes { c with type := c.type.take 4, p_data := c.p_data.take c.length }) := by
  simp [write_chunk, chunk_bytes, CHUNK_TYPE_SIZE, List.append_assoc]

theorem save_png_from_memstrips_eq (mem_inf mem_def : Nat → List U8 → Option (List U8))
    (ref_hdr0 : data_IHDR) (data : Nat → List U8) (sizes : Nat → Nat) :
    save_png_from_memstrips mem_inf mem_def ref_hdr0 data sizes =
      match mem_def ((strip_loop mem_inf ref_hdr0 data sizes).concat_data.length * 2 % 2 ^ 64)
          (strip_loop mem_inf ref_hdr0 data sizes).concat_data with
      | none =>
        (EXIT_FAILURE,
          expected_signature ++ chunk_bytes (out_IHDR (strip_loop mem_inf ref_hdr0 data sizes)))
      | some zout =>
        (EXIT_SUCCESS,
          expected_signature ++ chunk_bytes (out_IHDR (strip_loop mem_inf ref_hdr0 data sizes)) ++
            chunk_bytes (out_IDAT zout) ++ chunk_bytes out_IEND) := by
  unfold save_png_from_memstrips
  generalize strip_loop mem_inf ref_hdr0 data sizes = st
  have hi : crc32 (crc (IHDR_tag.take 4) % 2 ^ 32) (ihdr_data st.ref_hdr st.total_height)
      % 2 ^ 32 = crc (IHDR_tag ++ ihdr_data st.ref_hdr st.total_height) := by
    rw [Nat.mod_eq_of_lt (crc_lt _), crc32_crc, Nat.mod_eq_of_lt (crc_lt _)]
    rfl
  have he : calculate_chunk_crc (some { length := 0, type := IEND_tag, p_data := [], crc := 0 })
      = crc IEND_tag := by
    rw [calculate_chunk_crc_eq _ (by norm_num)]
    rfl
  simp only [write_chunk_eq_take, DATA_IHDR_SIZE, List.nil_append]
  have t13 : (ihdr_data st.ref_hdr st.total_height).take 13
      = ihdr_data st.ref_hdr st.total_height := rfl
  rw [t13, hi, he]
  cases mem_def (st.concat_data.length * 2 % 2 ^ 64) st.concat_data with
  | none => rfl
  | some zout => rfl

theorem stored_def_small (cap : Nat) (source z : List U8) (h : stored_def cap source = some z) :
    z.length % 2 ^ 32 + 4 < 2 ^ 32 := by
  unfold stored_def at h
  split_ifs at h with hl
  · cases h
    simp only [zlib_stored, List.length_append, List.length_cons, List.length_nil, htonl_length]
    omega

theorem out_IDAT_crc (zout : List U8) (h : zout.length % 2 ^ 32 + 4 < 2 ^ 32) :
    (out_IDAT zout).crc = crc ((out_IDAT zout).type ++ (out_IDAT zout).p_data) := by
  simp only [out_IDAT]
  rw [calculate_chunk_crc_eq _ h]
  rfl

/-- The bytes that `save_png_from_memstrips` hands to the output stream when
it returns success (and the `U32` sum `length + 4` formed by
`calculate_chunk_crc` for the data chunk does not wrap) are the 8-byte
signature followed by exactly three serialized chunks, IHDR with length 13,
IDAT, IEND with length 0, and in each of them the length field equals the
payload byte count and the crc field is the CRC-32 of the type followed by
the payload. They are the content of the file only when the device takes
every byte. -/
theorem save_png_from_memstrips_container (mem_inf mem_def : Nat → List U8 → Option (List U8))
    (ref_hdr0 : data_IHDR) (data : Nat → List U8) (sizes : Nat → Nat)
    (hdef : ∀ cap source z, mem_def cap source = some z → z.length % 2 ^ 32 + 4 < 2 ^ 32)
    (hs : (save_png_from_memstrips mem_inf mem_def ref_hdr0 data sizes).1 = EXIT_SUCCESS) :
    ∃ ihdr idat iend : chunk,
      (save_png_from_memstrips mem_inf mem_def ref_hdr0 data sizes).2 =
        [0x89, 0x50, 0x4E, 0x47, 0x0D, 0x0A, 0x1A, 0x0A] ++ chunk_bytes ihdr ++ chunk_bytes idat ++
          chunk_bytes iend ∧
      ihdr.type = IHDR_tag ∧ ihdr.length = 13 ∧
      idat.type = IDAT_tag ∧
      iend.type = IEND_tag ∧ iend.length = 0 ∧
      ∀ c ∈ [ihdr, idat, iend],
        c.length = c.p_data.length ∧ c.crc = crc (c.type ++ c.p_data) ∧ c.in_range := by
  rw [save_png_from_memstrips_eq] at hs ⊢
  cases hz : mem_def ((strip_loop mem_inf ref_hdr0 data sizes).concat_data.length * 2 % 2 ^ 64)
      (strip_loop mem_inf ref_hdr0 data sizes).concat_data with
  | none =>
    rw [hz] at hs
    have hs2 : EXIT_FAILURE = EXIT_SUCCESS := hs
    exact absurd hs2 (by decide)
  | some zout =>
    have hw := hdef _ _ _ hz
    refine ⟨out_IHDR (strip_loop mem_inf ref_hdr0 data sizes), out_IDAT zout, out_IEND,
      rfl, rfl, rfl, rfl, rfl, rfl, ?_⟩
    intro c hc
    simp only [List.mem_cons, List.mem_singleton, List.not_mem_nil, or_false] at hc
    rcases hc with rfl | rfl | rfl
    · exact ⟨rfl, rfl, by norm_num [out_IHDR], crc_lt _, rfl⟩
    · refine ⟨?_, out_IDAT_crc zout hw, ?_, ?_, rfl⟩
      · simp only [out_IDAT, List.length_take]
        have := Nat.mod_le zout.length (2 ^ 32)
        omega
      · exact Nat.mod_lt _ (by norm_num)
      · rw [out_IDAT_crc zout hw]; exact crc_lt _
    · exact ⟨rfl, rfl, by norm_num [out_IEND], crc_lt _, rfl⟩

/-- Witness of `save_png_from_memstrips_container` on fifty strips of 400 by 6
pixels. -/
theorem save_png_from_memstrips_container_witness :
    ∃ ihdr idat iend : chunk,
      (save_png_from_memstrips stored_inf stored_def zero_IHDR example_data example_sizes).2 =
        [0x89, 0x50, 0x4E, 0x47, 0x0D, 0x0A, 0x1A, 0x0A] ++ chunk_bytes ihdr ++ chunk_bytes idat ++
          chunk_bytes iend ∧
      ihdr.type = IHDR_tag ∧ ihdr.length = 13 ∧
      idat.type = IDAT_tag ∧
      iend.type = IEND_tag ∧ iend.length = 0 ∧
      ∀ c ∈ [ihdr, idat, iend],
        c.length = c.p_data.length ∧ c.crc = crc (c.type ++ c.p_data) ∧ c.in_range :=
  save_png_from_memstrips_container stored_inf stored_def zero_IHDR example_data example_sizes
    stored_def_small (by decide)

theorem get_png_data_IHDR_pos (out : data_IHDR) (d : List U8) (p q k : Nat) :
    get_png_data_IHDR out { data := d, pos := p } (k : Int) Whence.SEEK_SET =
      get_png_data_IHDR out { data := d, pos := q } (k : Int) Whence.SEEK_SET := by
  unfold get_png_data_IHDR
  rw [fseek_set, fseek_set]

theorem signature_check_iff (strip : List U8) :
    ((fread PNG_SIG_SIZE { data := strip, pos := 0 }).1.length ≠ PNG_SIG_SIZE ∨
      is_png (fread PNG_SIG_SIZE { data := strip, pos := 0 }).1 PNG_SIG_SIZE = 0) ↔
    strip.take 8 ≠ expected_signature := by
  have e : (fread PNG_SIG_SIZE { data := strip, pos := 0 }).1 = strip.take 8 := by
    simp [fread, PNG_SIG_SIZE]
  rw [e]
  simp only [is_png, PNG_SIG_SIZE, List.take_take, Nat.lt_irrefl, if_false, min_self]
  constructor
  · rintro (h | h) heq
    · rw [heq] at h
      exact h rfl
    · rw [if_pos heq] at h
      exact absurd h (by decide)
  · intro h
    right
    rw [if_neg h]

/-- C11, the code at the failing input: in the table `corrupted_data` the
stored checksum of the data chunk of strip 7 differs from the recomputed one,
yet `save_png_from_memstrips` inflates the strip, appends its rows and counts
its height: it returns success with output height `50 * 6`, not `49 * 6`. -/
theorem corrupted_crc_strip_is_assembled :
    get_chunk_crc (get_png_chunks mallocPNG { data := corrupted_data 7, pos := 0 } 8
        Whence.SEEK_SET).2.1.p_IDAT ≠
      calculate_chunk_crc (get_png_chunks mallocPNG { data := corrupted_data 7, pos := 0 } 8
        Whence.SEEK_SET).2.1.p_IDAT ∧
    strip_rows stored_inf ((corrupted_data 7).take (corrupted_sizes 7)) = [7] ∧
    strip_height stored_inf ((corrupted_data 7).take (corrupted_sizes 7)) = 6 ∧
    (save_png_from_memstrips stored_inf stored_def zero_IHDR corrupted_data corrupted_sizes).1
      = EXIT_SUCCESS ∧
    (get_png_data_IHDR zero_IHDR
      { data := (save_png_from_memstrips stored_inf stored_def zero_IHDR corrupted_data
          corrupted_sizes).2, pos := 0 } 8 Whence.SEEK_SET).2.1.height = 50 * 6 := by
  decide

/-- C13, the code at the failing input: in the table `mixed_data` strip 0 (and
every strip up to 48) declares width 400, bit depth 8 and colour type 6, and
strip 49 declares width 200, bit depth 16 and colour type 2; the header
written by `save_png_from_memstrips` has the fields of strip 49, the last
strip whose header was parsed, not those of strip 0. -/
theorem output_header_from_last_parsed_strip :
    (get_png_data_IHDR zero_IHDR { data := mixed_data 0, pos := 0 } 8 Whence.SEEK_SET).2.1 =
      ({ width := 400, height := 6, bit_depth := 8, color_type := 6, compression := 0,
         filter := 0, interlace := 0 } : data_IHDR) ∧
    (strip_decode stored_inf ((mixed_data 0).take (mixed_sizes 0))).isSome = true ∧
    (save_png_from_memstrips stored_inf stored_def zero_IHDR mixed_data mixed_sizes).1
      = EXIT_SUCCESS ∧
    (get_png_data_IHDR zero_IHDR
      { data := (save_png_from_memstrips stored_inf stored_def zero_IHDR mixed_data
          mixed_sizes).2, pos := 0 } 8 Whence.SEEK_SET).2.1 =
      ({ width := 200, height := 300, bit_depth := 16, color_type := 2, compression := 0,
         filter := 0, interlace := 0 } : data_IHDR) := by
  decide

/-- C14 as stated fails: on the document signature, IHDR, IDAT, IDAT, IEND
`get_png_chunks` returns 1, with the second IDAT chunk stored as `p_IEND` and
the IEND chunk left unread. -/
theorem get_png_chunks_accepts_two_IDAT :
    get_png_chunks mallocPNG { data := two_IDAT_document, pos := 0 } 8 Whence.SEEK_SET =
      (1, { p_IHDR := some example_IHDR, p_IDAT := some example_IDAT,
            p_IEND := some example_IDAT },
        { data := two_IDAT_document, pos := 63 }) ∧
    two_IDAT_document.length = 75 := by
  decide

/-- C14, as the code has it: `get_png_chunks` does not look at chunk types; it
returns 1 exactly when three complete chunks can be read one after the other
from the offset, and 0 otherwise; in particular it returns 1 on any three
well-formed chunks, whatever their types and whatever follows them. -/
theorem get_png_chunks_iff_three_chunks (out : simple_PNG) (fp : FILE) (k : Nat) :
    ((get_png_chunks out fp (k : Int) Whence.SEEK_SET).1 = 1 ↔
      ((get_chunk { data := fp.data, pos := k }).1.isSome = true ∧
        (get_chunk (get_chunk { data := fp.data, pos := k }).2).1.isSome = true ∧
        (get_chunk (get_chunk (get_chunk { data := fp.data, pos := k }).2).2).1.isSome = true)) ∧
    ((get_png_chunks out fp (k : Int) Whence.SEEK_SET).1 ≠ 1 →
      (get_png_chunks out fp (k : Int) Whence.SEEK_SET).1 = 0) ∧
    (∀ (pre rest : List U8) (c1 c2 c3 : chunk),
      c1.in_range → c2.in_range → c3.in_range →
      c1.length = c1.p_data.length → c2.length = c2.p_data.length →
      c3.length = c3.p_data.length →
      fp.data = pre ++ chunk_bytes c1 ++ chunk_bytes c2 ++ chunk_bytes c3 ++ rest →
      k = pre.length →
      (get_png_chunks out fp (k : Int) Whence.SEEK_SET).1 = 1 ∧
      (get_png_chunks out fp (k : Int) Whence.SEEK_SET).2.1 =
        { p_IHDR := some c1, p_IDAT := some c2, p_IEND := some c3 }) := by
  refine ⟨?_, ?_, ?_⟩
  · rw [get_png_chunks_eq]
    generalize (get_chunk { data := fp.data, pos := k }) = g1
    generalize (get_chunk g1.2) = g2
    generalize (get_chunk g2.2) = g3
    cases h1 : g1.1 <;> cases h2 : g2.1 <;> cases h3 : g3.1 <;> simp
  · rw [get_png_chunks_eq]
    dsimp only
    split_ifs
    · intro _; rfl
    · intro h; exact absurd rfl h
  · intro pre rest c1 c2 c3 r1 r2 r3 l1 l2 l3 hd hk
    obtain ⟨d, p⟩ := fp
    simp only at hd
    subst hd hk
    rw [get_png_chunks_of_three out pre rest p c1 c2 c3 r1 r2 r3 l1 l2 l3]
    exact ⟨rfl, rfl⟩

/-- Witness of `get_png_chunks_iff_three_chunks`: three chunks of type IDAT are
accepted. -/
theorem get_png_chunks_iff_three_chunks_witness :
    (get_png_chunks mallocPNG
      { data := expected_signature ++ chunk_bytes example_IDAT ++ chunk_bytes example_IDAT ++
          chunk_bytes example_IDAT ++ [], pos := 0 } ((8 : Nat) : Int) Whence.SEEK_SET).1 = 1 ∧
    (get_png_chunks mallocPNG
      { data := expected_signature ++ chunk_bytes example_IDAT ++ chunk_bytes example_IDAT ++
          chunk_bytes example_IDAT ++ [], pos := 0 } ((8 : Nat) : Int) Whence.SEEK_SET).2.1 =
      { p_IHDR := some example_IDAT, p_IDAT := some example_IDAT, p_IEND := some example_IDAT } :=
  (get_png_chunks_iff_three_chunks mallocPNG
    { data := expected_signature ++ chunk_bytes example_IDAT ++ chunk_bytes example_IDAT ++
        chunk_bytes example_IDAT ++ [], pos := 0 } 8).2.2
    expected_signature [] example_IDAT example_IDAT example_IDAT
    (by decide) (by decide) (by decide) (by decide) (by decide) (by decide) rfl rfl

/-! ### Writing to a stream that fails -/

theorem tracks_write (w pending rest handed : List U8) (room room0 : Nat)
    (h1 : w <+: handed) (h2 : w.length + room = room0)
    (h3 : room = 0 ∨ w ++ (pending ++ rest) = handed) :
    (w ++ pending.take (min pending.length room)) <+: handed ∧
    (w ++ pending.take (min pending.length room)).length + (room - min pending.length room) =
      room0 ∧
    (min pending.length room = pending.length →
      (room - min pending.length room = 0 ∨
        (w ++ pending.take (min pending.length room)) ++ rest = handed)) ∧
    (min pending.length room ≠ pending.length → room - min pending.length room = 0) := by
  have hlen : (pending.take (min pending.length room)).length = min pending.length room := by
    rw [List.length_take]; omega
  refine ⟨?_, ?_, ?_, ?_⟩
  · rcases h3 with h0 | he
    · rw [h0, Nat.min_zero, List.take_zero, List.append_nil]; exact h1
    · rw [← he]
      refine ⟨pending.drop (min pending.length room) ++ rest, ?_⟩
      rw [List.append_assoc, ← List.append_assoc (pending.take _), List.take_append_drop]
  · rw [List.length_append, hlen]; omega
  · intro hall
    rcases h3 with h0 | he
    · left; omega
    · right
      rw [hall, List.take_length, List.append_assoc]; exact he
  · intro hne
    have : min pending.length room = room := by
      rcases Nat.le_total pending.length room with h | h
      · exact absurd (Nat.min_eq_left h) hne
      · exact Nat.min_eq_right h
    omega

theorem tracks_fwrite (ptr : List U8) (size nmemb : Nat) (fp : sink) (handed : List U8)
    (room0 : Nat) (h : fp.tracks handed room0) :
    (sink.fwrite ptr size nmemb fp).2.tracks (handed ++ ptr.take (size * nmemb)) room0 := by
  obtain ⟨h1, h2, h3⟩ := h
  unfold sink.fwrite
  dsimp only
  by_cases hreq : size * nmemb = 0
  · rw [if_pos hreq, hreq, List.take_zero, List.append_nil]
    exact ⟨h1, h2, h3⟩
  · rw [if_neg hreq]
    generalize ptr.take (size * nmemb) = bytes
    generalize (if fp.buffered = true ∧ fp.allocated = true then BLOCK_SIZE - fp.held.length
      else 0) = space
    have h1b : fp.written <+: handed ++ bytes := h1.trans (List.prefix_append _ _)
    by_cases htd : bytes.length - min space bytes.length = 0
    · rw [if_pos htd]
      have hc : min space bytes.length = bytes.length := by omega
      refine ⟨h1b, h2, ?_⟩
      rcases h3 with h0 | he
      · exact Or.inl h0
      · right
        dsimp only
        rw [hc, List.take_length, ← List.append_assoc, he]
    · rw [if_neg htd]
      have hsplit : bytes.take (min space bytes.length) ++ bytes.drop (min space bytes.length)
          = bytes := List.take_append_drop _ _
      have h3b : fp.room = 0 ∨ fp.written ++ ((fp.held ++ bytes.take (min space bytes.length)) ++
          bytes.drop (min space bytes.length)) = handed ++ bytes := by
        rcases h3 with h0 | he
        · exact Or.inl h0
        · right
          rw [List.append_assoc, hsplit, ← List.append_assoc, he]
      obtain ⟨f1, f2, f3, f4⟩ := tracks_write fp.written
        (fp.held ++ bytes.take (min space bytes.length)) (bytes.drop (min space bytes.length))
        (handed ++ bytes) fp.room room0 h1b h2 h3b
      unfold sink.flush sink.write
      dsimp only
      by_cases hfl : decide (min (fp.held ++ bytes.take (min space bytes.length)).length fp.room =
          (fp.held ++ bytes.take (min space bytes.length)).length) = false
      · rw [if_pos hfl]
        exact ⟨f1, f2, Or.inl (f4 (by simpa using hfl))⟩
      · rw [if_neg hfl]
        have hfl2 : min (fp.held ++ bytes.take (min space bytes.length)).length fp.room =
            (fp.held ++ bytes.take (min space bytes.length)).length := by simpa using hfl
        have f3b := f3 hfl2
        generalize (if fp.buffered = true then BLOCK_SIZE else 1) = block_size
        generalize hdw : bytes.length - min space bytes.length -
          (if block_size ≥ 128 then (bytes.length - min space bytes.length) % block_size else 0)
          = do_write
        have hsl : (bytes.drop (min space bytes.length)).length =
            bytes.length - min space bytes.length := List.length_drop _ _
        have hdl : ((bytes.drop (min space bytes.length)).take do_write).length = do_write := by
          rw [List.length_take, hsl]; omega
        have hsplit2 : (bytes.drop (min space bytes.length)).take do_write ++
            (bytes.drop (min space bytes.length)).drop do_write =
            bytes.drop (min space bytes.length) := List.take_append_drop _ _
        have f3c : fp.room - min (fp.held ++ bytes.take (min space bytes.length)).length fp.room
              = 0 ∨
            (fp.written ++ (fp.held ++ bytes.take (min space bytes.length)).take
                (min (fp.held ++ bytes.take (min space bytes.length)).length fp.room)) ++
              ((bytes.drop (min space bytes.length)).take do_write ++
                (bytes.drop (min space bytes.length)).drop do_write) = handed ++ bytes := by
          rw [hsplit2]; exact f3b
        obtain ⟨g1, g2, g3, g4⟩ := tracks_write _
          ((bytes.drop (min space bytes.length)).take do_write)
          ((bytes.drop (min space bytes.length)).drop do_write) (handed ++ bytes) _ room0 f1 f2 f3c
        rw [hdl] at g1 g2 g3 g4 ⊢
        by_cases hshort : min do_write
            (fp.room - min (fp.held ++ bytes.take (min space bytes.length)).length fp.room)
            < do_write
        · rw [if_pos hshort]
          exact ⟨g1, g2, Or.inl (g4 (Nat.ne_of_lt hshort))⟩
        · rw [if_neg hshort]
          have hfull : min do_write
              (fp.room - min (fp.held ++ bytes.take (min space bytes.length)).length fp.room)
              = do_write := by
            have := Nat.min_le_left do_write
              (fp.room - min (fp.held ++ bytes.take (min space bytes.length)).length fp.room)
            omega
          refine ⟨g1, g2, ?_⟩
          dsimp only
          rw [List.nil_append]
          exact g3 hfull

theorem tracks_fopen (room : Nat) : (sink.fopen room).tracks [] room :=
  ⟨List.prefix_refl _, by simp [sink.fopen], Or.inr rfl⟩

theorem tracks_write_chunk (fp : sink) (c : Option chunk) (handed : List U8) (room0 : Nat)
    (h : fp.tracks handed room0) :
    (sink.write_chunk fp c).1 = (write_chunk handed c).1 ∧
    (sink.write_chunk fp c).2.tracks (write_chunk handed c).2 room0 := by
  cases c with
  | none => exact ⟨rfl, h⟩
  | some c =>
    refine ⟨rfl, ?_⟩
    have e1 := tracks_fwrite (htonl c.length) 4 1 fp handed room0 h
    have e2 := tracks_fwrite c.type 1 CHUNK_TYPE_SIZE _ _ room0 e1
    have e3 := tracks_fwrite c.p_data 1 c.length _ _ room0 e2
    have e4 := tracks_fwrite (htonl c.crc) 4 1 _ _ room0 e3
    have t1 : ∀ n, (htonl n).take (4 * 1) = htonl n := fun n => rfl
    rw [t1, t1, Nat.one_mul, Nat.one_mul] at e4
    exact e4

theorem fclose_of_tracks (fp : sink) (handed : List U8) (room0 : Nat)
    (h : fp.tracks handed room0) :
    (sink.fclose fp).2 =
      { written := handed.take room0, room := room0 - handed.length } := by
  obtain ⟨h1, h2, h3⟩ := h
  obtain ⟨f1, f2, f3, f4⟩ := tracks_write fp.written fp.held [] handed fp.room room0 h1 h2
    (by rw [List.append_nil]; exact h3)
  have hw : ∀ w : List U8, w <+: handed → w.length + (room0 - w.length) = room0 →
      (room0 - w.length = 0 ∨ w = handed) →
      w = handed.take room0 ∧ room0 - w.length = room0 - handed.length := by
    intro w hp hl hd
    have hle := hp.length_le
    rcases hd with h0 | he
    · have hwl : w.length = room0 := by omega
      refine ⟨?_, by omega⟩
      rw [← hwl]
      exact (List.prefix_iff_eq_take.mp hp)
    · subst he
      refine ⟨?_, rfl⟩
      rw [List.take_of_length_le (by omega)]
  have hroom : fp.room - min fp.held.length fp.room =
      room0 - (fp.written ++ fp.held.take (min fp.held.length fp.room)).length := by
    omega
  have key := hw _ f1 (by omega) (by
    by_cases hall : min fp.held.length fp.room = fp.held.length
    · rcases f3 hall with h0 | he
      · left; omega
      · right; rw [List.append_nil] at he; exact he
    · left
      have := f4 hall
      omega)
  unfold sink.fclose sink.flush sink.write
  dsimp only
  rw [hroom, key.2, key.1]

theorem sink_save_png_from_memstrips_eq (mem_inf mem_def : Nat → List U8 → Option (List U8))
    (ref_hdr0 : data_IHDR) (data : Nat → List U8) (sizes : Nat → Nat) (room : Nat) :
    sink.save_png_from_memstrips mem_inf mem_def ref_hdr0 data sizes room =
      ((save_png_from_memstrips mem_inf mem_def ref_hdr0 data sizes).1,
        { written := (save_png_from_memstrips mem_inf mem_def ref_hdr0 data sizes).2.take room,
          room := room - (save_png_from_memstrips mem_inf mem_def ref_hdr0 data sizes).2.length }) := by
  unfold sink.save_png_from_memstrips save_png_from_memstrips
  dsimp only
  have e0 := tracks_fwrite expected_signature 1 PNG_SIG_SIZE _ _ room (tracks_fopen room)
  have t0 : expected_signature.take (1 * PNG_SIG_SIZE) = expected_signature := rfl
  rw [t0] at e0
  generalize sink.fwrite expected_signature 1 PNG_SIG_SIZE (sink.fopen room) = r0 at e0 ⊢
  have e1 := (tracks_write_chunk r0.2
    (some { length := DATA_IHDR_SIZE, type := IHDR_tag,
            p_data := ihdr_data (strip_loop mem_inf ref_hdr0 data sizes).ref_hdr
              (strip_loop mem_inf ref_hdr0 data sizes).total_height,
            crc := crc32 (crc (IHDR_tag.take 4) % 2 ^ 32)
              ((ihdr_data (strip_loop mem_inf ref_hdr0 data sizes).ref_hdr
                (strip_loop mem_inf ref_hdr0 data sizes).total_height).take DATA_IHDR_SIZE)
              % 2 ^ 32 }) _ room e0).2
  generalize sink.write_chunk r0.2 _ = r1 at e1 ⊢
  generalize write_chunk ([] ++ expected_signature) _ = i1 at e1 ⊢
  cases mem_def ((strip_loop mem_inf ref_hdr0 data sizes).concat_data.length * 2 % 2 ^ 64)
      (strip_loop mem_inf ref_hdr0 data sizes).concat_data with
  | none =>
    dsimp only
    rw [fclose_of_tracks _ _ _ e1]
  | some zout =>
    dsimp only
    have e2 := (tracks_write_chunk r1.2
      (some { length := zout.length % 2 ^ 32, type := IDAT_tag, p_data := zout,
              crc := calculate_chunk_crc
                (some { length := zout.length % 2 ^ 32, type := IDAT_tag, p_data := zout,
                        crc := 0 }) }) _ room e1).2
    generalize sink.write_chunk r1.2 _ = r2 at e2 ⊢
    generalize write_chunk i1.2 _ = i2 at e2 ⊢
    have e3 := (tracks_write_chunk r2.2
      (some { length := 0, type := IEND_tag, p_data := [],
              crc := calculate_chunk_crc
                (some { length := 0, type := IEND_tag, p_data := [], crc := 0 }) }) _ room e2).2
    rw [fclose_of_tracks _ _ _ e3]

theorem sink_fwrite_signature (room : Nat) :
    (sink.fwrite expected_signature 1 PNG_SIG_SIZE (sink.fopen room)).1 = PNG_SIG_SIZE := by
  simp [sink.fwrite, sink.fopen, sink.flush, sink.write, expected_signature, PNG_SIG_SIZE,
    BLOCK_SIZE]

theorem sink_write_PNG_eq (room : Nat) (png : simple_PNG) :
    sink.write_PNG room png =
      ((write_PNG png).1,
        (write_PNG png).2.map
          (fun bytes => { written := bytes.take room, room := room - bytes.length })) := by
  unfold sink.write_PNG write_PNG
  by_cases hn : png.p_IHDR.isNone = true ∨ png.p_IDAT.isNone = true ∨ png.p_IEND.isNone = true
  · rw [if_pos hn, if_pos hn]
    rfl
  · rw [if_neg hn, if_neg hn]
    dsimp only
    have e0 := tracks_fwrite expected_signature 1 PNG_SIG_SIZE _ _ room (tracks_fopen room)
    have t0 : expected_signature.take (1 * PNG_SIG_SIZE) = expected_signature := rfl
    rw [t0] at e0
    have s0 := sink_fwrite_signature room
    generalize sink.fwrite expected_signature 1 PNG_SIG_SIZE (sink.fopen room) = r0 at e0 s0 ⊢
    rw [if_neg (fun h => h s0)]
    obtain ⟨a1, e1⟩ := tracks_write_chunk r0.2 png.p_IHDR _ room e0
    generalize sink.write_chunk r0.2 png.p_IHDR = r1 at a1 e1 ⊢
    generalize write_chunk ([] ++ expected_signature) png.p_IHDR = i1 at a1 e1 ⊢
    rw [a1]
    by_cases h1 : i1.1 = 0
    · rw [if_pos h1, if_pos h1, fclose_of_tracks _ _ _ e1]
      rfl
    · rw [if_neg h1, if_neg h1]
      obtain ⟨a2, e2⟩ := tracks_write_chunk r1.2 png.p_IDAT _ room e1
      generalize sink.write_chunk r1.2 png.p_IDAT = r2 at a2 e2 ⊢
      generalize write_chunk i1.2 png.p_IDAT = i2 at a2 e2 ⊢
      rw [a2]
      by_cases h2 : i2.1 = 0
      · rw [if_pos h2, if_pos h2, fclose_of_tracks _ _ _ e2]
        rfl
      · rw [if_neg h2, if_neg h2]
        obtain ⟨a3, e3⟩ := tracks_write_chunk r2.2 png.p_IEND _ room e2
        rw [a3, fclose_of_tracks _ _ _ e3]
        rfl

/-- C8 does not hold of the code: `save_png_from_memstrips` looks at no result
of `fwrite`, `write_chunk` or `fclose`, so on every device its exit status is
the one it has when every byte is taken, and the file holds the first bytes
of the container, as many as the device takes. For the 50 strips
`example_data` the container has 118 bytes; on a device without room the
function returns `EXIT_SUCCESS` and the file is empty, and on a device with
room for 20 bytes it returns `EXIT_SUCCESS` and the file holds the signature
and the first 12 bytes of the header chunk. -/
theorem save_png_from_memstrips_success_with_truncated_file :
    (save_png_from_memstrips stored_inf stored_def zero_IHDR example_data example_sizes).1 =
      EXIT_SUCCESS ∧
    (save_png_from_memstrips stored_inf stored_def zero_IHDR example_data example_sizes).2.length =
      118 ∧
    sink.save_png_from_memstrips stored_inf stored_def zero_IHDR example_data example_sizes 0 =
      (EXIT_SUCCESS, { written := [], room := 0 }) ∧
    sink.save_png_from_memstrips stored_inf stored_def zero_IHDR example_data example_sizes 20 =
      (EXIT_SUCCESS,
        { written := [0x89, 0x50, 0x4E, 0x47, 0x0D, 0x0A, 0x1A, 0x0A, 0, 0, 0, 13,
                      0x49, 0x48, 0x44, 0x52, 0, 0, 1, 144],
          room := 0 }) ∧
    (∀ (mem_inf mem_def : Nat → List U8 → Option (List U8)) (ref_hdr0 : data_IHDR)
        (data : Nat → List U8) (sizes : Nat → Nat) (room : Nat),
      (sink.save_png_from_memstrips mem_inf mem_def ref_hdr0 data sizes room).1 =
        (save_png_from_memstrips mem_inf mem_def ref_hdr0 data sizes).1 ∧
      (sink.save_png_from_memstrips mem_inf mem_def ref_hdr0 data sizes room).2.written =
        (save_png_from_memstrips mem_inf mem_def ref_hdr0 data sizes).2.take room) := by
  refine ⟨by decide, by decide, by decide, by decide,
    fun mem_inf mem_def ref_hdr0 data sizes room => ?_⟩
  rw [sink_save_png_from_memstrips_eq]
  exact ⟨rfl, rfl⟩

/-- C22 does not hold of the code: `write_chunk` returns 1 whatever its four
calls of `fwrite` return. On a stream that takes only 2 more bytes the chunk
`example_IDAT` of 15 bytes is cut after 2 bytes and `write_chunk` returns 1;
`write_PNG` on a device with room for the 8 bytes of the signature writes
none of its three chunks and returns 1; `save_png_from_memstrips` on a device
without room writes nothing and returns `EXIT_SUCCESS`. -/
theorem write_chunk_reports_success_on_short_write :
    (∀ (fp : sink) (c : chunk), (sink.write_chunk fp (some c)).1 = 1) ∧
    (sink.fwrite (htonl example_IDAT.length) 4 1 { written := [], room := 2 }).1 = 0 ∧
    sink.write_chunk { written := [], room := 2 } (some example_IDAT) =
      (1, { written := [0, 0], room := 0 }) ∧
    (chunk_bytes example_IDAT).length = 15 ∧
    sink.write_PNG 8
        { p_IHDR := some example_IHDR, p_IDAT := some example_IDAT, p_IEND := some example_IEND } =
      (1, some { written := expected_signature, room := 0 }) ∧
    sink.save_png_from_memstrips stored_inf stored_def zero_IHDR example_data example_sizes 0 =
      (EXIT_SUCCESS, { written := [], room := 0 }) := by
  refine ⟨fun fp c => rfl, by decide, by decide, by decide, by decide, by decide⟩

end lab_png

namespace paster2

/-! ### Counting the processes at a place -/

theorem countP_set_eq {α : Type} (p : α → Bool) (l : List α) (k : Nat) (a b : α)
    (h : l[k]? = some b) :
    (l.set k a).countP p + (if p b then 1 else 0) = l.countP p + (if p a then 1 else 0) := by
  induction l generalizing k with
  | nil => simp at h
  | cons x xs ih =>
    cases k with
    | zero =>
      simp only [List.getElem?_cons_zero, Option.some.injEq] at h
      subst h
      simp only [List.set_cons_zero, List.countP_cons]
      omega
    | succ k =>
      simp only [List.getElem?_cons_succ] at h
      have := ih k h
      simp only [List.set_cons_succ, List.countP_cons]
      omega

theorem length_set_eq {α : Type} (l : List α) (k : Nat) (a : α) : (l.set k a).length = l.length :=
  List.length_set l k a

/-! ### The ring buffer -/

theorem add_mod_ne (B a j c : Nat) (hj : j < c) (hc : c < B) : (a + j) % B ≠ (a + c) % B := by
  intro h
  have h1 : (a + j) ≡ (a + c) [MOD B] := h
  have h2 := (Nat.modEq_iff_dvd' (by omega : a + j ≤ a + c)).mp h1
  have h3 : a + c - (a + j) = c - j := by omega
  rw [h3] at h2
  have := Nat.le_of_dvd (by omega) h2
  omega

theorem pending_enqueue (B : Nat) (v : Int) (shm : shared_buf_t) (n : Nat) (hn : n < B)
    (hin : shm.in_ = (shm.out + n) % B) :
    pending B { shm with buf := Function.update shm.buf shm.in_ v, in_ := (shm.in_ + 1) % B,
                         count := shm.count + 1 } (n + 1) = pending B shm n ++ [v] := by
  unfold pending
  rw [List.range_succ, List.map_append]
  congr 1
  · apply List.map_congr_left
    intro j hj
    have hj := List.mem_range.mp hj
    dsimp only
    rw [Function.update_noteq]
    rw [hin]
    exact add_mod_ne B shm.out j n hj hn
  · simp only [List.map_cons, List.map_nil]
    rw [← hin, Function.update_same]

theorem pending_dequeue (B : Nat) (shm : shared_buf_t) (n : Nat) (hout : shm.out < B) :
    pending B shm (n + 1) =
      shm.buf shm.out ::
        pending B { shm with out := (shm.out + 1) % B, count := shm.count - 1 } n := by
  unfold pending
  rw [List.range_succ_eq_map, List.map_cons, List.map_map]
  congr 1
  · rw [Nat.add_zero, Nat.mod_eq_of_lt hout]
  · apply List.map_congr_left
    intro j _
    simp only [Function.comp_apply]
    congr 1
    rw [Nat.add_mod ((shm.out + 1) % B) j B, Nat.mod_mod, ← Nat.add_mod]
    congr 1
    omega

theorem in_after_enqueue (B a n : Nat) : ((a + n) % B + 1) % B = (a + (n + 1)) % B := by
  rw [Nat.add_mod ((a + n) % B) 1 B, Nat.mod_mod, ← Nat.add_mod]
  rfl

theorem in_after_dequeue (B a n : Nat) : (a + (n + 1)) % B = ((a + 1) % B + n) % B := by
  rw [Nat.add_mod ((a + 1) % B) n B, Nat.mod_mod, ← Nat.add_mod]
  congr 1
  omega

/-! ### The queue invariant is kept by every step -/

theorem queue_inv_enqueue (B : Nat) (v : Int) (s : system) (n : Nat) (hB : 0 < B)
    (hn : s.shm.count = (n : Int)) (hlt : n < B) (hin : s.shm.in_ = (s.shm.out + n) % B)
    (hfifo : s.pushed = s.popped ++ pending B s.shm n) :
    (enqueue B v s).shm.in_ < B ∧ (enqueue B v s).shm.out = s.shm.out ∧
    (enqueue B v s).shm.count = ((n + 1 : Nat) : Int) ∧
    (enqueue B v s).shm.in_ = ((enqueue B v s).shm.out + (n + 1)) % B ∧
    (enqueue B v s).pushed = (enqueue B v s).popped ++ pending B (enqueue B v s).shm (n + 1) := by
  refine ⟨Nat.mod_lt _ hB, rfl, ?_, ?_, ?_⟩
  · simp only [enqueue, hn]
    push_cast
    rfl
  · simp only [enqueue, hin]
    exact in_after_enqueue B s.shm.out n
  · simp only [enqueue]
    rw [pending_enqueue B v s.shm n hlt hin, hfifo, List.append_assoc]

theorem queue_inv_producer_step (B k : Nat) (resp : response) (s t : system) (hB : 0 < B)
    (h : queue_inv B s) (hs : producer_step B k resp s = some t) : queue_inv B t := by
  obtain ⟨hin, hout, h1, h2, n, hn, hring, hfifo⟩ := h
  unfold producer_step at hs
  cases hpc : s.producers[k]? with
  | none => rw [hpc] at hs; cases hs
  | some pc =>
    rw [hpc] at hs
    have c1 := fun a => countP_set_eq producer_pc.holds_empty s.producers k a pc hpc
    have c2 := fun a => countP_set_eq producer_pc.owes_full s.producers k a pc hpc
    cases pc with
    | claim =>
      dsimp only at hs
      split_ifs at hs with hx
      · cases hs
        have e1 := c1 producer_pc.exited
        have e2 := c2 producer_pc.exited
        simp [producer_pc.holds_empty, producer_pc.owes_full] at e1 e2
        refine ⟨hin, hout, ?_, ?_, n, hn, hring, hfifo⟩
        · dsimp only; omega
        · dsimp only; omega
      · cases hs
        have e1 := c1 (producer_pc.fetch s.shm.next_id)
        have e2 := c2 (producer_pc.fetch s.shm.next_id)
        simp [producer_pc.holds_empty, producer_pc.owes_full] at e1 e2
        refine ⟨hin, hout, ?_, ?_, n, hn, hring, hfifo⟩
        · dsimp only; omega
        · dsimp only; omega
    | fetch id =>
      dsimp only at hs
      cases hs
      have e1 := c1 (producer_pc.wait_empty id)
      have e2 := c2 (producer_pc.wait_empty id)
      simp [producer_pc.holds_empty, producer_pc.owes_full] at e1 e2
      refine ⟨hin, hout, ?_, ?_, n, hn, hring, hfifo⟩
      · dsimp only; omega
      · dsimp only; omega
    | wait_empty id =>
      dsimp only at hs
      split_ifs at hs with hx
      cases hs
      have e1 := c1 (producer_pc.enqueue id)
      have e2 := c2 (producer_pc.enqueue id)
      simp [producer_pc.holds_empty, producer_pc.owes_full] at e1 e2
      refine ⟨hin, hout, ?_, ?_, n, hn, hring, hfifo⟩
      · dsimp only; omega
      · dsimp only; omega
    | enqueue id =>
      dsimp only at hs
      cases hs
      have e1 := c1 producer_pc.post_full
      have e2 := c2 producer_pc.post_full
      simp [producer_pc.holds_empty, producer_pc.owes_full] at e1 e2
      have hlt : n < B := by omega
      obtain ⟨q1, q2, q3, q4, q5⟩ := queue_inv_enqueue B (id : Int) s n hB hn hlt hring hfifo
      refine ⟨q1, by rw [q2]; exact hout, ?_, ?_, n + 1, q3, q4, q5⟩
      · dsimp only; rw [q3]; simp only [enqueue]; push_cast; omega
      · dsimp only; rw [q3]; simp only [enqueue]; push_cast; omega
    | post_full =>
      dsimp only at hs
      cases hs
      have e1 := c1 producer_pc.claim
      have e2 := c2 producer_pc.claim
      simp [producer_pc.holds_empty, producer_pc.owes_full] at e1 e2
      refine ⟨hin, hout, ?_, ?_, n, hn, hring, hfifo⟩
      · dsimp only; omega
      · dsimp only; push_cast; omega
    | exited =>
      dsimp only at hs
      cases hs

theorem queue_inv_consumer_step (B k : Nat) (s t : system) (hB : 0 < B)
    (h : queue_inv B s) (hs : consumer_step B k s = some t) : queue_inv B t := by
  obtain ⟨hin, hout, h1, h2, n, hn, hring, hfifo⟩ := h
  unfold consumer_step at hs
  cases hpc : s.consumers[k]? with
  | none => rw [hpc] at hs; cases hs
  | some pc =>
    rw [hpc] at hs
    have c1 := fun a => countP_set_eq consumer_pc.holds_full s.consumers k a pc hpc
    have c2 := fun a => countP_set_eq consumer_pc.owes_empty s.consumers k a pc hpc
    cases pc with
    | wait_full =>
      dsimp only at hs
      split_ifs at hs with hx
      cases hs
      have e1 := c1 consumer_pc.dequeue
      have e2 := c2 consumer_pc.dequeue
      simp [consumer_pc.holds_full, consumer_pc.owes_empty] at e1 e2
      refine ⟨hin, hout, ?_, ?_, n, hn, hring, hfifo⟩
      · dsimp only; omega
      · dsimp only; omega
    | dequeue =>
      dsimp only at hs
      cases hs
      have e1 := c1 (consumer_pc.post_empty (s.shm.buf s.shm.out))
      have e2 := c2 (consumer_pc.post_empty (s.shm.buf s.shm.out))
      simp [consumer_pc.holds_full, consumer_pc.owes_empty] at e1 e2
      have hpos : 0 < n := by omega
      obtain ⟨m, rfl⟩ : ∃ m, n = m + 1 := ⟨n - 1, by omega⟩
      refine ⟨hin, Nat.mod_lt _ hB, ?_, ?_, m, ?_, ?_, ?_⟩
      · dsimp only; omega
      · dsimp only; omega
      · dsimp only; rw [hn]; push_cast; omega
      · dsimp only; rw [hring]; exact in_after_dequeue B s.shm.out m
      · dsimp only
        rw [hfifo, pending_dequeue B s.shm m hout, List.append_assoc]
        rfl
    | post_empty id =>
      dsimp only at hs
      cases hs
      have e1 := c1 (if id < 0 then consumer_pc.exited else consumer_pc.wait_full)
      have e2 := c2 (if id < 0 then consumer_pc.exited else consumer_pc.wait_full)
      have f1 : consumer_pc.holds_full
          (if id < 0 then consumer_pc.exited else consumer_pc.wait_full) = false := by
        split_ifs <;> rfl
      have f2 : consumer_pc.owes_empty
          (if id < 0 then consumer_pc.exited else consumer_pc.wait_full) = false := by
        split_ifs <;> rfl
      rw [f1] at e1
      rw [f2] at e2
      simp [consumer_pc.holds_full, consumer_pc.owes_empty] at e1 e2
      refine ⟨hin, hout, ?_, ?_, n, hn, hring, hfifo⟩
      · dsimp only; push_cast; omega
      · dsimp only; omega
    | exited =>
      dsimp only at hs
      cases hs

theorem queue_inv_main_step (B : Nat) (s t : system) (hB : 0 < B)
    (h : queue_inv B s) (hs : main_step B s = some t) : queue_inv B t := by
  obtain ⟨hin, hout, h1, h2, n, hn, hring, hfifo⟩ := h
  unfold main_step at hs
  cases hm : s.main with
  | wait_producers =>
    rw [hm] at hs h1 h2
    dsimp only at hs
    split_ifs at hs
    all_goals cases hs
    all_goals simp only [main_pc.holds_empty, main_pc.owes_full] at h1 h2
    all_goals refine ⟨hin, hout, ?_, ?_, n, hn, hring, hfifo⟩
    all_goals dsimp only
    all_goals simp only [main_pc.holds_empty, main_pc.owes_full]
    all_goals omega
  | pill_wait i =>
    rw [hm] at hs h1 h2
    dsimp only at hs
    split_ifs at hs
    all_goals cases hs
    all_goals simp only [main_pc.holds_empty, main_pc.owes_full] at h1 h2
    all_goals refine ⟨hin, hout, ?_, ?_, n, hn, hring, hfifo⟩
    all_goals dsimp only
    all_goals simp only [main_pc.holds_empty, main_pc.owes_full]
    all_goals omega
  | pill_put i =>
    rw [hm] at hs h1 h2
    dsimp only at hs
    cases hs
    simp only [main_pc.holds_empty, main_pc.owes_full] at h1 h2
    have hlt : n < B := by omega
    obtain ⟨q1, q2, q3, q4, q5⟩ := queue_inv_enqueue B (-1) s n hB hn hlt hring hfifo
    refine ⟨q1, by rw [q2]; exact hout, ?_, ?_, n + 1, q3, q4, q5⟩
    · dsimp only; rw [q3]; simp only [enqueue, main_pc.holds_empty]; push_cast; omega
    · dsimp only; rw [q3]; simp only [enqueue, main_pc.owes_full]; push_cast; omega
  | pill_post i =>
    rw [hm] at hs h1 h2
    dsimp only at hs
    split_ifs at hs
    all_goals cases hs
    all_goals simp only [main_pc.holds_empty, main_pc.owes_full] at h1 h2
    all_goals refine ⟨hin, hout, ?_, ?_, n, hn, hring, hfifo⟩
    all_goals dsimp only
    all_goals simp only [main_pc.holds_empty, main_pc.owes_full]
    all_goals push_cast
    all_goals omega
  | wait_consumers =>
    rw [hm] at hs h1 h2
    dsimp only at hs
    split_ifs at hs
    all_goals cases hs
    all_goals simp only [main_pc.holds_empty, main_pc.owes_full] at h1 h2
    all_goals refine ⟨hin, hout, ?_, ?_, n, hn, hring, hfifo⟩
    all_goals dsimp only
    all_goals simp only [main_pc.holds_empty, main_pc.owes_full]
    all_goals omega
  | assemble =>
    rw [hm] at hs
    dsimp only at hs
    cases hs

theorem queue_inv_init (B P C : Nat) (hB : 0 < B) : queue_inv B (init B P C) := by
  refine ⟨hB, hB, ?_, ?_, 0, rfl, ?_, rfl⟩
  · simp [init, main_pc.holds_empty, producer_pc.holds_empty, consumer_pc.owes_empty,
      List.countP_replicate]
  · simp [init, main_pc.owes_full, producer_pc.owes_full, consumer_pc.holds_full,
      List.countP_replicate]
  · simp [init, Nat.mod_eq_of_lt hB]

theorem queue_inv_step (B : Nat) (s t : system) (a : action) (hB : 0 < B)
    (h : queue_inv B s) (hs : step B s a = some t) : queue_inv B t := by
  cases a with
  | producer k resp => exact queue_inv_producer_step B k resp s t hB h hs
  | consumer k => exact queue_inv_consumer_step B k s t hB h hs
  | main => exact queue_inv_main_step B s t hB h hs

theorem run_induction (B : Nat) (Q : system → Prop)
    (hstep : ∀ s t a, Q s → step B s a = some t → Q t) :
    ∀ (acts : List action) (s t : system), Q s → run B s acts = some t → Q t := by
  intro acts
  induction acts with
  | nil =>
    intro s t hq hr
    simp only [run, Option.some.injEq] at hr
    subst hr
    exact hq
  | cons a rest ih =>
    intro s t hq hr
    simp only [run] at hr
    cases hst : step B s a with
    | none => rw [hst] at hr; cases hr
    | some u =>
      rw [hst] at hr
      exact ih u t (hstep s u a hq hst) hr

theorem queue_inv_run (B P C : Nat) (acts : List action) (t : system) (hB : 0 < B)
    (hr : run B (init B P C) acts = some t) : queue_inv B t :=
  run_induction B (queue_inv B) (fun s t a h hs => queue_inv_step B s t a hB h hs) acts
    (init B P C) t (queue_inv_init B P C hB) hr

/-! ### The claim invariant -/

theorem count_cast_append_cast (l : List Int) (x id : Nat) :
    (l ++ [(id : Int)]).count (x : Int) = l.count (x : Int) + (if id = x then 1 else 0) := by
  rw [List.count_append]
  congr 1
  by_cases h : id = x
  · subst h; simp
  · have : ¬ ((id : Int) = (x : Int)) := by omega
    simp [h, List.count_singleton, this]

theorem count_cast_append_pill (l : List Int) (x : Nat) :
    (l ++ [(-1 : Int)]).count (x : Int) = l.count (x : Int) := by
  rw [List.count_append]
  have : ¬ ((-1 : Int) = (x : Int)) := by omega
  simp [List.count_singleton, this]

theorem claim_inv_init (B P C : Nat) : claim_inv (init B P C) := by
  refine ⟨Nat.zero_le _, rfl, fun x => ?_, ?_⟩
  · simp [init, List.countP_replicate, producer_pc.holds_id]
  · simp [init, List.countP_replicate, producer_pc.is_exited]

theorem claim_inv_producer_step (B k : Nat) (resp : response) (s t : system)
    (h : claim_inv s) (hs : producer_step B k resp s = some t) : claim_inv t := by
  obtain ⟨h1, h2, h3, h4⟩ := h
  unfold producer_step at hs
  cases hpc : s.producers[k]? with
  | none => rw [hpc] at hs; cases hs
  | some pc =>
    rw [hpc] at hs
    have c1 := fun x a => countP_set_eq (producer_pc.holds_id x) s.producers k a pc hpc
    have c2 := fun a => countP_set_eq producer_pc.is_exited s.producers k a pc hpc
    cases pc with
    | claim =>
      dsimp only at hs
      split_ifs at hs with hx
      · cases hs
        refine ⟨h1, h2, fun x => ?_, fun _ => hx⟩
        have e1 := c1 x producer_pc.exited
        have e3 := h3 x
        simp [producer_pc.holds_id] at e1
        dsimp only
        omega
      · cases hs
        refine ⟨by dsimp only; omega, ?_, fun x => ?_, ?_⟩
        · dsimp only
          rw [List.range_succ, h2]
        · have e1 := c1 x (producer_pc.fetch s.shm.next_id)
          have e3 := h3 x
          simp only [producer_pc.holds_id] at e1
          dsimp only
          by_cases hxn : s.shm.next_id = x
          · subst hxn
            rw [if_neg (Nat.lt_irrefl _)] at e3
            rw [if_pos (Nat.lt_succ_self _)]
            simp at e1
            omega
          · simp [hxn] at e1
            split_ifs at e3 ⊢ <;> omega
        · dsimp only
          intro hpos
          have e2 := c2 (producer_pc.fetch s.shm.next_id)
          simp [producer_pc.is_exited] at e2
          have := h4 (by omega)
          omega
    | fetch id =>
      dsimp only at hs
      cases hs
      refine ⟨h1, h2, fun x => ?_, ?_⟩
      · have e1 := c1 x (producer_pc.wait_empty id)
        have e3 := h3 x
        simp only [producer_pc.holds_id] at e1
        dsimp only
        omega
      · dsimp only
        intro hpos
        have e2 := c2 (producer_pc.wait_empty id)
        simp [producer_pc.is_exited] at e2
        exact h4 (by omega)
    | wait_empty id =>
      dsimp only at hs
      split_ifs at hs with hx
      cases hs
      refine ⟨h1, h2, fun x => ?_, ?_⟩
      · have e1 := c1 x (producer_pc.enqueue id)
        have e3 := h3 x
        simp only [producer_pc.holds_id] at e1
        dsimp only
        omega
      · dsimp only
        intro hpos
        have e2 := c2 (producer_pc.enqueue id)
        simp [producer_pc.is_exited] at e2
        exact h4 (by omega)
    | enqueue id =>
      dsimp only at hs
      cases hs
      refine ⟨h1, h2, fun x => ?_, ?_⟩
      · have e1 := c1 x producer_pc.post_full
        have e3 := h3 x
        simp only [producer_pc.holds_id] at e1
        simp only [enqueue]
        rw [count_cast_append_cast]
        by_cases hxn : id = x
        · simp [hxn] at e1 ⊢
          omega
        · simp [hxn] at e1 ⊢
          omega
      · simp only [enqueue]
        intro hpos
        have e2 := c2 producer_pc.post_full
        simp [producer_pc.is_exited] at e2
        exact h4 (by omega)
    | post_full =>
      dsimp only at hs
      cases hs
      refine ⟨h1, h2, fun x => ?_, ?_⟩
      · have e1 := c1 x producer_pc.claim
        have e3 := h3 x
        simp [producer_pc.holds_id] at e1
        dsimp only
        omega
      · dsimp only
        intro hpos
        have e2 := c2 producer_pc.claim
        simp [producer_pc.is_exited] at e2
        exact h4 (by omega)
    | exited =>
      dsimp only at hs
      cases hs

/-! ### What each kind of step leaves unchanged -/

theorem enqueue_frame (B : Nat) (v : Int) (s : system) :
    (enqueue B v s).producers = s.producers ∧ (enqueue B v s).consumers = s.consumers ∧
    (enqueue B v s).main = s.main ∧ (enqueue B v s).popped = s.popped ∧
    (enqueue B v s).claimed = s.claimed ∧ (enqueue B v s).shm.next_id = s.shm.next_id ∧
    (enqueue B v s).pushed = s.pushed ++ [v] ∧ (enqueue B v s).empty = s.empty ∧
    (enqueue B v s).full = s.full :=
  ⟨rfl, rfl, rfl, rfl, rfl, rfl, rfl, rfl, rfl⟩

theorem producer_step_frame (B k : Nat) (resp : response) (s t : system)
    (hs : producer_step B k resp s = some t) :
    t.consumers = s.consumers ∧ t.main = s.main ∧ t.popped = s.popped ∧
    t.producers.length = s.producers.length := by
  unfold producer_step at hs
  cases hpc : s.producers[k]? with
  | none => rw [hpc] at hs; cases hs
  | some pc =>
    rw [hpc] at hs
    cases pc <;> dsimp only at hs <;> (try split_ifs at hs) <;> cases hs <;>
      exact ⟨rfl, rfl, rfl, List.length_set _ _ _⟩

theorem consumer_step_frame (B k : Nat) (s t : system) (hs : consumer_step B k s = some t) :
    t.producers = s.producers ∧ t.main = s.main ∧ t.pushed = s.pushed ∧
    t.claimed = s.claimed ∧ t.shm.next_id = s.shm.next_id ∧
    t.consumers.length = s.consumers.length := by
  unfold consumer_step at hs
  cases hpc : s.consumers[k]? with
  | none => rw [hpc] at hs; cases hs
  | some pc =>
    rw [hpc] at hs
    cases pc <;> dsimp only at hs <;> (try split_ifs at hs) <;> cases hs <;>
      exact ⟨rfl, rfl, rfl, rfl, rfl, List.length_set _ _ _⟩

theorem main_step_frame (B : Nat) (s t : system) (hs : main_step B s = some t) :
    t.producers = s.producers ∧ t.consumers = s.consumers ∧ t.popped = s.popped ∧
    t.claimed = s.claimed ∧ t.shm.next_id = s.shm.next_id := by
  unfold main_step at hs
  cases hm : s.main <;> rw [hm] at hs <;> dsimp only at hs <;> (try split_ifs at hs) <;>
    cases hs <;> exact ⟨rfl, rfl, rfl, rfl, rfl⟩

theorem main_step_pushed (B : Nat) (s t : system) (hs : main_step B s = some t) :
    (t.pushed = s.pushed ∧ ∀ i, s.main ≠ main_pc.pill_put i) ∨
    (t.pushed = s.pushed ++ [-1] ∧ ∃ i, s.main = main_pc.pill_put i ∧ t.main = main_pc.pill_post i) := by
  unfold main_step at hs
  cases hm : s.main <;> rw [hm] at hs <;> dsimp only at hs <;> (try split_ifs at hs) <;>
    cases hs
  all_goals first
    | exact Or.inl ⟨rfl, fun i h => by cases h⟩
    | exact Or.inr ⟨rfl, _, rfl, rfl⟩

theorem claim_inv_consumer_step (B k : Nat) (s t : system)
    (h : claim_inv s) (hs : consumer_step B k s = some t) : claim_inv t := by
  obtain ⟨f1, _, f3, f4, f5, _⟩ := consumer_step_frame B k s t hs
  unfold claim_inv
  rw [f1, f3, f4, f5]
  exact h

theorem claim_inv_main_step (B : Nat) (s t : system)
    (h : claim_inv s) (hs : main_step B s = some t) : claim_inv t := by
  obtain ⟨f1, _, _, f4, f5⟩ := main_step_frame B s t hs
  obtain ⟨h1, h2, h3, h4⟩ := h
  unfold claim_inv
  rw [f1, f4, f5]
  refine ⟨h1, h2, fun x => ?_, h4⟩
  rcases main_step_pushed B s t hs with ⟨hp, _⟩ | ⟨hp, _⟩
  · rw [hp]; exact h3 x
  · rw [hp, count_cast_append_pill]; exact h3 x

theorem claim_inv_step (B : Nat) (s t : system) (a : action)
    (h : claim_inv s) (hs : step B s a = some t) : claim_inv t := by
  cases a with
  | producer k resp => exact claim_inv_producer_step B k resp s t h hs
  | consumer k => exact claim_inv_consumer_step B k s t h hs
  | main => exact claim_inv_main_step B s t h hs

theorem claim_inv_run (B P C : Nat) (acts : List action) (t : system)
    (hr : run B (init B P C) acts = some t) : claim_inv t :=
  run_induction B claim_inv (fun s t a h hs => claim_inv_step B s t a h hs) acts
    (init B P C) t (claim_inv_init B P C) hr

/-! ### The shutdown invariant -/

theorem all_exited_getElem (l : List producer_pc) (k : Nat) (pc : producer_pc)
    (hall : l.countP producer_pc.is_exited = l.length) (hk : l[k]? = some pc) :
    pc = producer_pc.exited := by
  have hmem : pc ∈ l := by
    rw [List.getElem?_eq_some_iff] at hk
    obtain ⟨hlt, he⟩ := hk
    rw [← he]
    exact List.getElem_mem hlt
  have := (List.countP_eq_length.mp hall) pc hmem
  cases pc <;> simp [producer_pc.is_exited] at this ⊢

theorem producer_step_pushed (B k : Nat) (resp : response) (s t : system)
    (hs : producer_step B k resp s = some t) :
    (t.pushed = s.pushed) ∨
    (∃ id, s.producers[k]? = some (producer_pc.enqueue id) ∧ t.pushed = s.pushed ++ [(id : Int)]) := by
  unfold producer_step at hs
  cases hpc : s.producers[k]? with
  | none => rw [hpc] at hs; cases hs
  | some pc =>
    rw [hpc] at hs
    cases pc <;> dsimp only at hs <;> (try split_ifs at hs) <;> cases hs
    all_goals first
      | exact Or.inl rfl
      | exact Or.inr ⟨_, rfl, rfl⟩

theorem producer_step_not_exited (B k : Nat) (resp : response) (s t : system)
    (hs : producer_step B k resp s = some t) :
    ∃ pc, s.producers[k]? = some pc ∧ pc ≠ producer_pc.exited := by
  unfold producer_step at hs
  cases hpc : s.producers[k]? with
  | none => rw [hpc] at hs; cases hs
  | some pc =>
    rw [hpc] at hs
    cases pc <;> dsimp only at hs <;> (try split_ifs at hs) <;> cases hs <;>
      exact ⟨_, rfl, fun h => by cases h⟩

theorem shutdown_inv_init (B P C : Nat) : shutdown_inv (init B P C) := by
  refine ⟨fun h => absurd rfl h, trivial, ⟨[], rfl⟩, ?_⟩
  simp [init, List.countP_replicate, consumer_pc.got_pill]

theorem shutdown_inv_producer_step (B k : Nat) (resp : response) (s t : system)
    (h : shutdown_inv s) (hs : producer_step B k resp s = some t) : shutdown_inv t := by
  obtain ⟨h1, h2, ⟨ids, h3⟩, h4⟩ := h
  obtain ⟨f1, f2, f3, f4⟩ := producer_step_frame B k resp s t hs
  obtain ⟨pc, hpc, hne⟩ := producer_step_not_exited B k resp s t hs
  have hmain : s.main = main_pc.wait_producers := by
    by_contra hm
    exact hne (all_exited_getElem s.producers k pc (h1 hm) hpc)
  unfold shutdown_inv
  rw [f1, f2, f3]
  refine ⟨fun hm => absurd hmain hm, h2, ?_, h4⟩
  rw [hmain] at h3 ⊢
  simp only [main_pc.pills, List.replicate_zero, List.append_nil] at h3 ⊢
  rcases producer_step_pushed B k resp s t hs with hp | ⟨id, _, hp⟩
  · exact ⟨ids, by rw [hp, h3]⟩
  · exact ⟨ids ++ [id], by rw [hp, h3, List.map_append]; rfl⟩

theorem shutdown_inv_consumer_step (B k : Nat) (s t : system)
    (h : shutdown_inv s) (hs : consumer_step B k s = some t) : shutdown_inv t := by
  obtain ⟨h1, h2, h3, h4⟩ := h
  obtain ⟨f1, f2, f3, _, _, f6⟩ := consumer_step_frame B k s t hs
  unfold shutdown_inv
  rw [f1, f2, f3, f6]
  refine ⟨h1, h2, h3, ?_⟩
  unfold consumer_step at hs
  cases hpc : s.consumers[k]? with
  | none => rw [hpc] at hs; cases hs
  | some pc =>
    rw [hpc] at hs
    have c1 := fun a => countP_set_eq consumer_pc.got_pill s.consumers k a pc hpc
    cases pc with
    | wait_full =>
      dsimp only at hs
      split_ifs at hs with hx
      cases hs
      have e1 := c1 consumer_pc.dequeue
      simp [consumer_pc.got_pill] at e1
      dsimp only
      omega
    | dequeue =>
      dsimp only at hs
      cases hs
      have e1 := c1 (consumer_pc.post_empty (s.shm.buf s.shm.out))
      simp only [consumer_pc.got_pill] at e1
      dsimp only
      rw [List.countP_append, List.countP_singleton]
      simp only [Bool.false_eq_true, if_false, Nat.add_zero] at e1
      omega
    | post_empty id =>
      dsimp only at hs
      cases hs
      have e1 := c1 (if id < 0 then consumer_pc.exited else consumer_pc.wait_full)
      have f : consumer_pc.got_pill
          (if id < 0 then consumer_pc.exited else consumer_pc.wait_full) = decide (id < 0) := by
        split_ifs with hid <;> simp [consumer_pc.got_pill, hid]
      rw [f] at e1
      simp only [consumer_pc.got_pill] at e1
      dsimp only
      omega
    | exited =>
      dsimp only at hs
      cases hs

theorem shutdown_inv_main_step (B : Nat) (s t : system)
    (h : shutdown_inv s) (hs : main_step B s = some t) : shutdown_inv t := by
  obtain ⟨h1, h2, ⟨ids, h3⟩, h4⟩ := h
  obtain ⟨f1, f2, f3, _, _⟩ := main_step_frame B s t hs
  unfold shutdown_inv
  rw [f1, f2, f3]
  unfold main_step at hs
  cases hm : s.main with
  | wait_producers =>
    rw [hm] at hs h3
    dsimp only at hs
    split_ifs at hs with hx hc
    · cases hs
      refine ⟨fun _ => ?_, hc, ⟨ids, h3⟩, h4⟩
      rw [List.countP_eq_length]
      intro a ha
      have := (List.all_eq_true.mp hx) a ha
      simp only [decide_eq_true_eq] at this
      rw [this]; rfl
    · cases hs
      refine ⟨fun _ => ?_, trivial, ⟨ids, ?_⟩, h4⟩
      · rw [List.countP_eq_length]
        intro a ha
        have := (List.all_eq_true.mp hx) a ha
        simp only [decide_eq_true_eq] at this
        rw [this]; rfl
      · have hz : s.consumers.length = 0 := by omega
        dsimp only
        rw [h3]
        simp only [main_pc.pills, hz]
  | pill_wait i =>
    rw [hm] at hs h2 h3
    dsimp only at hs
    split_ifs at hs with hx
    cases hs
    exact ⟨fun _ => h1 (by rw [hm]; exact fun h => by cases h), h2, ⟨ids, h3⟩, h4⟩
  | pill_put i =>
    rw [hm] at hs h2 h3
    dsimp only at hs
    cases hs
    refine ⟨fun _ => h1 (by rw [hm]; exact fun h => by cases h), h2, ⟨ids, ?_⟩, h4⟩
    simp only [enqueue, main_pc.pills] at h3 ⊢
    rw [h3, List.append_assoc, List.replicate_succ', ]
  | pill_post i =>
    rw [hm] at hs h2 h3
    dsimp only at hs
    split_ifs at hs with hx
    · cases hs
      exact ⟨fun _ => h1 (by rw [hm]; exact fun h => by cases h), hx, ⟨ids, h3⟩, h4⟩
    · cases hs
      refine ⟨fun _ => h1 (by rw [hm]; exact fun h => by cases h), trivial, ⟨ids, ?_⟩, h4⟩
      simp only [main_pc.in_loop] at h2
      have hc : s.consumers.length = i + 1 := by omega
      dsimp only
      rw [h3]
      simp only [main_pc.pills, hc]
  | wait_consumers =>
    rw [hm] at hs h2 h3
    dsimp only at hs
    split_ifs at hs with hx
    cases hs
    exact ⟨fun _ => h1 (by rw [hm]; exact fun h => by cases h), trivial, ⟨ids, h3⟩, h4⟩
  | assemble =>
    rw [hm] at hs
    dsimp only at hs
    cases hs

theorem shutdown_inv_step (B : Nat) (s t : system) (a : action)
    (h : shutdown_inv s) (hs : step B s a = some t) : shutdown_inv t := by
  cases a with
  | producer k resp => exact shutdown_inv_producer_step B k resp s t h hs
  | consumer k => exact shutdown_inv_consumer_step B k s t h hs
  | main => exact shutdown_inv_main_step B s t h hs

theorem shutdown_inv_run (B P C : Nat) (acts : List action) (t : system)
    (hr : run B (init B P C) acts = some t) : shutdown_inv t :=
  run_induction B shutdown_inv (fun s t a h hs => shutdown_inv_step B s t a h hs) acts
    (init B P C) t (shutdown_inv_init B P C) hr

/-! ### The joins and the numbers of processes -/

theorem all_exited_consumer (l : List consumer_pc) (k : Nat) (pc : consumer_pc)
    (hall : l.countP consumer_pc.is_exited = l.length) (hk : l[k]? = some pc) :
    pc = consumer_pc.exited := by
  have hmem : pc ∈ l := by
    rw [List.getElem?_eq_some_iff] at hk
    obtain ⟨hlt, he⟩ := hk
    rw [← he]
    exact List.getElem_mem hlt
  have := (List.countP_eq_length.mp hall) pc hmem
  cases pc <;> simp [consumer_pc.is_exited] at this ⊢

theorem consumer_step_not_exited (B k : Nat) (s t : system)
    (hs : consumer_step B k s = some t) :
    ∃ pc, s.consumers[k]? = some pc ∧ pc ≠ consumer_pc.exited := by
  unfold consumer_step at hs
  cases hpc : s.consumers[k]? with
  | none => rw [hpc] at hs; cases hs
  | some pc =>
    rw [hpc] at hs
    cases pc <;> dsimp only at hs <;> (try split_ifs at hs) <;> cases hs <;>
      exact ⟨_, rfl, fun h => by cases h⟩

theorem main_step_assemble (B : Nat) (s t : system) (hs : main_step B s = some t)
    (ht : t.main = main_pc.assemble) :
    s.consumers.countP consumer_pc.is_exited = s.consumers.length := by
  unfold main_step at hs
  cases hm : s.main <;> rw [hm] at hs <;> dsimp only at hs <;> (try split_ifs at hs) <;>
    cases hs <;> (try cases ht)
  rename_i hx
  rw [List.countP_eq_length]
  intro a ha
  have := (List.all_eq_true.mp hx) a ha
  simp only [decide_eq_true_eq] at this
  rw [this]; rfl

theorem join_inv_init (B P C : Nat) : join_inv P C (init B P C) :=
  ⟨List.length_replicate _ _, List.length_replicate _ _, fun h => by cases h⟩

theorem join_inv_step (B P C : Nat) (s t : system) (a : action)
    (h : join_inv P C s) (hs : step B s a = some t) : join_inv P C t := by
  obtain ⟨h1, h2, h3⟩ := h
  cases a with
  | producer k resp =>
    obtain ⟨f1, f2, _, f4⟩ := producer_step_frame B k resp s t hs
    exact ⟨by rw [f4, h1], by rw [f1, h2], by rw [f1, f2]; exact h3⟩
  | consumer k =>
    obtain ⟨f1, f2, _, _, _, f6⟩ := consumer_step_frame B k s t hs
    refine ⟨by rw [f1, h1], by rw [f6, h2], fun hm => ?_⟩
    rw [f2] at hm
    obtain ⟨pc, hpc, hne⟩ := consumer_step_not_exited B k s t hs
    exact absurd (all_exited_consumer s.consumers k pc (h3 hm) hpc) hne
  | main =>
    obtain ⟨f1, f2, _, _, _⟩ := main_step_frame B s t hs
    refine ⟨by rw [f1, h1], by rw [f2, h2], fun hm => ?_⟩
    rw [f2]
    exact main_step_assemble B s t hs hm

theorem join_inv_run (B P C : Nat) (acts : List action) (t : system)
    (hr : run B (init B P C) acts = some t) : join_inv P C t :=
  run_induction B (join_inv P C) (fun s t a h hs => join_inv_step B P C s t a h hs) acts
    (init B P C) t (join_inv_init B P C) hr

theorem run_eq_state_after (B P C : Nat) (acts : List action)
    (h : (run B (init B P C) acts).isSome = true) :
    run B (init B P C) acts = some (state_after B P C acts) := by
  unfold state_after
  cases hr : run B (init B P C) acts with
  | none => rw [hr] at h; cases h
  | some t => rfl

/-! ### Counting in the history of the queue -/

theorem count_ids_pills (ids : List Nat) (m x : Nat) :
    (ids.map (fun x : Nat => (x : Int)) ++ List.replicate m (-1)).count (x : Int) = ids.count x := by
  rw [List.count_append, List.count_replicate]
  have h1 : ((-1 : Int) == (x : Int)) = false := by
    rw [beq_eq_false_iff_ne]; omega
  rw [h1]
  simp only [Bool.false_eq_true, if_false, Nat.add_zero]
  exact List.count_map_of_injective ids _ (fun a b h => by exact_mod_cast h) x

theorem countP_neg_ids_pills (ids : List Nat) (m : Nat) :
    (ids.map (fun x : Nat => (x : Int)) ++ List.replicate m (-1)).countP
      (fun v => decide (v < 0)) = m := by
  rw [List.countP_append, List.countP_map, List.countP_replicate]
  have h1 : ids.countP ((fun v : Int => decide (v < 0)) ∘ (fun x : Nat => (x : Int))) = 0 := by
    rw [List.countP_eq_zero]
    intro a _
    simp
  rw [h1]
  simp

theorem countP_nonneg_ids_pills (ids : List Nat) (m : Nat) :
    (ids.map (fun x : Nat => (x : Int)) ++ List.replicate m (-1)).countP
      (fun v => decide (0 ≤ v)) = ids.length := by
  rw [List.countP_append, List.countP_map, List.countP_replicate]
  have h1 : ids.countP ((fun v : Int => decide (0 ≤ v)) ∘ (fun x : Nat => (x : Int))) =
      ids.length := by
    rw [List.countP_eq_length]
    intro a _
    simp
  rw [h1]
  simp

theorem length_of_count_range (l : List Nat) (n : Nat)
    (h : ∀ x, l.count x = if x < n then 1 else 0) : l.length = n := by
  have hp : l.Perm (List.range n) := by
    rw [List.perm_iff_count]
    intro x
    rw [h x]
    by_cases hx : x < n
    · rw [if_pos hx]
      exact (List.count_eq_one_of_mem (List.nodup_range n) (List.mem_range.mpr hx)).symm
    · rw [if_neg hx]
      exact (List.count_eq_zero_of_not_mem (fun hm => hx (List.mem_range.mp hm))).symm
  rw [hp.length_eq, List.length_range]

theorem drained_of_pills_taken (p q : List Int) (ids : List Nat) (m : Nat) (hm : 0 < m)
    (h : p ++ q = ids.map (fun x : Nat => (x : Int)) ++ List.replicate m (-1))
    (hc : p.countP (fun v => decide (v < 0)) = m) : q = [] := by
  by_contra hq
  have hcount := countP_neg_ids_pills ids m
  rw [← h, List.countP_append, hc] at hcount
  have hq0 : q.countP (fun v => decide (v < 0)) = 0 := by omega
  obtain ⟨m', rfl⟩ : ∃ m', m = m' + 1 := ⟨m - 1, by omega⟩
  rw [List.replicate_succ', ← List.append_assoc,
    ← List.dropLast_append_getLast hq, ← List.append_assoc] at h
  have hl := (List.append_inj' h rfl).2
  have hlast : q.getLast hq = -1 := by
    simpa using hl
  have hmem : (-1 : Int) ∈ q := by
    rw [← hlast]; exact List.getLast_mem hq
  rw [List.countP_eq_zero] at hq0
  have := hq0 (-1) hmem
  simp at this

/-! ### The queue of paster2 -/

theorem queue_contents_eq (B : Nat) (s : system) (h : queue_inv B s) :
    s.pushed = s.popped ++ queue_contents B s ∧
    ((queue_contents B s).length : Int) = s.shm.count := by
  obtain ⟨_, _, _, _, n, hn, _, hp⟩ := h
  unfold queue_contents
  rw [hn, Int.toNat_natCast]
  exact ⟨hp, by simp [pending]⟩

/-- C15: for every capacity `B` with `1 ≤ B ≤ 50` and every interleaving of
the steps of the producers, the consumers and `main` from the initial state
(the pills of `main` included), where a value is stored in the queue only
after a `sem_wait(empty)` that found the counter positive and a value is taken
only after a `sem_wait(full)` that found the counter positive, the occupancy
`count` is at least 0 and at most `B`, hence at most the 50 slots of `buf`. -/
theorem queue_count_in_bounds (B P C : Nat) (acts : List action) (t : system)
    (hB1 : 1 ≤ B) (hB2 : B ≤ NUM_STRIPS) (hr : run B (init B P C) acts = some t) :
    0 ≤ t.shm.count ∧ t.shm.count ≤ (B : Int) ∧ t.shm.count ≤ (NUM_STRIPS : Int) := by
  obtain ⟨_, _, h3, h4, _⟩ := queue_inv_run B P C acts t hB1 hr
  have hB2i : (B : Int) ≤ (NUM_STRIPS : Int) := by exact_mod_cast hB2
  refine ⟨?_, ?_, ?_⟩ <;> omega

theorem queue_count_in_bounds_witness :
    (state_after 2 1 1 (produce_one small_response)).shm.count = 1 ∧
    (0 ≤ (state_after 2 1 1 (produce_one small_response)).shm.count ∧
     (state_after 2 1 1 (produce_one small_response)).shm.count ≤ ((2 : Nat) : Int) ∧
     (state_after 2 1 1 (produce_one small_response)).shm.count ≤ (NUM_STRIPS : Int)) :=
  ⟨by decide, queue_count_in_bounds 2 1 1 (produce_one small_response) _ (by decide) (by decide)
    (run_eq_state_after 2 1 1 _ (by decide))⟩

/-- C16: for every capacity `B` in `1..50` and every interleaving from the
initial state, the values taken from the queue so far are a prefix of the
values stored so far, and the rest of the values stored are exactly the
`count` values waiting in the queue, oldest first; a step that stores a value
puts it behind the values waiting, and a step that takes a value takes the
oldest value waiting. So no value is lost, duplicated, reordered or overwritten
before it is taken. -/
theorem queue_is_fifo (B P C : Nat) (acts : List action) (t : system)
    (hB1 : 1 ≤ B) (hB2 : B ≤ NUM_STRIPS) (hr : run B (init B P C) acts = some t) :
    t.popped <+: t.pushed ∧
    t.pushed = t.popped ++ queue_contents B t ∧
    ((queue_contents B t).length : Int) = t.shm.count ∧
    (queue_contents B t).length ≤ NUM_STRIPS ∧
    (∀ (a : action) (u : system) (v : Int), step B t a = some u →
      u.pushed = t.pushed ++ [v] →
      u.popped = t.popped ∧ queue_contents B u = queue_contents B t ++ [v]) ∧
    (∀ (a : action) (u : system) (v : Int), step B t a = some u →
      u.popped = t.popped ++ [v] →
      u.pushed = t.pushed ∧ queue_contents B t = v :: queue_contents B u) := by
  have hq := queue_inv_run B P C acts t hB1 hr
  obtain ⟨e1, e2⟩ := queue_contents_eq B t hq
  have hq2 := hq
  obtain ⟨_, _, h3, h4, _⟩ := hq2
  refine ⟨⟨_, e1.symm⟩, e1, e2, ?_, ?_, ?_⟩
  · have : ((queue_contents B t).length : Int) ≤ (NUM_STRIPS : Int) := by
      have hB2i : (B : Int) ≤ (NUM_STRIPS : Int) := by exact_mod_cast hB2
      omega
    exact_mod_cast this
  · intro a u v hs hv
    obtain ⟨d1, _⟩ := queue_contents_eq B u (queue_inv_step B t u a hB1 hq hs)
    have hpop : u.popped = t.popped := by
      cases a with
      | producer k resp => exact (producer_step_frame B k resp t u hs).2.2.1
      | consumer k =>
        have := (consumer_step_frame B k t u hs).2.2.1
        rw [this] at hv
        have := congrArg List.length hv
        simp at this
      | main => exact (main_step_frame B t u hs).2.2.1
    refine ⟨hpop, ?_⟩
    rw [hv, hpop, e1, List.append_assoc] at d1
    exact (List.append_cancel_left d1).symm
  · intro a u v hs hv
    obtain ⟨d1, _⟩ := queue_contents_eq B u (queue_inv_step B t u a hB1 hq hs)
    have hpush : u.pushed = t.pushed := by
      cases a with
      | producer k resp =>
        have := (producer_step_frame B k resp t u hs).2.2.1
        rw [this] at hv
        have := congrArg List.length hv
        simp at this
      | consumer k => exact (consumer_step_frame B k t u hs).2.2.1
      | main =>
        have := (main_step_frame B t u hs).2.2.1
        rw [this] at hv
        have := congrArg List.length hv
        simp at this
    refine ⟨hpush, ?_⟩
    rw [hv, hpush, e1, List.append_assoc] at d1
    exact List.append_cancel_left d1

theorem queue_is_fifo_witness :
    (state_after 2 1 1 (produce_one small_response ++ produce_one small_response)).pushed = [0, 1] ∧
    (state_after 2 1 1 (produce_one small_response ++ produce_one small_response)).popped <+:
      (state_after 2 1 1 (produce_one small_response ++ produce_one small_response)).pushed ∧
    queue_contents 2 (state_after 2 1 1 (produce_one small_response ++ produce_one small_response)) =
      [0, 1] :=
  ⟨by decide,
   (queue_is_fifo 2 1 1 (produce_one small_response ++ produce_one small_response) _ (by decide)
     (by decide) (run_eq_state_after 2 1 1 _ (by decide))).1,
   by decide⟩

/-! ### Shutdown, claims and failed downloads -/

theorem countP_got_pill (l : List consumer_pc) :
    l.countP consumer_pc.got_pill =
      l.countP consumer_pc.is_exited + l.countP consumer_pc.exiting := by
  induction l with
  | nil => rfl
  | cons a l ih =>
    rw [List.countP_cons, List.countP_cons, List.countP_cons, ih]
    cases a <;> simp [consumer_pc.got_pill, consumer_pc.is_exited, consumer_pc.exiting] <;> omega

theorem pills_le (C : Nat) (m : main_pc) (h : m.in_loop C) : m.pills C ≤ C := by
  cases m <;> simp only [main_pc.pills, main_pc.in_loop] at h ⊢ <;> omega

/-- C17 fails as stated: with one producer, one consumer and capacity 1, after
the 50 ids and the one pill have been stored and the consumer has dequeued the
pill, the queue is empty and one negative value has been taken, but the
consumer is still before its `sem_post(empty)` and no consumer has exited. -/
theorem consumer_not_exited_after_taking_pill :
    (run 1 (init 1 1 1) pill_taken).isSome = true ∧
    (state_after 1 1 1 pill_taken).pushed =
      (List.range 50).map (fun x : Nat => (x : Int)) ++ [-1] ∧
    (state_after 1 1 1 pill_taken).shm.count = 0 ∧
    (state_after 1 1 1 pill_taken).popped.countP (fun v => decide (v < 0)) = 1 ∧
    (state_after 1 1 1 pill_taken).consumers = [consumer_pc.post_empty (-1)] ∧
    (state_after 1 1 1 pill_taken).consumers.countP consumer_pc.is_exited = 0 := by
  decide

/-- C17 as amended: for every capacity `B ≥ 1`, in every state reached from
the initial state, `main` is
past the join of the producers only if every producer has exited, the values
stored in the queue are ids followed by the pills `-1` that `main` has stored,
at most `C` of them, and no step of a consumer stores a value; the consumers
that have exited together with the consumers that have dequeued a negative
value and are before their last `sem_post(empty)` are as many as the negative
values taken; such a consumer can always move, and its step makes it exit; and
when `C` negative values have been stored and the queue is empty, every
consumer has exited or is before that last `sem_post(empty)`. -/
theorem shutdown_protocol (B P C : Nat) (acts : List action) (t : system)
    (hB1 : 1 ≤ B) (hr : run B (init B P C) acts = some t) :
    (t.main ≠ main_pc.wait_producers → ∀ pc ∈ t.producers, pc = producer_pc.exited) ∧
    (∃ ids : List Nat, t.pushed = ids.map (fun x : Nat => (x : Int)) ++
      List.replicate (t.main.pills C) (-1)) ∧
    t.pushed.countP (fun v => decide (v < 0)) = t.main.pills C ∧
    t.main.pills C ≤ C ∧
    (∀ (k : Nat) (u : system), step B t (action.consumer k) = some u → u.pushed = t.pushed) ∧
    t.consumers.countP consumer_pc.is_exited + t.consumers.countP consumer_pc.exiting =
      t.popped.countP (fun v => decide (v < 0)) ∧
    (∀ (k : Nat) (id : Int), t.consumers[k]? = some (consumer_pc.post_empty id) → id < 0 →
      ∃ u, step B t (action.consumer k) = some u ∧
        u.consumers = t.consumers.set k consumer_pc.exited ∧ u.pushed = t.pushed) ∧
    (t.pushed.countP (fun v => decide (v < 0)) = C → t.shm.count = 0 →
      ∀ pc ∈ t.consumers, pc.is_exited = true ∨ pc.exiting = true) := by
  obtain ⟨s1, s2, ⟨ids, s3⟩, s4⟩ := shutdown_inv_run B P C acts t hr
  obtain ⟨j1, j2, _⟩ := join_inv_run B P C acts t hr
  obtain ⟨e1, e2⟩ := queue_contents_eq B t (queue_inv_run B P C acts t hB1 hr)
  rw [j2] at s2 s3
  have hneg : t.pushed.countP (fun v => decide (v < 0)) = t.main.pills C := by
    rw [s3]; exact countP_neg_ids_pills ids _
  have hcount : t.consumers.countP consumer_pc.is_exited +
      t.consumers.countP consumer_pc.exiting = t.popped.countP (fun v => decide (v < 0)) := by
    rw [← s4, countP_got_pill]
  refine ⟨fun hm pc hpc => ?_, ⟨ids, s3⟩, hneg,
    pills_le C t.main s2, fun k u hs => (consumer_step_frame B k t u hs).2.2.1, hcount, ?_, ?_⟩
  · have := List.countP_eq_length.mp (s1 hm) pc hpc
    cases pc <;> simp [producer_pc.is_exited] at this ⊢
  · intro k id hk hid
    refine ⟨{ t with empty := t.empty + 1, consumers := t.consumers.set k consumer_pc.exited },
      ?_, rfl, rfl⟩
    show consumer_step B k t = some _
    unfold consumer_step
    rw [hk]
    dsimp only
    rw [if_pos hid]
  · intro hC h0 pc hpc
    have hlen : (queue_contents B t).length = 0 := by
      have : ((queue_contents B t).length : Int) = 0 := by rw [e2, h0]
      exact_mod_cast this
    have hnil : queue_contents B t = [] := List.length_eq_zero.mp hlen
    rw [hnil, List.append_nil] at e1
    rw [← e1, hC] at hcount
    rw [← countP_got_pill, ← j2, List.countP_eq_length] at hcount
    have := hcount pc hpc
    cases pc <;> simp [consumer_pc.got_pill, consumer_pc.is_exited, consumer_pc.exiting] at this ⊢
    exact this

theorem shutdown_protocol_witness :
    (state_after 1 1 1 pill_taken).consumers = [consumer_pc.post_empty (-1)] ∧
    (state_after 1 1 1 pill_taken).consumers.countP consumer_pc.is_exited +
      (state_after 1 1 1 pill_taken).consumers.countP consumer_pc.exiting =
      (state_after 1 1 1 pill_taken).popped.countP (fun v => decide (v < 0)) ∧
    (state_after 1 1 1 pill_taken).popped.countP (fun v => decide (v < 0)) = 1 :=
  ⟨by decide,
   (shutdown_protocol 1 1 1 pill_taken _ (by decide)
     (run_eq_state_after 1 1 1 _ (by decide))).2.2.2.2.2.1,
   by decide⟩

theorem all_producers_exited (l : List producer_pc)
    (h : ∀ pc ∈ l, pc = producer_pc.exited) : l.countP producer_pc.is_exited = l.length := by
  rw [List.countP_eq_length]
  intro a ha
  rw [h a ha]; rfl

theorem holds_id_of_exited (l : List producer_pc) (x : Nat)
    (h : ∀ pc ∈ l, pc = producer_pc.exited) : l.countP (producer_pc.holds_id x) = 0 := by
  rw [List.countP_eq_zero]
  intro a ha
  rw [h a ha]; simp [producer_pc.holds_id]

/-- C18: for every number of producers `P ≥ 1`, every capacity `B ≥ 1`
and every interleaving from the initial state, the ids claimed so far are the
values `0, 1, ..., next_id - 1` of the shared counter in this order, strictly
increasing, with `next_id ≤ 50`; every claimed id is either held by exactly
one producer or has been stored in the queue exactly once, and no other id is
held or stored; once every producer has exited the ids claimed are exactly
`0..49` and each has been stored exactly once; and when the run is complete
(`main` has joined the consumers, of which there is at least one) every value
stored has been taken and the values taken that are not negative number 50. -/
theorem strip_ids_claimed_once (B P C : Nat) (acts : List action) (t : system)
    (hB1 : 1 ≤ B) (hP : 1 ≤ P) (hr : run B (init B P C) acts = some t) :
    t.claimed = List.range t.shm.next_id ∧ t.shm.next_id ≤ NUM_STRIPS ∧
    t.claimed.Pairwise (fun a b => a < b) ∧
    (∀ x : Nat, t.pushed.count (x : Int) + t.producers.countP (producer_pc.holds_id x) =
      if x ∈ t.claimed then 1 else 0) ∧
    ((∀ pc ∈ t.producers, pc = producer_pc.exited) →
      t.claimed = List.range NUM_STRIPS ∧
      (∀ x : Nat, t.pushed.count (x : Int) = if x < NUM_STRIPS then 1 else 0) ∧
      t.pushed.countP (fun v => decide (0 ≤ v)) = NUM_STRIPS) ∧
    (1 ≤ C → t.main = main_pc.assemble →
      t.popped = t.pushed ∧ t.popped.countP (fun v => decide (0 ≤ v)) = NUM_STRIPS) := by
  obtain ⟨c1, c2, c3, c4⟩ := claim_inv_run B P C acts t hr
  obtain ⟨s1, s2, ⟨ids, s3⟩, s4⟩ := shutdown_inv_run B P C acts t hr
  obtain ⟨j1, j2, j3⟩ := join_inv_run B P C acts t hr
  obtain ⟨e1, _⟩ := queue_contents_eq B t (queue_inv_run B P C acts t hB1 hr)
  have hdone : (∀ pc ∈ t.producers, pc = producer_pc.exited) →
      t.claimed = List.range NUM_STRIPS ∧
      (∀ x : Nat, t.pushed.count (x : Int) = if x < NUM_STRIPS then 1 else 0) ∧
      t.pushed.countP (fun v => decide (0 ≤ v)) = NUM_STRIPS := by
    intro hall
    have hn : t.shm.next_id = NUM_STRIPS := by
      have := c4 (by rw [all_producers_exited t.producers hall, j1]; exact hP)
      omega
    have hcnt : ∀ x : Nat, t.pushed.count (x : Int) = if x < NUM_STRIPS then 1 else 0 := by
      intro x
      have := c3 x
      rw [holds_id_of_exited t.producers x hall, hn, Nat.add_zero] at this
      exact this
    refine ⟨by rw [c2, hn], hcnt, ?_⟩
    rw [s3, countP_nonneg_ids_pills]
    apply length_of_count_range
    intro x
    rw [← count_ids_pills ids (t.main.pills t.consumers.length) x, ← s3]
    exact hcnt x
  refine ⟨c2, c1, ?_, ?_, hdone, ?_⟩
  · rw [c2]; exact List.pairwise_lt_range _
  · intro x
    rw [c3 x, c2]
    simp only [List.mem_range]
  · intro hC hm
    have hall : ∀ pc ∈ t.producers, pc = producer_pc.exited := by
      intro pc hpc
      have := List.countP_eq_length.mp (s1 (by rw [hm]; exact fun h => by cases h)) pc hpc
      cases pc <;> simp [producer_pc.is_exited] at this ⊢
    have hpills : t.main.pills t.consumers.length = C := by rw [hm, j2]; rfl
    rw [hpills] at s3
    have hgot : t.consumers.countP consumer_pc.got_pill = C := by
      rw [← j2, List.countP_eq_length]
      intro a ha
      have := List.countP_eq_length.mp (j3 hm) a ha
      cases a <;> simp [consumer_pc.is_exited, consumer_pc.got_pill] at this ⊢
    have hq : queue_contents B t = [] :=
      drained_of_pills_taken t.popped (queue_contents B t) ids C hC (by rw [← e1, s3])
        (by rw [← s4, hgot])
    rw [hq, List.append_nil] at e1
    exact ⟨e1.symm, by rw [← e1]; exact (hdone hall).2.2⟩

theorem strip_ids_claimed_once_witness :
    (state_after 1 1 1 complete_run).main = main_pc.assemble ∧
    (state_after 1 1 1 complete_run).claimed = List.range 50 ∧
    ((state_after 1 1 1 complete_run).popped = (state_after 1 1 1 complete_run).pushed ∧
     (state_after 1 1 1 complete_run).popped.countP (fun v => decide (0 ≤ v)) = NUM_STRIPS) :=
  ⟨by decide, by decide,
   (strip_ids_claimed_once 1 1 1 complete_run _ (by decide) (by decide)
     (run_eq_state_after 1 1 1 _ (by decide))).2.2.2.2.2 (by decide) (by decide)⟩

theorem curl_easy_perform_too_long (piece : List lab_png.U8) (cd : curl_data_t)
    (h1 : cd.sz = 0) (h2 : MAX_SEGMENT_SIZE < piece.length) (h3 : piece.length < 2 ^ 64) :
    curl_easy_perform [piece] false cd = (CURLE_WRITE_ERROR, cd) := by
  have hbig : (cd.sz + 1 * piece.length % 2 ^ 64) % 2 ^ 64 > MAX_SEGMENT_SIZE := by
    rw [h1, Nat.one_mul, Nat.zero_add, Nat.mod_mod, Nat.mod_eq_of_lt h3]
    exact h2
  have hne : (0 : Nat) ≠ piece.length := by
    have : 0 < piece.length := Nat.lt_of_le_of_lt (Nat.zero_le _) h2
    omega
  simp only [curl_easy_perform, write_cb, if_pos hbig, ne_eq, hne, not_false_eq_true, if_true]

theorem curl_easy_perform_oversize (cd : curl_data_t) (h : cd.sz = 0) :
    curl_easy_perform oversize_response.pieces oversize_response.network_error cd =
      (CURLE_WRITE_ERROR, cd) :=
  curl_easy_perform_too_long (List.replicate (MAX_SEGMENT_SIZE + 1) 0) cd h
    (by rw [List.length_replicate]; exact Nat.lt_succ_self _)
    (by rw [List.length_replicate]; decide)

theorem fetch_then_claim_state (resp : response) :
    (run 1 (init 1 1 1) (fetch_then_claim resp)).isSome = true ∧
    (state_after 1 1 1 (fetch_then_claim resp)).shm.received 0 = 1 ∧
    (state_after 1 1 1 (fetch_then_claim resp)).shm.sizes 0 =
      (curl_easy_perform resp.pieces resp.network_error
        { buf := [], sz := 0, frag_id := -1 }).2.sz ∧
    (state_after 1 1 1 (fetch_then_claim resp)).pushed = [0] ∧
    (state_after 1 1 1 (fetch_then_claim resp)).claimed = [0, 1] ∧
    (state_after 1 1 1 (fetch_then_claim resp)).producers = [producer_pc.fetch 1] :=
  ⟨rfl, rfl, rfl, rfl, rfl, rfl⟩

/-- C19 does not hold of the code: the result of `curl_easy_perform` is not
looked at. A transfer that fails before any byte arrives returns
`CURLE_RECV_ERROR`, and a transfer whose body of 30721 bytes exceeds the strip
capacity is aborted by `write_cb` with `CURLE_WRITE_ERROR`; in both cases the
producer that had claimed id 0 marks slot 0 received with size 0, stores id 0
in the queue, and its next claim is id 1: id 0 is never fetched again. -/
theorem failed_fetch_is_marked_received_and_enqueued :
    (curl_easy_perform failed_response.pieces failed_response.network_error
      { buf := [], sz := 0, frag_id := -1 }).1 = CURLE_RECV_ERROR ∧
    (curl_easy_perform oversize_response.pieces oversize_response.network_error
      { buf := [], sz := 0, frag_id := -1 }).1 = CURLE_WRITE_ERROR ∧
    CURLE_RECV_ERROR ≠ CURLE_OK ∧ CURLE_WRITE_ERROR ≠ CURLE_OK ∧
    (run 1 (init 1 1 1) (fetch_then_claim failed_response)).isSome = true ∧
    (state_after 1 1 1 (fetch_then_claim failed_response)).shm.received 0 = 1 ∧
    (state_after 1 1 1 (fetch_then_claim failed_response)).shm.sizes 0 = 0 ∧
    (state_after 1 1 1 (fetch_then_claim failed_response)).pushed = [0] ∧
    (state_after 1 1 1 (fetch_then_claim failed_response)).claimed = [0, 1] ∧
    (state_after 1 1 1 (fetch_then_claim failed_response)).producers = [producer_pc.fetch 1] ∧
    (run 1 (init 1 1 1) (fetch_then_claim oversize_response)).isSome = true ∧
    (state_after 1 1 1 (fetch_then_claim oversize_response)).shm.received 0 = 1 ∧
    (state_after 1 1 1 (fetch_then_claim oversize_response)).shm.sizes 0 = 0 ∧
    (state_after 1 1 1 (fetch_then_claim oversize_response)).pushed = [0] ∧
    (state_after 1 1 1 (fetch_then_claim oversize_response)).claimed = [0, 1] ∧
    (state_after 1 1 1 (fetch_then_claim oversize_response)).producers =
      [producer_pc.fetch 1] := by
  obtain ⟨a1, a2, a3, a4, a5, a6⟩ := fetch_then_claim_state failed_response
  obtain ⟨b1, b2, b3, b4, b5, b6⟩ := fetch_then_claim_state oversize_response
  rw [curl_easy_perform_oversize _ rfl] at b3
  exact ⟨rfl, by rw [curl_easy_perform_oversize _ rfl], by decide, by decide,
    a1, a2, a3, a4, a5, a6, b1, b2, b3, b4, b5, b6⟩

/-! ### The indices of the ring buffer -/

theorem countP_pos_of_getElem {α : Type} (p : α → Bool) (l : List α) (k : Nat) (a : α)
    (h : l[k]? = some a) (hp : p a = true) : 0 < l.countP p := by
  rw [List.countP_pos_iff]
  rw [List.getElem?_eq_some_iff] at h
  obtain ⟨hlt, he⟩ := h
  exact ⟨a, by rw [← he]; exact List.getElem_mem hlt, hp⟩

theorem push_step_shm (B : Nat) (s t : system) (a : action) (v : Int)
    (hs : step B s a = some t) (hv : t.pushed = s.pushed ++ [v]) :
    t.shm.buf = Function.update s.shm.buf s.shm.in_ v ∧ t.shm.out = s.shm.out ∧
    t.shm.in_ = (s.shm.in_ + 1) % B ∧ t.shm.count = s.shm.count + 1 ∧
    0 < s.producers.countP producer_pc.holds_empty + s.main.holds_empty := by
  cases a with
  | producer k resp =>
    have hs2 : producer_step B k resp s = some t := hs
    unfold producer_step at hs2
    cases hpc : s.producers[k]? with
    | none => rw [hpc] at hs2; cases hs2
    | some pc =>
      rw [hpc] at hs2
      have hpos := countP_pos_of_getElem producer_pc.holds_empty s.producers k pc hpc
      cases pc <;> dsimp only at hs2 <;> (try split_ifs at hs2) <;> cases hs2
      all_goals first
        | (exfalso; have := congrArg List.length hv; simp at this; done)
        | skip
      simp only [enqueue, List.append_cancel_left_eq, List.cons.injEq, and_true] at hv
      subst hv
      exact ⟨rfl, rfl, rfl, rfl, Nat.lt_of_lt_of_le (hpos rfl) (Nat.le_add_right _ _)⟩
  | consumer k =>
    have := (consumer_step_frame B k s t hs).2.2.1
    rw [this] at hv
    have := congrArg List.length hv
    simp at this
  | main =>
    have hs2 : main_step B s = some t := hs
    unfold main_step at hs2
    cases hm : s.main <;> rw [hm] at hs2 <;> dsimp only at hs2 <;> (try split_ifs at hs2) <;>
      cases hs2
    all_goals first
      | (exfalso; have := congrArg List.length hv; simp at this; done)
      | skip
    simp only [enqueue, List.append_cancel_left_eq, List.cons.injEq, and_true] at hv
    subst hv
    exact ⟨rfl, rfl, rfl, rfl, by simp [main_pc.holds_empty]⟩

/-- C28: for every capacity `B` in `1..50`, in every state reached from the
initial state the indices `in` and `out` are below `B`, `in` is `count` slots
after `out` modulo `B`, in a quiescent state `count` plus the value of `empty`
is `B` (and `full` is `count`), and the values waiting, which are the values
stored and not yet taken, are the `count` slots `out, out + 1, ...` modulo
`B`; a step that stores a value writes the slot `in`, which is none of these
slots, and leaves these slots as they are. -/
theorem ring_buffer_indices (B P C : Nat) (acts : List action) (t : system)
    (hB1 : 1 ≤ B) (hB2 : B ≤ NUM_STRIPS) (hr : run B (init B P C) acts = some t) :
    t.shm.in_ < B ∧ t.shm.out < B ∧ t.shm.in_ < NUM_STRIPS ∧ t.shm.out < NUM_STRIPS ∧
    0 ≤ t.shm.count ∧ t.shm.count ≤ (B : Int) ∧
    t.shm.in_ = (t.shm.out + t.shm.count.toNat) % B ∧
    (quiescent t → t.shm.count + (t.empty : Int) = (B : Int) ∧ (t.full : Int) = t.shm.count) ∧
    queue_contents B t =
      (List.range t.shm.count.toNat).map (fun j => t.shm.buf ((t.shm.out + j) % B)) ∧
    t.pushed = t.popped ++ queue_contents B t ∧
    (∀ (a : action) (u : system) (v : Int), step B t a = some u →
      u.pushed = t.pushed ++ [v] →
      u.shm.buf = Function.update t.shm.buf t.shm.in_ v ∧
      (∀ j : Nat, j < t.shm.count.toNat → (t.shm.out + j) % B ≠ t.shm.in_ ∧
        u.shm.buf ((t.shm.out + j) % B) = t.shm.buf ((t.shm.out + j) % B))) := by
  have hq := queue_inv_run B P C acts t hB1 hr
  obtain ⟨e1, _⟩ := queue_contents_eq B t hq
  obtain ⟨h1, h2, h3, h4, n, hn, hin, _⟩ := hq
  have htn : t.shm.count.toNat = n := by rw [hn, Int.toNat_natCast]
  refine ⟨h1, h2, Nat.lt_of_lt_of_le h1 hB2, Nat.lt_of_lt_of_le h2 hB2, by omega, by omega,
    by rw [htn]; exact hin, ?_, rfl, e1, ?_⟩
  · rintro ⟨q1, q2, q3, q4, q5, q6⟩
    rw [q1, q4, q5] at h3
    rw [q2, q3, q6] at h4
    constructor <;> omega
  · intro a u v hs hv
    obtain ⟨p1, _, _, _, p5⟩ := push_step_shm B t u a v hs hv
    refine ⟨p1, fun j hj => ?_⟩
    rw [htn] at hj
    have hnB : n < B := by omega
    have hne : (t.shm.out + j) % B ≠ t.shm.in_ := by
      rw [hin]; exact add_mod_ne B t.shm.out j n hj hnB
    exact ⟨hne, by rw [p1, Function.update_noteq hne]⟩

theorem ring_buffer_indices_witness :
    (state_after 2 1 1 (produce_one small_response ++ consume_one ++
      produce_one small_response)).shm.in_ = 0 ∧
    (state_after 2 1 1 (produce_one small_response ++ consume_one ++
      produce_one small_response)).shm.out = 1 ∧
    (state_after 2 1 1 (produce_one small_response ++ consume_one ++
      produce_one small_response)).shm.count = 1 ∧
    (state_after 2 1 1 (produce_one small_response ++ consume_one ++
      produce_one small_response)).shm.in_ =
      ((state_after 2 1 1 (produce_one small_response ++ consume_one ++
        produce_one small_response)).shm.out +
       (state_after 2 1 1 (produce_one small_response ++ consume_one ++
        produce_one small_response)).shm.count.toNat) % 2 :=
  ⟨by decide, by decide, by decide,
   (ring_buffer_indices 2 1 1 (produce_one small_response ++ consume_one ++
      produce_one small_response) _ (by decide) (by decide)
      (run_eq_state_after 2 1 1 _ (by decide))).2.2.2.2.2.2.1⟩

/-! ### The capacity of a strip slot -/

theorem write_cb_accept (ptr : List lab_png.U8) (size nmemb : Nat) (cd : curl_data_t)
    (hptr : ptr.length = size * nmemb) (hbuf : cd.buf.length = cd.sz)
    (hfit : cd.sz + ptr.length ≤ MAX_SEGMENT_SIZE) :
    write_cb ptr size nmemb cd =
      (ptr.length, { cd with buf := cd.buf ++ ptr, sz := cd.sz + ptr.length }) := by
  have hM : MAX_SEGMENT_SIZE < 2 ^ 64 := by decide
  have h1 : size * nmemb % 2 ^ 64 = ptr.length := by
    rw [← hptr]; exact Nat.mod_eq_of_lt (by omega)
  have h2 : (cd.sz + ptr.length) % 2 ^ 64 = cd.sz + ptr.length := Nat.mod_eq_of_lt (by omega)
  unfold write_cb
  simp only [h1, h2, if_neg (Nat.not_lt.mpr hfit)]
  rw [← hbuf, List.take_length, List.take_length]

theorem write_cb_reject (ptr : List lab_png.U8) (size nmemb : Nat) (cd : curl_data_t)
    (hptr : ptr.length = size * nmemb) (hlen : ptr.length < 2 ^ 63)
    (hsz : cd.sz ≤ MAX_SEGMENT_SIZE) (hbig : MAX_SEGMENT_SIZE < cd.sz + ptr.length) :
    write_cb ptr size nmemb cd = (0, cd) := by
  have hM : MAX_SEGMENT_SIZE < 2 ^ 63 := by decide
  have h1 : size * nmemb % 2 ^ 64 = ptr.length := by
    rw [← hptr]; exact Nat.mod_eq_of_lt (by omega)
  have h2 : (cd.sz + ptr.length) % 2 ^ 64 = cd.sz + ptr.length := Nat.mod_eq_of_lt (by omega)
  unfold write_cb
  simp only [h1, h2, if_pos hbig]

theorem write_cb_keeps_bound (ptr : List lab_png.U8) (cd : curl_data_t)
    (hlen : ptr.length < 2 ^ 63) (hbuf : cd.buf.length = cd.sz)
    (hsz : cd.sz ≤ MAX_SEGMENT_SIZE) :
    (write_cb ptr 1 ptr.length cd).2.buf.length = (write_cb ptr 1 ptr.length cd).2.sz ∧
    (write_cb ptr 1 ptr.length cd).2.sz ≤ MAX_SEGMENT_SIZE := by
  by_cases hfit : cd.sz + ptr.length ≤ MAX_SEGMENT_SIZE
  · rw [write_cb_accept ptr 1 ptr.length cd (Nat.one_mul _).symm hbuf hfit]
    exact ⟨by simp [hbuf], hfit⟩
  · rw [write_cb_reject ptr 1 ptr.length cd (Nat.one_mul _).symm hlen hsz (by omega)]
    exact ⟨hbuf, hsz⟩

theorem deliver_pieces_bound (pieces : List (List lab_png.U8)) (cd : curl_data_t)
    (hlen : ∀ piece ∈ pieces, piece.length < 2 ^ 63) (hbuf : cd.buf.length = cd.sz)
    (hsz : cd.sz ≤ MAX_SEGMENT_SIZE) :
    (deliver_pieces cd pieces).buf.length = (deliver_pieces cd pieces).sz ∧
    (deliver_pieces cd pieces).sz ≤ MAX_SEGMENT_SIZE := by
  induction pieces generalizing cd with
  | nil => exact ⟨hbuf, hsz⟩
  | cons piece rest ih =>
    obtain ⟨k1, k2⟩ := write_cb_keeps_bound piece cd (hlen piece (List.mem_cons_self _ _)) hbuf hsz
    exact ih (write_cb piece 1 piece.length cd).2
      (fun p hp => hlen p (List.mem_cons_of_mem _ hp)) k1 k2

/-- C24: for every sequence of body pieces handed to `write_cb` from the empty
accumulator, each piece an object of fewer than `2 ^ 63` bytes with
`size * nmemb` its length, the accumulated size is at most
`MAX_SEGMENT_SIZE = 30720` after every call; the next piece is accepted
exactly when the size plus its length is at most 30720: then `write_cb`
returns the length of the piece, the buffer is the old content followed by
the piece and the size grows by the length; otherwise `write_cb` returns 0
and leaves the buffer and the size as they are. -/
theorem write_cb_respects_capacity (before : List (List lab_png.U8)) (ptr : List lab_png.U8)
    (size nmemb : Nat) (hbefore : ∀ piece ∈ before, piece.length < 2 ^ 63)
    (hptr : ptr.length = size * nmemb) (hlen : ptr.length < 2 ^ 63) :
    MAX_SEGMENT_SIZE = 30720 ∧
    (deliver_pieces { buf := [], sz := 0, frag_id := -1 } before).sz ≤ MAX_SEGMENT_SIZE ∧
    (deliver_pieces { buf := [], sz := 0, frag_id := -1 } before).buf.length =
      (deliver_pieces { buf := [], sz := 0, frag_id := -1 } before).sz ∧
    ((deliver_pieces { buf := [], sz := 0, frag_id := -1 } before).sz + ptr.length ≤
        MAX_SEGMENT_SIZE →
      write_cb ptr size nmemb (deliver_pieces { buf := [], sz := 0, frag_id := -1 } before) =
        (ptr.length,
          { deliver_pieces { buf := [], sz := 0, frag_id := -1 } before with
            buf := (deliver_pieces { buf := [], sz := 0, frag_id := -1 } before).buf ++ ptr
            sz := (deliver_pieces { buf := [], sz := 0, frag_id := -1 } before).sz +
              ptr.length })) ∧
    (MAX_SEGMENT_SIZE <
        (deliver_pieces { buf := [], sz := 0, frag_id := -1 } before).sz + ptr.length →
      write_cb ptr size nmemb (deliver_pieces { buf := [], sz := 0, frag_id := -1 } before) =
        (0, deliver_pieces { buf := [], sz := 0, frag_id := -1 } before)) := by
  obtain ⟨k1, k2⟩ := deliver_pieces_bound before { buf := [], sz := 0, frag_id := -1 } hbefore
    rfl (Nat.zero_le _)
  exact ⟨rfl, k2, k1, fun hfit => write_cb_accept ptr size nmemb _ hptr k1 hfit,
    fun hbig => write_cb_reject ptr size nmemb _ hptr hlen k2 hbig⟩

theorem write_cb_respects_capacity_witness :
    deliver_pieces { buf := [], sz := 0, frag_id := -1 } [[1, 2], [3]] =
      { buf := [1, 2, 3], sz := 3, frag_id := -1 } ∧
    write_cb [4, 5] 1 2 (deliver_pieces { buf := [], sz := 0, frag_id := -1 } [[1, 2], [3]]) =
      (2, { buf := [1, 2, 3, 4, 5], sz := 5, frag_id := -1 }) :=
  ⟨by decide,
   ((write_cb_respects_capacity [[1, 2], [3]] [4, 5] 1 2 (by decide) (by decide)
      (by decide)).2.2.2.1 (by decide)).trans (by decide)⟩

/-! ### The arguments of paster2 -/

/-- C21: `main` gets past its checks if and only if there are exactly five
arguments and the integers that `atoi` reads from them satisfy
`1 ≤ B ≤ 50`, `P ≥ 1`, `C ≥ 1`, `X ≥ 0` and `1 ≤ N ≤ 3`; it then starts from
the initial state for `B`, `P` and `C`. For every other input it returns
`EXIT_FAILURE`, which is not zero, before anything is created. -/
theorem main_checks_arguments (argv : List (List lab_png.U8)) :
    ((∃ r, main argv = Except.ok r) ↔
      (argv.length = 6 ∧
        1 ≤ (parse_arguments argv).B ∧ (parse_arguments argv).B ≤ 50 ∧
        1 ≤ (parse_arguments argv).P ∧ 1 ≤ (parse_arguments argv).C ∧
        0 ≤ (parse_arguments argv).X ∧
        1 ≤ (parse_arguments argv).N ∧ (parse_arguments argv).N ≤ 3)) ∧
    (∀ r, main argv = Except.ok r →
      r = (parse_arguments argv,
        init (parse_arguments argv).B.toNat (parse_arguments argv).P.toNat
          (parse_arguments argv).C.toNat)) ∧
    ((¬ ∃ r, main argv = Except.ok r) → main argv = Except.error lab_png.EXIT_FAILURE) ∧
    lab_png.EXIT_FAILURE ≠ 0 := by
  have hN : ((NUM_STRIPS : Nat) : Int) = 50 := rfl
  have hF : lab_png.EXIT_FAILURE ≠ 0 := by decide
  unfold main
  by_cases hlen : argv.length = 6
  · rw [if_neg (not_not.mpr hlen)]
    dsimp only
    by_cases hbad : (parse_arguments argv).B < 1 ∨ (parse_arguments argv).B > NUM_STRIPS ∨
        (parse_arguments argv).P < 1 ∨ (parse_arguments argv).C < 1 ∨
        (parse_arguments argv).X < 0 ∨ (parse_arguments argv).N < 1 ∨
        (parse_arguments argv).N > 3
    · rw [if_pos hbad]
      refine ⟨⟨?_, ?_⟩, ?_, fun _ => rfl, hF⟩
      · rintro ⟨r, hr⟩
        cases hr
      · intro h
        exfalso
        rw [hN] at hbad
        omega
      · intro r hr
        cases hr
    · rw [if_neg hbad]
      refine ⟨⟨?_, fun _ => ⟨_, rfl⟩⟩, ?_, fun h => absurd ⟨_, rfl⟩ h, hF⟩
      · intro _
        rw [hN] at hbad
        refine ⟨hlen, ?_⟩
        omega
      · intro r hr
        cases hr
        rfl
  · rw [if_pos hlen]
    refine ⟨⟨?_, fun h => absurd h.1 hlen⟩, ?_, fun _ => rfl, hF⟩
    · rintro ⟨r, hr⟩
      cases hr
    · intro r hr
      cases hr

theorem main_checks_arguments_witness :
    parse_arguments example_argv = { B := 5, P := 1, C := 2, X := 0, N := 1 } ∧
    (∃ r, main example_argv = Except.ok r) ∧
    main bad_argv = Except.error lab_png.EXIT_FAILURE :=
  ⟨by decide, (main_checks_arguments example_argv).1.mpr (by decide),
   (main_checks_arguments bad_argv).2.2.1
     (fun h => absurd ((main_checks_arguments bad_argv).1.mp h) (by decide))⟩

end paster2

namespace paster

/-! ### The strip store of paster -/

/-- C25 does not hold of the code: `write_cb` stores a piece only while the
slot is not marked received, and marks it with the first piece. For a
response for strip 7 whose body `[1, 2, 3, 4, 5]` arrives in the two pieces
`[1, 2, 3]` and `[4, 5]`, the transfer ends with `CURLE_OK`, and the slot
holds the first piece `[1, 2, 3]` with size 3, not the body of 5 bytes. -/
theorem only_first_piece_is_stored :
    two_piece_response.pieces.flatten = [1, 2, 3, 4, 5] ∧
    (init 1).received 7 = 0 ∧
    (curl_easy_perform two_piece_response.headers two_piece_response.pieces
      two_piece_response.network_error (init 1)).1 = CURLE_OK ∧
    (curl_easy_perform two_piece_response.headers two_piece_response.pieces
      two_piece_response.network_error (init 1)).2.current_header_strip = 7 ∧
    (curl_easy_perform two_piece_response.headers two_piece_response.pieces
      two_piece_response.network_error (init 1)).2.data 7 = some [1, 2, 3] ∧
    (curl_easy_perform two_piece_response.headers two_piece_response.pieces
      two_piece_response.network_error (init 1)).2.sizes 7 = 3 ∧
    (curl_easy_perform two_piece_response.headers two_piece_response.pieces
      two_piece_response.network_error (init 1)).2.received 7 = 1 ∧
    (curl_easy_perform two_piece_response.headers two_piece_response.pieces
      two_piece_response.network_error (init 1)).2.downloaded = 1 := by
  decide

/-! ### The strip index of paster -/

end paster

namespace catpng

/-! ### catpng: the reference header -/

theorem parsed_header_eq (hdr0 : lab_png.data_IHDR) (bytes : List lab_png.U8)
    (h : (lab_png.get_png_data_IHDR hdr0 { data := bytes, pos := 8 } 8
      lab_png.Whence.SEEK_SET).1 ≠ 0) :
    (lab_png.get_png_data_IHDR hdr0 { data := bytes, pos := 8 } 8
      lab_png.Whence.SEEK_SET).2.1 = lab_png.declared_header bytes ∧
    ((bytes.drop 16).take 13).length = 13 := by
  have hs : lab_png.fseek { data := bytes, pos := 8 } 8 lab_png.Whence.SEEK_SET =
      (0, { data := bytes, pos := 8 }) := lab_png.fseek_set { data := bytes, pos := 8 } 8
  by_cases hat : lab_png.IHDR_at (lab_png.remaining
      (lab_png.fseek { data := bytes, pos := 8 } 8 lab_png.Whence.SEEK_SET).2)
  · have hok := lab_png.get_png_data_IHDR_ok hdr0 { data := bytes, pos := 8 } 8
      lab_png.Whence.SEEK_SET (by rw [hs]) hat
    rw [hok]
    rw [hs] at hat ⊢
    simp only [lab_png.remaining, List.drop_drop] at hat ⊢
    obtain ⟨hl, _, _⟩ := hat
    rw [List.length_drop] at hl
    refine ⟨rfl, ?_⟩
    rw [List.length_take, List.length_drop]
    omega
  · exact absurd (lab_png.get_png_data_IHDR_fail hdr0 _ 8 lab_png.Whence.SEEK_SET
      (fun hc => hat hc.2)).1 h

theorem est_raw_size_exact (hdr : lab_png.data_IHDR)
    (h : hdr.height * (hdr.width * 4 + 1) < 2 ^ 32) :
    lab_png.est_raw_size hdr = hdr.height * (hdr.width * 4 + 1) := by
  unfold lab_png.est_raw_size
  rcases Nat.eq_zero_or_pos hdr.height with h0 | hpos
  · rw [h0, Nat.zero_mul, Nat.zero_mul]; rfl
  · have hw : hdr.width * 4 + 1 < 2 ^ 32 :=
      Nat.lt_of_le_of_lt (Nat.le_mul_of_pos_left _ hpos) h
    have e1 : hdr.width * 4 % 2 ^ 32 = hdr.width * 4 := Nat.mod_eq_of_lt (by omega)
    rw [e1, Nat.mod_eq_of_lt hw, Nat.mod_eq_of_lt h]

theorem strip_body_capacity (mem_inf other : Nat → List lab_png.U8 → Option (List lab_png.U8))
    (st : lab_png.strip_acc) (strip : List lab_png.U8)
    (h : ∀ source, mem_inf (lab_png.est_raw_size (lab_png.declared_header strip)) source =
      other (lab_png.est_raw_size (lab_png.declared_header strip)) source) :
    lab_png.strip_body mem_inf st strip = lab_png.strip_body other st strip := by
  have hfd : (lab_png.fread lab_png.PNG_SIG_SIZE { data := strip, pos := 0 }).2.data = strip := by
    rw [lab_png.fread_snd]
  unfold lab_png.strip_body
  dsimp only
  generalize lab_png.fread lab_png.PNG_SIG_SIZE { data := strip, pos := 0 } = fr at hfd ⊢
  obtain ⟨sig_buf, fp⟩ := fr
  obtain ⟨fd, fpos⟩ := fp
  dsimp only at hfd ⊢
  subst hfd
  rw [lab_png.get_png_data_IHDR_pos st.ref_hdr fd fpos 8 lab_png.PNG_SIG_SIZE]
  have hp := parsed_header_eq st.ref_hdr fd
  have e8 : (8 : Int) = ((lab_png.PNG_SIG_SIZE : Nat) : Int) := rfl
  rw [e8] at hp
  generalize lab_png.get_png_data_IHDR st.ref_hdr { data := fd, pos := 8 }
    ((lab_png.PNG_SIG_SIZE : Nat) : Int) lab_png.Whence.SEEK_SET = A at hp ⊢
  obtain ⟨ra, hdr, fa⟩ := A
  dsimp only at hp ⊢
  by_cases h1 : sig_buf.length ≠ lab_png.PNG_SIG_SIZE ∨
      lab_png.is_png sig_buf lab_png.PNG_SIG_SIZE = 0
  · rw [if_pos h1, if_pos h1]
  · rw [if_neg h1, if_neg h1]
    by_cases h2 : ra = 0
    · rw [if_pos h2, if_pos h2]
    · rw [if_neg h2, if_neg h2]
      have hh := (hp h2).1
      subst hh
      generalize lab_png.get_png_chunks lab_png.mallocPNG fa
        ((lab_png.PNG_SIG_SIZE : Nat) : Int) lab_png.Whence.SEEK_SET = C
      obtain ⟨rc, png, fc⟩ := C
      dsimp only
      by_cases h3 : rc = 0
      · rw [if_pos h3, if_pos h3]
      · rw [if_neg h3, if_neg h3]
        cases png.p_IDAT with
        | none => rfl
        | some idat =>
          dsimp only
          rw [h]

theorem file_body_capacity (mem_inf other : Nat → List lab_png.U8 → Option (List lab_png.U8))
    (hdr0 : lab_png.data_IHDR) (st : file_acc) (bytes : List lab_png.U8)
    (h : ∀ source, mem_inf (lab_png.est_raw_size (lab_png.declared_header bytes)) source =
      other (lab_png.est_raw_size (lab_png.declared_header bytes)) source) :
    file_body mem_inf hdr0 st (some bytes) = file_body other hdr0 st (some bytes) := by
  have hfd : (lab_png.fread lab_png.PNG_SIG_SIZE { data := bytes, pos := 0 }).2.data = bytes := by
    rw [lab_png.fread_snd]
  unfold file_body
  dsimp only
  generalize lab_png.fread lab_png.PNG_SIG_SIZE { data := bytes, pos := 0 } = fr at hfd ⊢
  obtain ⟨sig_buf, fp⟩ := fr
  obtain ⟨fd, fpos⟩ := fp
  dsimp only at hfd ⊢
  subst hfd
  rw [lab_png.get_png_data_IHDR_pos hdr0 fd fpos 8 lab_png.PNG_SIG_SIZE]
  have hp := parsed_header_eq hdr0 fd
  have e8 : (8 : Int) = ((lab_png.PNG_SIG_SIZE : Nat) : Int) := rfl
  rw [e8] at hp
  generalize lab_png.get_png_data_IHDR hdr0 { data := fd, pos := 8 }
    ((lab_png.PNG_SIG_SIZE : Nat) : Int) lab_png.Whence.SEEK_SET = A at hp ⊢
  obtain ⟨ra, hdr, fa⟩ := A
  dsimp only at hp ⊢
  by_cases h1 : sig_buf.length ≠ lab_png.PNG_SIG_SIZE ∨
      lab_png.is_png sig_buf lab_png.PNG_SIG_SIZE = 0
  · rw [if_pos h1, if_pos h1]
  · rw [if_neg h1, if_neg h1]
    by_cases h2 : ra = 0
    · rw [if_pos h2, if_pos h2]
    · rw [if_neg h2, if_neg h2]
      have hh := (hp h2).1
      subst hh
      by_cases h3 : st.valid_pngs ≠ 0 ∧
          ((lab_png.declared_header fd).width ≠ st.ref_hdr.width ∨
            (lab_png.declared_header fd).bit_depth ≠ st.ref_hdr.bit_depth ∨
            (lab_png.declared_header fd).color_type ≠ st.ref_hdr.color_type ∨
            (lab_png.declared_header fd).compression ≠ st.ref_hdr.compression ∨
            (lab_png.declared_header fd).filter ≠ st.ref_hdr.filter ∨
            (lab_png.declared_header fd).interlace ≠ st.ref_hdr.interlace)
      · rw [if_pos h3, if_pos h3]
      · rw [if_neg h3, if_neg h3]
        generalize (if st.valid_pngs = 0 then
          ({ st with ref_hdr := lab_png.declared_header fd } : file_acc) else st) = s1
        generalize lab_png.get_png_chunks lab_png.mallocPNG fa
          ((lab_png.PNG_SIG_SIZE : Nat) : Int) lab_png.Whence.SEEK_SET = C
        obtain ⟨rc, png, fc⟩ := C
        dsimp only
        by_cases h4 : rc = 0
        · rw [if_pos h4, if_pos h4]
        · rw [if_neg h4, if_neg h4]
          cases png.p_IDAT with
          | none => rfl
          | some idat =>
            dsimp only
            by_cases h5 : lab_png.get_chunk_crc (some idat) ≠
                lab_png.calculate_chunk_crc (some idat)
            · rw [if_pos h5, if_pos h5]
            · rw [if_neg h5, if_neg h5, h]

/-- C23 fails as stated: the product is computed in `U32` arithmetic, so for a
strip that declares 40000 by 40000 pixels, where
`height × (width × 4 + 1) = 6400040000`, `save_png_from_memstrips` and the
loop of `catpng` hand `mem_inf` the capacity `2105072704` (the call succeeds
with the probe for that capacity and fails with the probe for the product);
and `decompress_strip` hands `uncompress` the constant `400 * 6 + 6 = 2406`,
less than `9606`, whatever header the chunks declare. -/
theorem capacity_wraps_or_is_constant :
    lab_png.wide_header.height * (lab_png.wide_header.width * 4 + 1) = 6400040000 ∧
    lab_png.est_raw_size lab_png.wide_header = 2105072704 ∧
    lab_png.declared_header (lab_png.strip_of_header lab_png.wide_header [1, 2]) =
      lab_png.wide_header ∧
    (lab_png.strip_body (lab_png.capacity_probe 2105072704)
      { ref_hdr := lab_png.zero_IHDR, concat_data := [], total_height := 0 }
      (lab_png.strip_of_header lab_png.wide_header [1, 2])).concat_data = [0] ∧
    (lab_png.strip_body (lab_png.capacity_probe 6400040000)
      { ref_hdr := lab_png.zero_IHDR, concat_data := [], total_height := 0 }
      (lab_png.strip_of_header lab_png.wide_header [1, 2])).concat_data = [] ∧
    (file_body (lab_png.capacity_probe 2105072704) lab_png.zero_IHDR
      { ref_hdr := lab_png.zero_IHDR, concat_data := [], total_height := 0, valid_pngs := 0 }
      (some (lab_png.strip_of_header lab_png.wide_header [1, 2]))).concat_data = [0] ∧
    (file_body (lab_png.capacity_probe 6400040000) lab_png.zero_IHDR
      { ref_hdr := lab_png.zero_IHDR, concat_data := [], total_height := 0, valid_pngs := 0 }
      (some (lab_png.strip_of_header lab_png.wide_header [1, 2]))).concat_data = [] ∧
    lab_png.est_raw_size (lab_png.declared_header ((lab_png.example_data 0).drop 8)) ≠ 2406 ∧
    paster.decompress_strip (lab_png.capacity_probe 2406) ((lab_png.example_data 0).drop 8)
      ((lab_png.example_data 0).length - 8) = (1, some [0]) ∧
    paster.decompress_strip (lab_png.capacity_probe 9606) ((lab_png.example_data 0).drop 8)
      ((lab_png.example_data 0).length - 8) = (0, none) := by
  decide

/-- C23 as amended: `save_png_from_memstrips` and the loop of `catpng` hand
`mem_inf` no other capacity than `est_raw_size` of the header that the strip
or file itself declares (replacing `mem_inf` by a routine that agrees with it
at this capacity changes nothing); `est_raw_size` is
`height × (width × 4 + 1)` in `U32` arithmetic, equal to the product whenever
the product is below `2 ^ 32`, and `9606` for a strip of 400 by 6 pixels. -/
theorem capacity_from_declared_header
    (mem_inf other : Nat → List lab_png.U8 → Option (List lab_png.U8))
    (hdr0 : lab_png.data_IHDR) (st : lab_png.strip_acc) (fst : file_acc)
    (bytes : List lab_png.U8)
    (h : ∀ source, mem_inf (lab_png.est_raw_size (lab_png.declared_header bytes)) source =
      other (lab_png.est_raw_size (lab_png.declared_header bytes)) source) :
    lab_png.strip_body mem_inf st bytes = lab_png.strip_body other st bytes ∧
    file_body mem_inf hdr0 fst (some bytes) = file_body other hdr0 fst (some bytes) ∧
    lab_png.est_raw_size (lab_png.declared_header bytes) =
      (lab_png.declared_header bytes).height *
        (((lab_png.declared_header bytes).width * 4 % 2 ^ 32 + 1) % 2 ^ 32) % 2 ^ 32 ∧
    ((lab_png.declared_header bytes).height * ((lab_png.declared_header bytes).width * 4 + 1)
        < 2 ^ 32 →
      lab_png.est_raw_size (lab_png.declared_header bytes) =
        (lab_png.declared_header bytes).height *
          ((lab_png.declared_header bytes).width * 4 + 1)) ∧
    ((lab_png.declared_header bytes).width = 400 → (lab_png.declared_header bytes).height = 6 →
      lab_png.est_raw_size (lab_png.declared_header bytes) = 6 * (400 * 4 + 1)) :=
  ⟨strip_body_capacity mem_inf other st bytes h, file_body_capacity mem_inf other hdr0 fst bytes h,
    rfl, est_raw_size_exact _, fun hw hh => by
      rw [est_raw_size_exact _ (by rw [hw, hh]; decide), hw, hh]⟩

theorem capacity_from_declared_header_witness :
    lab_png.est_raw_size (lab_png.declared_header (lab_png.example_data 0)) = 9606 ∧
    lab_png.strip_body lab_png.stored_inf
      { ref_hdr := lab_png.zero_IHDR, concat_data := [], total_height := 0 }
      (lab_png.example_data 0) =
    lab_png.strip_body
      (fun capacity source => if capacity = 9606 then lab_png.stored_inf capacity source else none)
      { ref_hdr := lab_png.zero_IHDR, concat_data := [], total_height := 0 }
      (lab_png.example_data 0) :=
  ⟨by decide,
   (capacity_from_declared_header lab_png.stored_inf
     (fun capacity source => if capacity = 9606 then lab_png.stored_inf capacity source else none)
     lab_png.zero_IHDR { ref_hdr := lab_png.zero_IHDR, concat_data := [], total_height := 0 }
     { ref_hdr := lab_png.zero_IHDR, concat_data := [], total_height := 0, valid_pngs := 0 }
     (lab_png.example_data 0)
     (fun source => by
       have e : lab_png.est_raw_size (lab_png.declared_header (lab_png.example_data 0)) = 9606 := by
         decide
       rw [e]
       exact (if_pos rfl).symm)).1⟩

end catpng

namespace pnginfo

/-! ### pnginfo -/

theorem header_at_offset_zero (out : lab_png.data_IHDR) (bytes : List lab_png.U8) (p : Nat)
    (h : bytes.take 8 = lab_png.expected_signature) :
    (lab_png.get_png_data_IHDR out { data := bytes, pos := p } 0 lab_png.Whence.SEEK_SET).1 = 0 := by
  apply (lab_png.get_png_data_IHDR_fail out _ 0 lab_png.Whence.SEEK_SET _).1
  have hs := lab_png.fseek_set { data := bytes, pos := p } 0
  rw [Nat.cast_zero] at hs
  rw [hs]
  rintro ⟨_, _, _, h3⟩
  have h4 : ((bytes.take 8).drop 4).take 4 = [0x0D, 0x0A, 0x1A, 0x0A] := by rw [h]; rfl
  have h5 : ((bytes.take 8).drop 4).take 4 = (bytes.drop 4).take 4 := by
    rw [List.drop_take, List.take_take]
    rfl
  rw [h5] at h4
  have h6 : lab_png.remaining
      (0, ({ data := ({ data := bytes, pos := p } : lab_png.FILE).data, pos := 0 } :
        lab_png.FILE)).2 = bytes := rfl
  rw [h6, h4] at h3
  exact absurd h3 (by decide)

/-- C26: `main` asks for the header at file offset 0. For every file whose
first 8 bytes are the PNG signature, `get_png_data_IHDR` at offset 0 returns 0
whatever the position of the stream, so `main` prints the line of the invalid
header and nothing else and returns `EXIT_FAILURE`: neither the dimensions nor
the CRC line is printed. -/
theorem main_rejects_every_png (ihdr0 : lab_png.data_IHDR) (bytes : List lab_png.U8)
    (h : bytes.take 8 = lab_png.expected_signature) :
    lab_png.is_png bytes bytes.length = 1 ∧
    (∀ (out : lab_png.data_IHDR) (p : Nat),
      (lab_png.get_png_data_IHDR out { data := bytes, pos := p } 0
        lab_png.Whence.SEEK_SET).1 = 0) ∧
    main ihdr0 2 (some bytes) = (lab_png.EXIT_FAILURE, [message.invalid_IHDR]) := by
  have hlen : 8 ≤ bytes.length := by
    have := congrArg List.length h
    rw [List.length_take] at this
    have h8 : lab_png.expected_signature.length = 8 := rfl
    omega
  have hsig := (lab_png.signature_check_iff bytes).not.mpr (not_not.mpr h)
  refine ⟨?_, fun out p => header_at_offset_zero out bytes p h, ?_⟩
  · have hn : ¬ bytes.length < 8 := by omega
    simp only [lab_png.is_png, lab_png.PNG_SIG_SIZE, hn, if_false, h, if_true]
  · unfold main
    rw [if_neg (by decide)]
    dsimp only
    rw [if_neg hsig]
    have hfp : (lab_png.fread lab_png.PNG_SIG_SIZE { data := bytes, pos := 0 }).2 =
        { data := bytes, pos := 0 + min lab_png.PNG_SIG_SIZE (bytes.length - 0) } :=
      lab_png.fread_snd _ _
    rw [hfp]
    have h0 := header_at_offset_zero ihdr0 bytes
      (0 + min lab_png.PNG_SIG_SIZE (bytes.length - 0)) h
    generalize lab_png.get_png_data_IHDR ihdr0
      { data := bytes, pos := 0 + min lab_png.PNG_SIG_SIZE (bytes.length - 0) } 0
      lab_png.Whence.SEEK_SET = res at h0
    obtain ⟨r, ihdr, fp⟩ := res
    dsimp only at h0 ⊢
    rw [if_pos h0]

theorem main_rejects_every_png_witness :
    example_file.take 8 = lab_png.expected_signature ∧
    main lab_png.zero_IHDR 2 (some example_file) =
      (lab_png.EXIT_FAILURE, [message.invalid_IHDR]) :=
  ⟨by decide, (main_rejects_every_png lab_png.zero_IHDR example_file (by decide)).2.2⟩

end pnginfo
